import Mathlib

/-!
# Device registry and progress tracker of the per-VM context (`api/qemu/context.go`)

A shallow embedding of `QemuContext` and of the operations that ingest a pod
specification and the host-helper completion events, followed by theorems about them.

Conventions of the embedding

* Go `int` is `Int`; the allocators wrap explicitly at the machine width
  (`int` is taken to be 64 bits wide, `uint64` is `Nat` modulo `2^64`).
* Go `map[K]V` is an association list with pairwise distinct keys (`GoMap`);
  the order in which `range` visits a map is unspecified in Go and is supplied
  by the caller as a `RangeOrder`.
* A Go slice is a `List`; the two slices whose nil-ness is observable
  (`VmPod.Interfaces`, `VmPod.Routes`) are `Option (List _)`, `none` being `nil`.
* A run-time panic or a goroutine blocked forever on its own mutex is an
  `Except.error`; the mutex is the `lock` field (`true` = held).
* Channels, Unix listeners and the files of the host live in a separate `Host`
  state; the steps of an operation that touch the lock, a channel, a listener or
  the file system are `Action`s, and `Close` is the run of its steps.
* Of the aufs driver (`api/storage/aufs/aufs.go`) the functions `aufsMount` and
  `loadIds` are embedded; there a Go string is the list of its bytes, and the
  unbounded outer loop of `aufsMount` runs on fuel.
-/

namespace Hyper

/-! ## Go maps -/

/-- Go `map[K]V`: the entries, in no particular order. -/
abbrev GoMap (K V : Type) := List (K × V)

namespace GoMap

variable {K V : Type} [DecidableEq K]

/-- The keys of the map. -/
def keys (m : GoMap K V) : List K := m.map Prod.fst

/-- Value lookup `v, ok := m[k]`. -/
def get? (m : GoMap K V) (k : K) : Option V :=
  match m with
  | [] => none
  | (k', v) :: rest => if k' = k then some v else get? rest k

/-- Key test `_, ok := m[k]`. -/
def contains (m : GoMap K V) (k : K) : Bool := (m.get? k).isSome

/-- Assignment `m[k] = v`. -/
def set (m : GoMap K V) (k : K) (v : V) : GoMap K V :=
  match m with
  | [] => [(k, v)]
  | (k', v') :: rest => if k' = k then (k, v) :: rest else (k', v') :: set rest k v

/-- Builtin `delete(m, k)`. -/
def delete (m : GoMap K V) (k : K) : GoMap K V :=
  match m with
  | [] => []
  | (k', v') :: rest => if k' = k then delete rest k else (k', v') :: delete rest k

/-- Builtin `len(m)`. -/
def len (m : GoMap K V) : Nat := m.length

/-- Representation invariant of a Go map: no key occurs twice. -/
def WF (m : GoMap K V) : Prop := (keys m).Nodup

instance (m : GoMap K V) : Decidable (WF m) := inferInstanceAs (Decidable (keys m).Nodup)

end GoMap

/-- The order in which one `range` loop enumerates the entries of a map. -/
abbrev RangeOrder (K V : Type) := GoMap K V → GoMap K V

/-- A range order is admissible when it enumerates every entry exactly once. -/
def RangeOrder.Valid {K V : Type} (ord : RangeOrder K V) : Prop := ∀ m, (ord m).Perm m

/-! ## Slices indexed by a Go `int` -/

/-- Read `s[i]`; `none` when the index is out of range. -/
def getIdx {α : Type} (s : List α) (i : Int) : Option α :=
  if i < 0 then none else s.get? i.toNat

/-- Write `s[i] = x` (the caller has checked the index). -/
def setIdx {α : Type} (s : List α) (i : Int) (x : α) : List α :=
  if i < 0 then s else s.set i.toNat x

/-! ## Data model -/

/-- Faults that end an operation without a result. -/
inductive Fault where
  | nilDereference
  | indexOutOfRange
  | deadlock
  | closedChannel
  deriving DecidableEq, Repr

/-- A loop whose body can fault: the body runs on each element in turn, the first fault
ends the loop. -/
def forEach {σ α : Type} (body : σ → α → Except Fault σ) : List α → σ → Except Fault σ
  | [], s => .ok s
  | a :: rest, s =>
    match body s a with
    | .error e => .error e
    | .ok s' => forEach body rest s'

structure VmEnvironmentVar where
  Env : String
  Value : String
  deriving DecidableEq, Repr

structure VmVolumeDescriptor where
  Device : String
  Mount : String
  Fstype : String
  ReadOnly : Bool
  deriving DecidableEq, Repr

structure VmFsmapDescriptor where
  Source : String
  Path : String
  ReadOnly : Bool
  deriving DecidableEq, Repr

structure VmNetworkInf where
  Device : String
  IpAddress : String
  NetMask : String
  deriving DecidableEq, Repr

structure VmRoute where
  Dest : String
  Gateway : String
  Device : String
  deriving DecidableEq, Repr

structure VmContainer where
  Id : String
  Rootfs : String
  Fstype : String
  Image : String
  Volumes : List VmVolumeDescriptor
  Fsmap : List VmFsmapDescriptor
  Tty : Nat
  Workdir : String
  Entrypoint : List String
  Cmd : List String
  Envs : List VmEnvironmentVar
  RestartPolicy : String
  deriving DecidableEq, Repr

/-- The zero value of `VmContainer`, as produced by `make([]VmContainer, n)`. -/
def VmContainer.zero : VmContainer :=
  { Id := "", Rootfs := "", Fstype := "", Image := "", Volumes := [], Fsmap := [], Tty := 0,
    Workdir := "", Entrypoint := [], Cmd := [], Envs := [], RestartPolicy := "" }

structure VmPod where
  Hostname : String
  Containers : List VmContainer
  Interfaces : Option (List VmNetworkInf)
  Routes : Option (List VmRoute)
  Socket : String
  ShareDir : String
  deriving DecidableEq, Repr

/-! ### The user pod (`pod.UserPod`), fields read by `InitDeviceContext` -/

structure UserVolumeReference where
  Path : String
  Volume : String
  ReadOnly : Bool
  deriving DecidableEq, Repr

structure UserEnvironmentVar where
  Env : String
  Value : String
  deriving DecidableEq, Repr

structure UserContainer where
  Command : List String
  Entrypoint : List String
  Workdir : String
  Envs : List UserEnvironmentVar
  Volumes : List UserVolumeReference
  RestartPolicy : String
  deriving DecidableEq, Repr

structure UserVolume where
  Name : String
  Source : String
  Driver : String
  deriving DecidableEq, Repr

structure UserPod where
  Name : String
  Containers : List UserContainer
  Volumes : List UserVolume
  Tty : Bool
  deriving DecidableEq, Repr

/-! ### Events -/

structure ContainerCreatedEvent where
  Index : Int
  Id : String
  Rootfs : String
  Image : String
  Fstype : String
  Workdir : String
  Entrypoint : List String
  Cmd : List String
  Envs : GoMap String String
  deriving DecidableEq, Repr

structure VolumeReadyEvent where
  Name : String
  Filepath : String
  Fstype : String
  Format : String
  deriving DecidableEq, Repr

structure BlockdevInsertedEvent where
  Name : String
  SourceType : String
  DeviceName : String
  ScsiId : Int
  deriving DecidableEq, Repr

structure RouteRule where
  Destination : String
  Gateway : String
  ViaThis : Bool
  deriving DecidableEq, Repr

structure InterfaceCreated where
  Index : Int
  DeviceName : String
  IpAddr : String
  NetMask : String
  RouteTable : List RouteRule
  deriving DecidableEq, Repr

structure NetDevInsertedEvent where
  Index : Int
  deriving DecidableEq, Repr

/-! ### Registry, progress tracker, context -/

structure blockDescriptor where
  name : String
  filename : String
  format : String
  fstype : String
  deviceName : String
  scsiId : Int
  deriving DecidableEq, Repr

structure imageInfo where
  info : blockDescriptor
  pos : Int
  deriving DecidableEq, Repr

structure volumeInfo where
  info : blockDescriptor
  pos : GoMap Int String
  readOnly : GoMap Int Bool
  deriving DecidableEq, Repr

structure deviceMap where
  imageMap : GoMap String imageInfo
  volumeMap : GoMap String volumeInfo
  networkMap : GoMap Int InterfaceCreated
  deriving DecidableEq, Repr

structure processingMap where
  containers : GoMap Int Bool
  volumes : GoMap String Bool
  blockdevs : GoMap String Bool
  networks : GoMap Int Bool
  ttys : GoMap Int Bool
  serialPorts : GoMap Int Bool
  deriving DecidableEq, Repr

structure processingList where
  adding : processingMap
  deleting : processingMap
  finished : processingMap
  deriving DecidableEq, Repr

/-- The record `newAttachments(idx, persist)` stores for an attach id. -/
structure attachments where
  container : Int
  persistent : Bool
  deriving DecidableEq, Repr

/-- The fields of `QemuContext` that the registry operations read or write.
`lock` is the state of the mutex, `handlerSet` tells whether `handler` is non-nil. -/
structure QemuContext where
  id : String
  cpu : Int
  memory : Int
  pciAddr : Int
  scsiId : Int
  attachId : Nat
  kernel : String
  initrd : String
  ttys : GoMap Nat attachments
  ttySessions : GoMap String Nat
  qmpSockName : String
  dvmSockName : String
  ttySockName : String
  consoleSockName : String
  shareDir : String
  handlerSet : Bool
  userSpec : Option UserPod
  vmSpec : Option VmPod
  devices : deviceMap
  progress : processingList
  lock : Bool
  deriving DecidableEq, Repr

def newDeviceMap : deviceMap :=
  { imageMap := [], volumeMap := [], networkMap := [] }

def newProcessingMap : processingMap :=
  { containers := [], volumes := [], blockdevs := [], networks := [], ttys := [],
    serialPorts := [] }

def newProcessingList : processingList :=
  { adding := newProcessingMap, deleting := newProcessingMap, finished := newProcessingMap }

/-- Modelled from the spec: the constant `ShareDir` is declared outside this file; the
spec gives the 9p mount tag as `share_dir`. -/
def ShareDir : String := "share_dir"

/-- Modelled from the spec: the constant `QmpSockName` is declared outside this file;
the spec gives the QMP socket as `<base>/<vmid>/qmp.sock`. -/
def QmpSockName : String := "qmp.sock"

/-- Modelled from the spec: the constant `DvmSockName` is declared outside this file;
the spec gives the guest-agent socket as `<base>/<vmid>/dvm.sock`. -/
def DvmSockName : String := "dvm.sock"

/-- Modelled from the spec: the constant `TtySockName` is declared outside this file;
the spec gives the tty socket as `<base>/<vmid>/tty.sock`. -/
def TtySockName : String := "tty.sock"

/-- Modelled from the spec: the constant `ConsoleSockName` is declared outside this
file; the spec gives the console socket as `<base>/<vmid>/console.sock`. -/
def ConsoleSockName : String := "console.sock"

/-- The context returned by `initContext` when the directory and the three listeners
are created without error; the constants `PciAddrFrom` and `BaseDir` (declared outside
this file) are parameters. -/
def initContext (PciAddrFrom : Int) (BaseDir : String) (id : String) (cpu memory : Int)
    (kernel initrd : String) : QemuContext :=
  let homeDir := BaseDir ++ "/" ++ id ++ "/"
  let qmpSockName := homeDir ++ QmpSockName
  let dvmSockName := homeDir ++ DvmSockName
  let ttySockName := homeDir ++ TtySockName
  let consoleSockName := homeDir ++ ConsoleSockName
  let shareDir := homeDir ++ ShareDir
  { id := id, cpu := cpu, memory := memory, pciAddr := PciAddrFrom, scsiId := 0, attachId := 1,
    kernel := kernel, initrd := initrd, ttys := [], ttySessions := [],
    qmpSockName := qmpSockName, dvmSockName := dvmSockName, ttySockName := ttySockName,
    consoleSockName := consoleSockName, shareDir := shareDir, handlerSet := true,
    userSpec := none, vmSpec := none, devices := newDeviceMap, progress := newProcessingList,
    lock := false }

/-- `pm.isEmpty()`. -/
def processingMap.isEmpty (pm : processingMap) : Bool :=
  pm.containers.len == 0 && pm.volumes.len == 0 && pm.blockdevs.len == 0 &&
    pm.networks.len == 0

namespace QemuContext

/-- `ctx.lock.Lock()`: a goroutine that already holds the mutex blocks forever. -/
def Lock (ctx : QemuContext) : Except Fault QemuContext :=
  if ctx.lock then .error .deadlock else .ok { ctx with lock := true }

/-- `ctx.lock.Unlock()`. -/
def Unlock (ctx : QemuContext) : QemuContext := { ctx with lock := false }

/-- Signed 64-bit wrap-around of `x`. -/
def wrapInt (x : Int) : Int := (x + 2 ^ 63) % 2 ^ 64 - 2 ^ 63

/-- `ctx.resetAddr()`. -/
def resetAddr (PciAddrFrom : Int) (ctx : QemuContext) : Except Fault QemuContext :=
  match ctx.Lock with
  | .error e => .error e
  | .ok ctx =>
    let ctx := { ctx with pciAddr := PciAddrFrom }
    let ctx := { ctx with scsiId := 0 }
    .ok ctx.Unlock

/-- `ctx.nextScsiId()`. -/
def nextScsiId (ctx : QemuContext) : Except Fault (QemuContext × Int) :=
  match ctx.Lock with
  | .error e => .error e
  | .ok ctx =>
    let id := ctx.scsiId
    let ctx := { ctx with scsiId := wrapInt (ctx.scsiId + 1) }
    .ok (ctx.Unlock, id)

/-- `ctx.nextPciAddr()`. -/
def nextPciAddr (ctx : QemuContext) : Except Fault (QemuContext × Int) :=
  match ctx.Lock with
  | .error e => .error e
  | .ok ctx =>
    let addr := ctx.pciAddr
    let ctx := { ctx with pciAddr := wrapInt (ctx.pciAddr + 1) }
    .ok (ctx.Unlock, addr)

/-- `ctx.nextAttachId()`. -/
def nextAttachId (ctx : QemuContext) : Except Fault (QemuContext × Nat) :=
  match ctx.Lock with
  | .error e => .error e
  | .ok ctx =>
    let id := ctx.attachId
    let ctx := { ctx with attachId := (ctx.attachId + 1) % 2 ^ 64 }
    .ok (ctx.Unlock, id)

/-- The container `ctx.vmSpec.Containers[i]`, when the pod and the index exist. -/
def container? (ctx : QemuContext) (i : Int) : Option VmContainer :=
  match ctx.vmSpec with
  | none => none
  | some vm => getIdx vm.Containers i

/-- Apply `f` to `ctx.progress.adding`. -/
def modAdding (ctx : QemuContext) (f : processingMap → processingMap) : QemuContext :=
  { ctx with progress := { ctx.progress with adding := f ctx.progress.adding } }

/-- Apply `f` to `ctx.progress.deleting`. -/
def modDeleting (ctx : QemuContext) (f : processingMap → processingMap) : QemuContext :=
  { ctx with progress := { ctx.progress with deleting := f ctx.progress.deleting } }

/-- Apply `f` to `ctx.progress.finished`. -/
def modFinished (ctx : QemuContext) (f : processingMap → processingMap) : QemuContext :=
  { ctx with progress := { ctx.progress with finished := f ctx.progress.finished } }

/-- Apply `f` to `ctx.devices`. -/
def modDevices (ctx : QemuContext) (f : deviceMap → deviceMap) : QemuContext :=
  { ctx with devices := f ctx.devices }

/-- Store `c` into `ctx.vmSpec.Containers[i]` of the pod `vm`. -/
def putContainer (ctx : QemuContext) (vm : VmPod) (i : Int) (c : VmContainer) : QemuContext :=
  { ctx with vmSpec := some { vm with Containers := setIdx vm.Containers i c } }

/-- Lines 296-305 of `containerCreated`: the resolved command line. -/
def resolveCmd (c : VmContainer) (info : ContainerCreatedEvent) : List String :=
  let cmd := c.Entrypoint
  let cmd :=
    if c.Entrypoint.length == 0 && info.Entrypoint.length > 0 then info.Entrypoint else cmd
  if c.Cmd.length > 0 then cmd ++ c.Cmd
  else if info.Cmd.length > 0 then cmd ++ info.Cmd
  else cmd

/-- Lines 311-315 of `containerCreated`: the image environment after the keys that the
container already defines have been deleted from it. -/
def pruneEnvs (envs : List VmEnvironmentVar) (infoEnvs : GoMap String String) :
    GoMap String String :=
  envs.foldl (fun m e => if m.contains e.Env then m.delete e.Env else m) infoEnvs

/-- Lines 316-318 of `containerCreated`: append the enumerated pairs to `c.Envs`. -/
def appendEnvs (envs : List VmEnvironmentVar) (pairs : List (String × String)) :
    List VmEnvironmentVar :=
  pairs.foldl (fun acc ev => acc ++ [{ Env := ev.1, Value := ev.2 }]) envs

/-- Lines 292-318 of `containerCreated`: the updates of the container record that do
not depend on the kind of root file system. -/
def mergeCreated (ord : RangeOrder String String) (c : VmContainer)
    (info : ContainerCreatedEvent) : VmContainer :=
  { c with
    Id := info.Id
    Rootfs := info.Rootfs
    Fstype := info.Fstype
    Cmd := resolveCmd c info
    Entrypoint := []
    Workdir := if c.Workdir == "" then info.Workdir else c.Workdir
    Envs := appendEnvs c.Envs (ord (pruneEnvs c.Envs info.Envs)) }

/-- `ctx.containerCreated(info)`; `ord` is the order of the `range info.Envs` loop. -/
def containerCreated (ord : RangeOrder String String) (ctx : QemuContext)
    (info : ContainerCreatedEvent) : Except Fault (QemuContext × Bool) :=
  match ctx.Lock with
  | .error e => .error e
  | .ok ctx =>
    match ctx.vmSpec with
    | none => .error .nilDereference
    | some vm =>
      match getIdx vm.Containers info.Index with
      | none => .error .indexOutOfRange
      | some c =>
        let c := mergeCreated ord c info
        if info.Fstype == "dir" then
          let c := { c with Image := info.Image }
          let ctx := ctx.putContainer vm info.Index c
          let ctx := ctx.modFinished fun pm =>
            { pm with containers := pm.containers.set info.Index true }
          let ctx := ctx.modAdding fun pm =>
            { pm with containers := pm.containers.delete info.Index }
          .ok (ctx.Unlock, false)
        else
          let ctx := ctx.putContainer vm info.Index c
          let image : imageInfo :=
            { info := { name := info.Image, filename := info.Image, format := "raw",
                        fstype := info.Fstype, deviceName := "", scsiId := 0 },
              pos := info.Index }
          let ctx := ctx.modDevices fun d =>
            { d with imageMap := d.imageMap.set info.Image image }
          let ctx := ctx.modAdding fun pm =>
            { pm with blockdevs := pm.blockdevs.set info.Image true }
          let ctx := ctx.modFinished fun pm =>
            { pm with containers := pm.containers.set info.Index true }
          let ctx := ctx.modAdding fun pm =>
            { pm with containers := pm.containers.delete info.Index }
          .ok (ctx.Unlock, true)

/-- Append `d` to `ctx.vmSpec.Containers[i].Volumes`. -/
def appendVolume (ctx : QemuContext) (i : Int) (d : VmVolumeDescriptor) :
    Except Fault QemuContext :=
  match ctx.vmSpec with
  | none => .error .nilDereference
  | some vm =>
    match getIdx vm.Containers i with
    | none => .error .indexOutOfRange
    | some c => .ok (ctx.putContainer vm i { c with Volumes := c.Volumes ++ [d] })

/-- Append `d` to `ctx.vmSpec.Containers[i].Fsmap`. -/
def appendFsmap (ctx : QemuContext) (i : Int) (d : VmFsmapDescriptor) :
    Except Fault QemuContext :=
  match ctx.vmSpec with
  | none => .error .nilDereference
  | some vm =>
    match getIdx vm.Containers i with
    | none => .error .indexOutOfRange
    | some c => .ok (ctx.putContainer vm i { c with Fsmap := c.Fsmap ++ [d] })

/-- Lines 362-365 of `volumeReady`: move the volume from `adding` to `finished`. -/
def finishVolume (ctx : QemuContext) (name : String) : QemuContext :=
  let ctx := ctx.modFinished fun pm => { pm with volumes := pm.volumes.set name true }
  if ctx.progress.adding.volumes.contains name then
    ctx.modAdding fun pm => { pm with volumes := pm.volumes.delete name }
  else ctx

/-- `ctx.volumeReady(info)`; `ord` is the order of the `range vol.pos` loop. -/
def volumeReady (ord : RangeOrder Int String) (ctx : QemuContext) (info : VolumeReadyEvent) :
    Except Fault (QemuContext × Bool) :=
  match ctx.Lock with
  | .error e => .error e
  | .ok ctx =>
    match ctx.devices.volumeMap.get? info.Name with
    | none => .error .nilDereference
    | some vol =>
      let vol := { vol with info := { vol.info with
        filename := info.Filepath, format := info.Format, fstype := info.Fstype } }
      let ctx := ctx.modDevices fun d => { d with volumeMap := d.volumeMap.set info.Name vol }
      if info.Fstype != "dir" then
        let ctx := ctx.modAdding fun pm => { pm with blockdevs := pm.blockdevs.set info.Name true }
        .ok ((ctx.finishVolume info.Name).Unlock, true)
      else
        match forEach (fun ctx (e : Int × String) => ctx.appendFsmap e.1
            { Source := info.Filepath, Path := e.2,
              ReadOnly := (vol.readOnly.get? e.1).getD false }) (ord vol.pos) ctx with
        | .error e => .error e
        | .ok ctx => .ok ((ctx.finishVolume info.Name).Unlock, false)

/-- Lines 394-397 of `blockdevInserted`: move the device from `adding` to `finished`. -/
def finishBlockdev (ctx : QemuContext) (name : String) : QemuContext :=
  let ctx := ctx.modFinished fun pm => { pm with blockdevs := pm.blockdevs.set name true }
  if ctx.progress.adding.blockdevs.contains name then
    ctx.modAdding fun pm => { pm with blockdevs := pm.blockdevs.delete name }
  else ctx

/-- Lines 374-392 of `blockdevInserted`: record the guest device and propagate it to the
containers. -/
def recordBlockdev (ord : RangeOrder Int String) (ctx : QemuContext)
    (info : BlockdevInsertedEvent) : Except Fault QemuContext :=
  if info.SourceType == "image" then
    match ctx.devices.imageMap.get? info.Name with
    | none => .error .nilDereference
    | some image =>
      let image := { image with info := { image.info with
        deviceName := info.DeviceName, scsiId := info.ScsiId } }
      let ctx := ctx.modDevices fun d => { d with imageMap := d.imageMap.set info.Name image }
      match ctx.vmSpec with
      | none => .error .nilDereference
      | some vm =>
        match getIdx vm.Containers image.pos with
        | none => .error .indexOutOfRange
        | some c => .ok (ctx.putContainer vm image.pos { c with Image := info.DeviceName })
  else if info.SourceType == "volume" then
    match ctx.devices.volumeMap.get? info.Name with
    | none => .error .nilDereference
    | some volume =>
      let volume := { volume with info := { volume.info with
        deviceName := info.DeviceName, scsiId := info.ScsiId } }
      let ctx := ctx.modDevices fun d => { d with volumeMap := d.volumeMap.set info.Name volume }
      forEach (fun ctx (e : Int × String) => ctx.appendVolume e.1
        { Device := info.DeviceName, Mount := e.2, Fstype := volume.info.fstype,
          ReadOnly := (volume.readOnly.get? e.1).getD false }) (ord volume.pos) ctx
  else .ok ctx

/-- `ctx.blockdevInserted(info)`; `ord` is the order of the `range volume.pos` loop. -/
def blockdevInserted (ord : RangeOrder Int String) (ctx : QemuContext)
    (info : BlockdevInsertedEvent) : Except Fault QemuContext :=
  match ctx.Lock with
  | .error e => .error e
  | .ok ctx =>
    match ctx.recordBlockdev ord info with
    | .error e => .error e
    | .ok ctx => .ok (ctx.finishBlockdev info.Name).Unlock

/-- `ctx.interfaceCreated(info)`. -/
def interfaceCreated (ctx : QemuContext) (info : InterfaceCreated) : Except Fault QemuContext :=
  match ctx.Lock with
  | .error e => .error e
  | .ok ctx =>
    .ok (ctx.modDevices fun d => { d with networkMap := d.networkMap.set info.Index info }).Unlock

/-- The zero value of `VmNetworkInf`. -/
def zeroInf : VmNetworkInf := { Device := "", IpAddress := "", NetMask := "" }

/-- Lines 422-432 of `netdevInserted`: append the routes of one interface; the device of
a route is read from `infs[i]`. -/
def appendRoutes (infs : List VmNetworkInf) (i : Nat) (routes : List VmRoute)
    (table : List RouteRule) : List VmRoute :=
  table.foldl (fun routes rl =>
    let dev := ""
    let dev := if rl.ViaThis then (infs.getD i zeroInf).Device else dev
    routes ++ [{ Dest := rl.Destination, Gateway := rl.Gateway, Device := dev }]) routes

/-- Lines 418-432 of `netdevInserted`: one turn of the loop over the interface indices. -/
def buildInterface (networkMap : GoMap Int InterfaceCreated)
    (st : List VmNetworkInf × List VmRoute) (i : Nat) :
    Except Fault (List VmNetworkInf × List VmRoute) :=
  match networkMap.get? (i : Int) with
  | none => .error .nilDereference
  | some nw =>
    let infs := st.1.modify (fun inf => { inf with Device := nw.DeviceName }) i
    let infs := infs.modify (fun inf => { inf with IpAddress := nw.IpAddr }) i
    let infs := infs.modify (fun inf => { inf with NetMask := nw.NetMask }) i
    .ok (infs, appendRoutes infs i st.2 nw.RouteTable)

/-- Lines 414-433 of `netdevInserted`: the interface list and the route table. -/
def buildNetwork (networkMap : GoMap Int InterfaceCreated) :
    Except Fault (List VmNetworkInf × List VmRoute) :=
  let count := networkMap.len
  let infs := List.replicate count zeroInf
  let routes : List VmRoute := []
  forEach (buildInterface networkMap) (List.range count) (infs, routes)

/-- Lines 409-412 of `netdevInserted`: move the network from `adding` to `finished`. -/
def finishNetwork (ctx : QemuContext) (index : Int) : QemuContext :=
  let ctx := ctx.modFinished fun pm => { pm with networks := pm.networks.set index true }
  if ctx.progress.adding.networks.contains index then
    ctx.modAdding fun pm => { pm with networks := pm.networks.delete index }
  else ctx

/-- `ctx.netdevInserted(info)`. -/
def netdevInserted (ctx : QemuContext) (info : NetDevInsertedEvent) : Except Fault QemuContext :=
  match ctx.Lock with
  | .error e => .error e
  | .ok ctx =>
    let ctx := ctx.finishNetwork info.Index
    if ctx.progress.adding.networks.len == 0 then
      match buildNetwork ctx.devices.networkMap with
      | .error e => .error e
      | .ok (infs, routes) =>
        match ctx.vmSpec with
        | none => .error .nilDereference
        | some vm =>
          let vm := { vm with Interfaces := some infs }
          let vm := { vm with Routes := some routes }
          .ok ({ ctx with vmSpec := some vm } : QemuContext).Unlock
    else .ok ctx.Unlock

/-- Lines 566-568 of `InitDeviceContext`: mark the networks pending. -/
def addNetworks (ctx : QemuContext) (networks : Int) : QemuContext :=
  (List.range networks.toNat).foldl
    (fun ctx (i : Nat) =>
      ctx.modAdding fun pm => { pm with networks := pm.networks.set (i : Int) true })
    ctx

/-- A volume entry with empty mount maps. -/
def newVolumeInfo (name filename format fstype : String) : volumeInfo :=
  { info := { name := name, filename := filename, format := format, fstype := fstype,
              deviceName := "", scsiId := 0 },
    pos := [], readOnly := [] }

/-- Lines 571-598 of `InitDeviceContext`: one turn of the loop over the volumes (the
local map `isFsmap` is written and never read, and is left out). -/
def classifyVolume (ctx : QemuContext) (vol : UserVolume) : QemuContext :=
  let ctx :=
    if vol.Source == "" then
      let entry := newVolumeInfo vol.Name "" "" ""
      ctx.modDevices fun d => { d with volumeMap := d.volumeMap.set vol.Name entry }
    else if vol.Driver == "raw" || vol.Driver == "qcow2" then
      let entry := newVolumeInfo vol.Name vol.Source vol.Driver "ext4"
      let ctx := ctx.modDevices fun d => { d with volumeMap := d.volumeMap.set vol.Name entry }
      ctx.modAdding fun pm => { pm with blockdevs := pm.blockdevs.set vol.Name true }
    else if vol.Driver == "vfs" then
      let entry := newVolumeInfo vol.Name vol.Source vol.Driver "dir"
      ctx.modDevices fun d => { d with volumeMap := d.volumeMap.set vol.Name entry }
    else ctx
  ctx.modAdding fun pm => { pm with volumes := pm.volumes.set vol.Name true }

/-- Lines 606-607 of `InitDeviceContext`: record one mount of container `i` in the entry
of the volume it names. -/
def recordMount (i : Int) (ctx : QemuContext) (v : UserVolumeReference) :
    Except Fault QemuContext :=
  match ctx.devices.volumeMap.get? v.Volume with
  | none => .error .nilDereference
  | some vol =>
    let vol := { vol with pos := vol.pos.set i v.Path }
    let vol := { vol with readOnly := vol.readOnly.set i v.ReadOnly }
    .ok (ctx.modDevices fun d => { d with volumeMap := d.volumeMap.set v.Volume vol })

/-- Lines 602-632 of `InitDeviceContext`: one turn of the loop over the containers; the
state is the context and the slice `containers`. -/
def initContainer (spec : UserPod) (st : QemuContext × List VmContainer)
    (e : Nat × UserContainer) : Except Fault (QemuContext × List VmContainer) :=
  let i : Int := e.1
  let container := e.2
  match forEach (recordMount i) container.Volumes st.1 with
  | .error err => .error err
  | .ok ctx =>
    let envs : List VmEnvironmentVar :=
      container.Envs.map fun e => { Env := e.Env, Value := e.Value }
    let restart := "never"
    let restart := if container.RestartPolicy.length > 0 then container.RestartPolicy else restart
    let containers := setIdx st.2 i
      { Id := "", Rootfs := "rootfs", Fstype := "ext4", Image := "", Volumes := [], Fsmap := [],
        Tty := 0, Workdir := container.Workdir, Entrypoint := container.Entrypoint,
        Cmd := container.Command, Envs := envs, RestartPolicy := restart }
    let ctx := ctx.modAdding fun pm => { pm with containers := pm.containers.set i true }
    if spec.Tty then
      match ctx.nextAttachId with
      | .error err => .error err
      | .ok (ctx, id) =>
        let containers := containers.modify (fun c => { c with Tty := id }) e.1
        .ok ({ ctx with ttys := ctx.ttys.set id { container := i, persistent := true } },
          containers)
    else .ok (ctx, containers)

/-- `ctx.InitDeviceContext(spec, networks)`. -/
def InitDeviceContext (ctx : QemuContext) (spec : UserPod) (networks : Int) :
    Except Fault QemuContext :=
  match ctx.Lock with
  | .error e => .error e
  | .ok ctx =>
    let ctx := ctx.addNetworks networks
    let ctx := spec.Volumes.foldl classifyVolume ctx
    let containers := List.replicate spec.Containers.length VmContainer.zero
    match forEach (initContainer spec) spec.Containers.enum (ctx, containers) with
    | .error e => .error e
    | .ok (ctx, containers) =>
      let vm : VmPod :=
        { Hostname := spec.Name, Containers := containers, Interfaces := none, Routes := none,
          Socket := ctx.dvmSockName, ShareDir := ShareDir }
      let ctx := { ctx with vmSpec := some vm }
      let ctx := { ctx with userSpec := some spec }
      .ok ctx.Unlock

/-- `ctx.deviceReady()`. -/
def deviceReady (ctx : QemuContext) : Bool :=
  ctx.progress.adding.isEmpty && ctx.progress.deleting.isEmpty

end QemuContext

/-! ## Invariants of the registry -/

/-- The context `b` agrees with `a` on everything but `devices.volumeMap` and
`progress.adding`. -/
structure RegistryFrame (a b : QemuContext) : Prop where
  id : b.id = a.id
  cpu : b.cpu = a.cpu
  memory : b.memory = a.memory
  pciAddr : b.pciAddr = a.pciAddr
  scsiId : b.scsiId = a.scsiId
  attachId : b.attachId = a.attachId
  kernel : b.kernel = a.kernel
  initrd : b.initrd = a.initrd
  ttys : b.ttys = a.ttys
  ttySessions : b.ttySessions = a.ttySessions
  qmpSockName : b.qmpSockName = a.qmpSockName
  dvmSockName : b.dvmSockName = a.dvmSockName
  ttySockName : b.ttySockName = a.ttySockName
  consoleSockName : b.consoleSockName = a.consoleSockName
  shareDir : b.shareDir = a.shareDir
  handlerSet : b.handlerSet = a.handlerSet
  userSpec : b.userSpec = a.userSpec
  vmSpec : b.vmSpec = a.vmSpec
  lock : b.lock = a.lock
  imageMap : b.devices.imageMap = a.devices.imageMap
  networkMap : b.devices.networkMap = a.devices.networkMap
  deleting : b.progress.deleting = a.progress.deleting
  finished : b.progress.finished = a.progress.finished
  addingTtys : b.progress.adding.ttys = a.progress.adding.ttys
  addingSerialPorts : b.progress.adding.serialPorts = a.progress.adding.serialPorts

/-- Every volume entry records at most one mount per container index, and only for
indices below `n`. -/
def MountsBelow (n : Nat) (ctx : QemuContext) : Prop :=
  ∀ name vol, ctx.devices.volumeMap.get? name = some vol →
    vol.pos.WF ∧ ∀ i ∈ vol.pos.keys, 0 ≤ i ∧ i < (n : Int)

/-- A declared volume for which `InitDeviceContext` creates a registry entry. -/
def UserVolume.registered (vol : UserVolume) : Prop :=
  vol.Source = "" ∨ vol.Driver = "raw" ∨ vol.Driver = "qcow2" ∨ vol.Driver = "vfs"

/-- A declared volume that is a block device from the start. -/
def UserVolume.isBlockdev (vol : UserVolume) : Prop :=
  vol.Source ≠ "" ∧ (vol.Driver = "raw" ∨ vol.Driver = "qcow2")

/-- What `InitDeviceContext` establishes when it returns `c1` from the context `c0`. -/
structure InitPost (c0 : QemuContext) (spec : UserPod) (networks : Int) (c1 : QemuContext) :
    Prop where
  noTty : spec.Containers ≠ [] → spec.Tty = false
  lock : c1.lock = false
  userSpec : c1.userSpec = some spec
  vmSpec : ∃ vm, c1.vmSpec = some vm ∧ vm.Containers.length = spec.Containers.length ∧
    vm.Interfaces = none ∧ vm.Routes = none ∧ vm.Hostname = spec.Name
  imageMap : c1.devices.imageMap = c0.devices.imageMap
  networkMap : c1.devices.networkMap = c0.devices.networkMap
  deleting : c1.progress.deleting = c0.progress.deleting
  finished : c1.progress.finished = c0.progress.finished
  attachId : c1.attachId = c0.attachId
  ttys : c1.ttys = c0.ttys
  addingNetworks : ∀ k, k ∈ c1.progress.adding.networks.keys ↔
    k ∈ c0.progress.adding.networks.keys ∨ (0 ≤ k ∧ k < networks)
  addingVolumes : ∀ k, k ∈ c1.progress.adding.volumes.keys ↔
    (∃ vol ∈ spec.Volumes, k = vol.Name) ∨ k ∈ c0.progress.adding.volumes.keys
  addingBlockdevs : ∀ k, k ∈ c1.progress.adding.blockdevs.keys ↔
    (∃ vol ∈ spec.Volumes, k = vol.Name ∧ vol.isBlockdev) ∨
      k ∈ c0.progress.adding.blockdevs.keys
  addingContainers : ∀ k, k ∈ c1.progress.adding.containers.keys ↔
    (0 ≤ k ∧ k < (spec.Containers.length : Int)) ∨ k ∈ c0.progress.adding.containers.keys
  volumeMap : ∀ k, k ∈ c1.devices.volumeMap.keys ↔
    (∃ vol ∈ spec.Volumes, k = vol.Name ∧ vol.registered) ∨ k ∈ c0.devices.volumeMap.keys
  mounts : MountsBelow spec.Containers.length c0 → MountsBelow spec.Containers.length c1

/-- Every mount of every container names a volume that has a registry entry once the
volumes of the pod are classified. -/
def MountsDeclared (c0 : QemuContext) (spec : UserPod) : Prop :=
  ∀ c ∈ spec.Containers, ∀ v ∈ c.Volumes,
    (∃ vol ∈ spec.Volumes, v.Volume = vol.Name ∧ vol.registered) ∨
      v.Volume ∈ c0.devices.volumeMap.keys

/-- The record the container loop of `InitDeviceContext` stores for a declared
container before any attach id is allocated. -/
def initialContainer (container : UserContainer) : VmContainer :=
  { Id := "", Rootfs := "rootfs", Fstype := "ext4", Image := "", Volumes := [], Fsmap := [],
    Tty := 0, Workdir := container.Workdir, Entrypoint := container.Entrypoint,
    Cmd := container.Command,
    Envs := container.Envs.map fun e => { Env := e.Env, Value := e.Value },
    RestartPolicy :=
      if container.RestartPolicy.length > 0 then container.RestartPolicy else "never" }

/-- The effect of the mount `v` of container `i` on the registry entry of the volume
named `V`: it is recorded when the mount names `V`. -/
def recordedMount (V : String) (i : Int) (vol : volumeInfo) (v : UserVolumeReference) :
    volumeInfo :=
  if v.Volume = V then
    { vol with pos := vol.pos.set i v.Path, readOnly := vol.readOnly.set i v.ReadOnly }
  else vol

/-- The effect of all the mounts of the containers `l` on the registry entry of `V`. -/
def recordedMounts (V : String) (l : List (Nat × UserContainer)) (vol : volumeInfo) :
    volumeInfo :=
  l.foldl (fun vol e => e.2.Volumes.foldl (recordedMount V (e.1 : Int)) vol) vol

/-- A registry whose volume entries have distinct names and no mount recorded. -/
def VolumesUnmounted (ctx : QemuContext) : Prop :=
  ctx.devices.volumeMap.WF ∧
    ∀ V vol, ctx.devices.volumeMap.get? V = some vol → vol.pos = [] ∧ vol.readOnly = []

/-- The mount of the volume `V` declared by a container, with the container's index:
index, mount path and read-only flag. -/
def declaredMount (V : String) (e : Nat × UserContainer) : Option (Int × String × Bool) :=
  (e.2.Volumes.find? (fun v => decide (v.Volume = V))).map
    (fun v => ((e.1 : Int), v.Path, v.ReadOnly))

/-! ## Sequences of completion events -/

/-- Deliver `ContainerCreated` events in turn; the results of the calls are dropped. -/
def containersCreated (ord : RangeOrder String String) (evs : List ContainerCreatedEvent)
    (ctx : QemuContext) : Except Fault QemuContext :=
  forEach (fun c e => (c.containerCreated ord e).map Prod.fst) evs ctx

/-- Deliver `BlockdevInserted` events in turn. -/
def blockdevsInserted (ord : RangeOrder Int String) (evs : List BlockdevInsertedEvent)
    (ctx : QemuContext) : Except Fault QemuContext :=
  forEach (fun c e => c.blockdevInserted ord e) evs ctx

/-- The image entry `containerCreated` registers for an event. -/
def registeredImage (info : ContainerCreatedEvent) : imageInfo :=
  { info := { name := info.Image, filename := info.Image, format := "raw",
              fstype := info.Fstype, deviceName := "", scsiId := 0 },
    pos := info.Index }

/-! ## The command line of QEMU -/

/-- `strconv.Itoa`. -/
def Itoa (n : Int) : String := toString n

/-- `ctx.QemuArguments()`; `kvmNotExist` is the value of `os.IsNotExist(err)` for the
error of `os.Stat("/dev/kvm")`. The value after `-append` is the Go literal
`"\"console=ttyS0 panic=1\""`: it begins and ends with a double-quote character. -/
def QemuContext.QemuArguments (ctx : QemuContext) (kvmNotExist : Bool) : List String :=
  let platformParams := ["-machine", "pc-i440fx-2.0,accel=kvm,usb=off", "-global",
    "kvm-pit.lost_tick_policy=discard", "-cpu", "host"]
  let platformParams :=
    if kvmNotExist then ["-machine", "pc-i440fx-2.0,usb=off", "-cpu", "core2duo"]
    else platformParams
  platformParams ++
    ["-realtime", "mlock=off", "-no-user-config", "-nodefaults", "-no-hpet",
     "-rtc", "base=utc,driftfix=slew", "-no-reboot", "-display", "none", "-boot", "strict=on",
     "-m", Itoa ctx.memory, "-smp", Itoa ctx.cpu,
     "-kernel", ctx.kernel, "-initrd", ctx.initrd, "-append", "\x22console=ttyS0 panic=1\x22",
     "-qmp", "unix:" ++ ctx.qmpSockName,
     "-serial", "unix:" ++ ctx.consoleSockName ++ ",server,nowait",
     "-device", "virtio-serial-pci,id=virtio-serial0,bus=pci.0,addr=0x2",
     "-device", "virtio-scsi-pci,id=scsi0,bus=pci.0,addr=0x3",
     "-chardev", "socket,id=charch0,path=" ++ ctx.dvmSockName,
     "-device",
     "virtserialport,bus=virtio-serial0.0,nr=1,chardev=charch0,id=channel0,name=org.getdvm.channel.0",
     "-chardev", "socket,id=charch1,path=" ++ ctx.dvmSockName,
     "-device",
     "virtserialport,bus=virtio-serial0.0,nr=2,chardev=charch1,id=channel1,name=org.getdvm.channel.1",
     "-fsdev", "local,id=virtio9p,path=" ++ ctx.shareDir ++ ",security_model=none",
     "-device", "virtio-9p-pci,fsdev=virtio9p,mount_tag=" ++ ShareDir]

/-- The value of a decimal digit. -/
def digitValue (c : Char) : Option Nat :=
  if '0' ≤ c ∧ c ≤ '9' then some (c.toNat - '0'.toNat) else none

/-- Read a sequence of decimal digits, most significant first, continuing from the value
`acc`; `none` when a character is not a digit. -/
def readDigits (acc : Nat) : List Char → Option Nat
  | [] => some acc
  | c :: rest =>
    match digitValue c with
    | none => none
    | some d => readDigits (10 * acc + d) rest

/-- The integer a string denotes in decimal notation: digits, with a minus sign in front
for a negative number; `none` when the string is no such numeral. -/
def readDecimal (s : String) : Option Int :=
  match s.toList with
  | [] => none
  | c :: rest =>
    if c = '-' then
      if rest = [] then none else (readDigits 0 rest).map fun (n : Nat) => -(n : Int)
    else (readDigits 0 (c :: rest)).map fun (n : Nat) => (n : Int)

/-- The pairs of neighbours of an argument list. -/
def pairs (args : List String) : List (String × String) := args.zip args.tail

/-- The string `s` begins with `p`. -/
def startsWith (p s : String) : Bool := p.toList.isPrefixOf s.toList

/-- The values that follow a `-device` flag and begin with `kind`. -/
def devices (kind : String) (args : List String) : List String :=
  ((pairs args).filter fun p => p.1 == "-device" && startsWith kind p.2).map Prod.snd

/-! ## Channels, listeners and files

`Close` works on what lies outside the registry: the three channels of the context, its
three Unix listeners and the files of the host. -/

/-- The channels `ctx.qmp`, `ctx.vm` and `ctx.wdt`. -/
inductive Chan where
  | qmp
  | vm
  | wdt
  deriving DecidableEq, Repr

/-- The listeners `ctx.qmpSock`, `ctx.dvmSock` and `ctx.ttySock`. -/
inductive Sock where
  | qmpSock
  | dvmSock
  | ttySock
  deriving DecidableEq, Repr

inductive PathKind where
  | file
  | dir
  deriving DecidableEq, Repr

/-- A `*net.UnixListener` made by `net.ListenUnix`: the path it is bound to and whether
it still listens. -/
structure Listener where
  path : String
  listening : Bool
  deriving DecidableEq, Repr

/-- What an operation can reach besides the context: which channels are open, the
listeners, and the paths that exist on the host (sockets count as files). -/
structure Host where
  chanOpen : Chan → Bool
  sock : Sock → Listener
  paths : List (String × PathKind)

/-- The path `p` lies beneath the directory `dir`. -/
def beneath (dir p : String) : Bool := (dir ++ "/").toList.isPrefixOf p.toList

/-- System call `unlink(p)`: removes a file, fails on a directory. -/
def unlink (p : String) (paths : List (String × PathKind)) : List (String × PathKind) :=
  paths.filter fun e => !(e.1 == p && e.2 == PathKind.file)

/-- `os.Remove(p)`: removes a file or an empty directory. -/
def osRemove (p : String) (paths : List (String × PathKind)) : List (String × PathKind) :=
  paths.filter fun e =>
    !(e.1 == p && (e.2 == PathKind.file || !paths.any fun q => beneath p q.1))

/-- `os.RemoveAll(p)`: removes `p` and everything beneath it. -/
def osRemoveAll (p : String) (paths : List (String × PathKind)) : List (String × PathKind) :=
  paths.filter fun e => !(e.1 == p || beneath p e.1)

/-- The steps of an operation that touch the lock, a channel, a listener, the file
system or the handler, or start a goroutine. Updates of the registry and log lines
are not steps. -/
inductive Action where
  | lock
  | unlock
  | send (c : Chan)
  | closeChan (c : Chan)
  | closeSock (s : Sock)
  | stat (path : String)
  | remove (path : String)
  | removeAll (path : String)
  | spawn
  | clearHandler
  deriving DecidableEq, Repr

/-- One step. Sending on or closing a closed channel panics. `Close` of a listener made
by `net.ListenUnix` unlinks the socket file it is bound to and stops listening (package
`net` of the Go library). The errors `os.Remove` and `os.RemoveAll` return are dropped
by the callers. -/
def perform (w : QemuContext × Host) : Action → Except Fault (QemuContext × Host)
  | .lock => (w.1.Lock).map fun ctx => (ctx, w.2)
  | .unlock => .ok (w.1.Unlock, w.2)
  | .send c => if w.2.chanOpen c then .ok w else .error .closedChannel
  | .closeChan c =>
    if w.2.chanOpen c then
      .ok (w.1, { w.2 with chanOpen := fun x => if x = c then false else w.2.chanOpen x })
    else .error .closedChannel
  | .closeSock s =>
    let l := w.2.sock s
    .ok (w.1, { w.2 with
      sock := fun x => if x = s then { l with listening := false } else w.2.sock x
      paths := unlink l.path w.2.paths })
  | .stat _ => .ok w
  | .remove p => .ok (w.1, { w.2 with paths := osRemove p w.2.paths })
  | .removeAll p => .ok (w.1, { w.2 with paths := osRemoveAll p w.2.paths })
  | .spawn => .ok w
  | .clearHandler => .ok ({ w.1 with handlerSet := false }, w.2)

/-- Run the steps in order. -/
def run (steps : List Action) (w : QemuContext × Host) : Except Fault (QemuContext × Host) :=
  forEach perform steps w

/-- Lines 515-526 of `Close`: everything before the handler is cleared. -/
def closeSteps (ctx : QemuContext) : List Action :=
  [.lock, .closeChan .qmp, .closeChan .vm, .closeChan .wdt,
   .closeSock .qmpSock, .closeSock .dvmSock, .closeSock .ttySock,
   .remove ctx.dvmSockName, .remove ctx.qmpSockName, .remove ctx.consoleSockName,
   .removeAll ctx.shareDir]

/-- `ctx.Close()`: the steps above, then `ctx.handler = nil`, then the deferred
`Unlock`. -/
def QemuContext.Close (ctx : QemuContext) (h : Host) : Except Fault (QemuContext × Host) :=
  run (closeSteps ctx ++ [.clearHandler, .unlock]) (ctx, h)

/-- A live context: nobody holds the lock, the handler is set, the channels are open and
the three listeners listen on the socket paths of the context. -/
structure Live (ctx : QemuContext) (h : Host) : Prop where
  lock : ctx.lock = false
  handler : ctx.handlerSet = true
  chans : ∀ c, h.chanOpen c = true
  qmpSock : h.sock .qmpSock = { path := ctx.qmpSockName, listening := true }
  dvmSock : h.sock .dvmSock = { path := ctx.dvmSockName, listening := true }
  ttySock : h.sock .ttySock = { path := ctx.ttySockName, listening := true }

/-! ## The steps of each operation -/

/-- The operations of `QemuContext`, with the arguments their steps depend on. -/
inductive Op where
  | resetAddr
  | nextScsiId
  | nextPciAddr
  | nextAttachId
  | clientReg
  | clientDereg (tag : String)
  | containerCreated
  | volumeReady
  | blockdevInserted
  | interfaceCreated
  | netdevInserted
  | deviceReady
  | releaseVolumeDir
  | removeDMDevice
  | releaseAufsDir
  | removeVolumeDrive
  | removeImageDrive
  | Lookup
  | Close
  | Become
  | QemuArguments
  | InitDeviceContext (spec : UserPod)

/-- The steps of an operation in program order. A loop contributes the steps of its
turns; the turns of one loop have the same steps, so the order of a `range` over a map
does not show. `InitDeviceContext` calls `nextAttachId` once per container of a tty pod,
which contributes the steps of that call. -/
def Op.trace (ctx : QemuContext) : Op → List Action
  | .resetAddr => [.lock, .unlock]
  | .nextScsiId => [.lock, .unlock]
  | .nextPciAddr => [.lock, .unlock]
  | .nextAttachId => [.lock, .unlock]
  | .clientReg => [.lock, .unlock]
  | .clientDereg tag => if tag == "" then [] else [.lock, .unlock]
  | .containerCreated => [.lock, .unlock]
  | .volumeReady => [.lock, .unlock]
  | .blockdevInserted => [.lock, .unlock]
  | .interfaceCreated => [.lock, .unlock]
  | .netdevInserted => [.lock, .unlock]
  | .deviceReady => []
  | .releaseVolumeDir =>
    (ctx.devices.volumeMap.filter fun e => e.2.info.fstype == "dir").map fun _ => .spawn
  | .removeDMDevice =>
    ((ctx.devices.imageMap.filter fun e => e.2.info.fstype != "dir").map fun _ => .spawn) ++
      ((ctx.devices.volumeMap.filter fun e => e.2.info.fstype != "dir").map fun _ => .spawn)
  | .releaseAufsDir =>
    match ctx.vmSpec with
    | none => []
    | some vm => (vm.Containers.filter fun c => c.Fstype == "dir").map fun _ => .spawn
  | .removeVolumeDrive =>
    (ctx.devices.volumeMap.filter fun e =>
      e.2.info.format == "raw" || e.2.info.format == "qcow2").map fun _ => .send .qmp
  | .removeImageDrive =>
    (ctx.devices.imageMap.filter fun e => e.2.info.fstype != "dir").map fun _ => .send .qmp
  | .Lookup => []
  | .Close => closeSteps ctx ++ [.clearHandler, .unlock]
  | .Become => [.lock, .unlock]
  | .QemuArguments => [.stat "/dev/kvm"]
  | .InitDeviceContext spec =>
    [.lock] ++ (if spec.Tty then spec.Containers.flatMap fun _ => [.lock, .unlock] else []) ++
      [.unlock]

/-- The step is a channel send, a channel close, a socket close or a file-system
operation. -/
def Action.sendOrIO : Action → Bool
  | .send _ => true
  | .closeChan _ => true
  | .closeSock _ => true
  | .stat _ => true
  | .remove _ => true
  | .removeAll _ => true
  | _ => false

/-- No send and no I/O step of the sequence occurs while the lock is held; `depth`
counts the `Lock` steps that have no matching `Unlock` yet. -/
def quietFrom (depth : Nat) : List Action → Bool
  | [] => true
  | .lock :: rest => quietFrom (depth + 1) rest
  | .unlock :: rest => quietFrom (depth - 1) rest
  | a :: rest => (depth == 0 || !a.sendOrIO) && quietFrom depth rest

/-- No send and no I/O step occurs between a `Lock` and its matching `Unlock`. -/
def quiet (steps : List Action) : Bool := quietFrom 0 steps

/-! ## Completion events -/

/-- The four completion events of the insertion phase. -/
inductive CompletionEvent where
  | containerCreated (e : ContainerCreatedEvent)
  | volumeReady (e : VolumeReadyEvent)
  | blockdevInserted (e : BlockdevInsertedEvent)
  | netdevInserted (e : NetDevInsertedEvent)

/-- Hand a completion event to the operation of its name; the flag `needInsert` that
`containerCreated` and `volumeReady` return is dropped. -/
def deliver (ordE : RangeOrder String String) (ordI : RangeOrder Int String)
    (ctx : QemuContext) : CompletionEvent → Except Fault QemuContext
  | .containerCreated e => (ctx.containerCreated ordE e).map Prod.fst
  | .volumeReady e => (ctx.volumeReady ordI e).map Prod.fst
  | .blockdevInserted e => ctx.blockdevInserted ordI e
  | .netdevInserted e => ctx.netdevInserted e

/-- The event has an entry in `progress.finished`. -/
def recorded (ctx : QemuContext) : CompletionEvent → Bool
  | .containerCreated e => ctx.progress.finished.containers.contains e.Index
  | .volumeReady e => ctx.progress.finished.volumes.contains e.Name
  | .blockdevInserted e => ctx.progress.finished.blockdevs.contains e.Name
  | .netdevInserted e => ctx.progress.finished.networks.contains e.Index

/-- The event is a `NetDevInserted` event or the `BlockdevInserted` event of an image. -/
def CompletionEvent.netdevOrImage : CompletionEvent → Bool
  | .blockdevInserted e => e.SourceType == "image"
  | .netdevInserted _ => true
  | _ => false

/-! ## Teardown of the containers -/

/-- `ctx.releaseAufsDir()`: mark every container whose root file system is a directory
in `deleting.containers`; the goroutine `UmountAufsContainer` it starts for each of them
does not touch the context. -/
def QemuContext.releaseAufsDir (ctx : QemuContext) : Except Fault QemuContext :=
  match ctx.vmSpec with
  | none => .error .nilDereference
  | some vm =>
    .ok (vm.Containers.enum.foldl
      (fun ctx (e : Nat × VmContainer) =>
        if e.2.Fstype == "dir" then
          ctx.modDeleting fun pm => { pm with containers := pm.containers.set (e.1 : Int) true }
        else ctx)
      ctx)

/-- Lines 492-496 of `removeImageDrive`: one turn of the loop over the images. An image
that is not a directory has its container marked in `deleting.containers`, then the eject
request is sent on `ctx.qmp`; `qmpOpen` tells whether the channel is open (a send on a
closed channel panics; waiting for room in the channel is not modelled). -/
def QemuContext.markImage (qmpOpen : Bool) (ctx : QemuContext) (e : String × imageInfo) :
    Except Fault QemuContext :=
  if e.2.info.fstype != "dir" then
    let ctx := ctx.modDeleting fun pm =>
      { pm with containers := pm.containers.set e.2.pos true }
    if qmpOpen then .ok ctx else .error .closedChannel
  else .ok ctx

/-- `ctx.removeImageDrive()`; `ord` is the order of the `range ctx.devices.imageMap`
loop. -/
def QemuContext.removeImageDrive (ord : RangeOrder String imageInfo) (qmpOpen : Bool)
    (ctx : QemuContext) : Except Fault QemuContext :=
  forEach (QemuContext.markImage qmpOpen) (ord ctx.devices.imageMap) ctx

/-- The file-system type recorded for container `i`. -/
def fstypeAt (ctx : QemuContext) (i : Int) : Option String :=
  (ctx.container? i).map fun c => c.Fstype

/-- The owning container and the file-system type recorded for the image `name`. -/
def imageKey (ctx : QemuContext) (name : String) : Option (Int × String) :=
  (ctx.devices.imageMap.get? name).map fun img => (img.pos, img.info.fstype)

/-- The event is a `ContainerCreated` or a `BlockdevInserted` event. -/
def CompletionEvent.createdOrInserted : CompletionEvent → Bool
  | .containerCreated _ => true
  | .blockdevInserted _ => true
  | _ => false

/-- The containers created so far, as the registry sees them. Every container with a
directory as root file system is created; every image is not a directory, belongs to a
created container and was reported by a `ContainerCreated` event of `evs`; and every
created container has a directory as root file system or owns an image. -/
structure Prepared (evs : List CompletionEvent) (ctx : QemuContext) : Prop where
  lock : ctx.lock = false
  pod : ctx.vmSpec.isSome = true
  imageWF : ctx.devices.imageMap.WF
  deleting : ctx.progress.deleting.containers = []
  dirDone : ∀ i, fstypeAt ctx i = some "dir" → i ∈ ctx.progress.finished.containers.keys
  imgDone : ∀ name pos fs, imageKey ctx name = some (pos, fs) →
    fs ≠ "dir" ∧ pos ∈ ctx.progress.finished.containers.keys ∧
      ∃ e, CompletionEvent.containerCreated e ∈ evs ∧ e.Fstype ≠ "dir" ∧ e.Image = name ∧
        e.Index = pos
  marked : ∀ i ∈ ctx.progress.finished.containers.keys,
    fstypeAt ctx i = some "dir" ∨ ∃ name fs, imageKey ctx name = some (i, fs)

/-- No two `ContainerCreated` events of `evs` for different containers report the same
image name for a root file system that is not a directory. -/
def ImagesApart (evs : List CompletionEvent) : Prop :=
  ∀ e1 e2, CompletionEvent.containerCreated e1 ∈ evs →
    CompletionEvent.containerCreated e2 ∈ evs → e1.Fstype ≠ "dir" → e2.Fstype ≠ "dir" →
    e1.Image = e2.Image → e1.Index = e2.Index

/-! ## Lookup of a container -/

/-- Lines 504-509 of `Lookup`: the loop over the containers with their indices. -/
def lookupIn (container : String) : List (Nat × VmContainer) → Int
  | [] => -1
  | e :: rest => if e.2.Id == container then (e.1 : Int) else lookupIn container rest

/-- `ctx.Lookup(container)`. -/
def QemuContext.Lookup (ctx : QemuContext) (container : String) : Except Fault Int :=
  if container == "" then .ok (-1)
  else
    match ctx.vmSpec with
    | none => .error .nilDereference
    | some vm => .ok (lookupIn container vm.Containers.enum)

/-! ## The aufs driver (`api/storage/aufs/aufs.go`) -/

/-- A Go string as the sequence of its bytes; `len` is the length of the list. -/
abbrev Bytes := List Nat

/-- The bytes of a string literal made of ASCII characters. -/
def ascii (s : String) : Bytes := s.toList.map Char.toNat

/-- One call `syscall.Mount("none", target, "aufs", flags, data)`: whether `flags` is
`MsRemount` (otherwise it is 0), and the options handed to `label.FormatMountLabel`,
which makes `data` from them by adding the mount label. -/
structure MountCall where
  remount : Bool
  options : Bytes
  deriving DecidableEq, Repr

/-- How `aufsMount` ends: `err == nil` after the listed mount calls; a mount call (the
last one listed) failed, the error is returned and the deferred function has run
`aufsUnmount(target)`; or `make` panicked on a negative length. -/
inductive AufsResult where
  | mounted (calls : List MountCall)
  | failed (calls : List MountCall)
  | panic
  deriving DecidableEq, Repr

/-- Line 98: `fmt.Sprintf(":%s=ro+wh", ro[i])`. -/
def layerOption (layer : Bytes) : Bytes := ascii ":" ++ layer ++ ascii "=ro+wh"

/-- Lines 97-111 while `firstMount` is set: copy layer after layer into the buffer `b`
of length `cap` (`buf` is `b[:bp]`) and leave the loop at the first layer that does not
fit; the result is the buffer and the layers from `ro[i]` on. -/
def packLayers (cap : Nat) (buf : Bytes) : List Bytes → Bytes × List Bytes
  | [] => (buf, [])
  | l :: rest =>
    if buf.length + (layerOption l).length > cap then (buf, l :: rest)
    else packLayers cap (buf ++ layerOption l) rest

/-- Lines 97-111 once `firstMount` is cleared: one remount per layer, until one fails;
`mountOk` tells whether a mount call succeeds. -/
def remountLayers (mountOk : MountCall → Bool) (calls : List MountCall) :
    List Bytes → Except (List MountCall) (List MountCall)
  | [] => .ok calls
  | l :: rest =>
    let c : MountCall := { remount := true, options := ascii "append" ++ layerOption l }
    if mountOk c then remountLayers mountOk (calls ++ [c]) rest else .error (calls ++ [c])

/-- Lines 96-128: the outer loop; one unit of `fuel` per turn, `none` when it runs out.
`rest` holds the layers from `ro[i]` on, so `i == len(ro)` reads `rest.isEmpty`; a turn
with `firstMount` cleared ends its inner loop at `i == len(ro)` and leaves the outer
loop. -/
def aufsLoop (mountOk : MountCall → Bool) (dirperm : Bool) (cap : Nat) :
    Nat → Bool → Bytes → List Bytes → List MountCall → Option AufsResult
  | 0, _, _, _, _ => none
  | fuel + 1, true, buf, rest, calls =>
    let packed := packLayers cap buf rest
    let opts := ascii "dio,xino=/dev/shm/aufs.xino"
    let opts := if dirperm then opts ++ ascii ",dirperm1" else opts
    let c : MountCall := { remount := false, options := packed.1 ++ ascii "," ++ opts }
    if mountOk c then
      if packed.2.isEmpty then some (.mounted (calls ++ [c]))
      else aufsLoop mountOk dirperm cap fuel false packed.1 packed.2 (calls ++ [c])
    else some (.failed (calls ++ [c]))
  | _ + 1, false, _, rest, calls =>
    match remountLayers mountOk calls rest with
    | .error calls => some (.failed calls)
    | .ok calls => some (.mounted calls)

/-- `aufsMount(ro, rw, target, mountLabel)`; `pagesize` is `syscall.Getpagesize()`,
`dirperm` the value of `useDirperm()`, `mountOk` tells whether a mount call succeeds.
`copy` into the buffer stops at its end. -/
def aufsMount (pagesize : Nat) (dirperm : Bool) (mountOk : MountCall → Bool) (fuel : Nat)
    (ro : List Bytes) (rw mountLabel : Bytes) : Option AufsResult :=
  let offset := 54
  let offset := if dirperm then offset + (ascii "dirperm1").length else offset
  if pagesize < mountLabel.length + offset then some .panic
  else
    let cap := pagesize - mountLabel.length - offset
    let buf := (ascii "br:" ++ rw ++ ascii "=rw").take cap
    aufsLoop mountOk dirperm cap fuel true buf ro []

/-- An entry of a directory listing (`os.FileInfo`). -/
structure FileInfo where
  Name : String
  IsDir : Bool
  deriving DecidableEq, Repr

/-- `loadIds(root)`; `listing` is what `ioutil.ReadDir(root)` returns: the entries, or
the error when the directory cannot be read. -/
def loadIds (listing : Except String (List FileInfo)) : Except String (List String) :=
  match listing with
  | .error err => .error err
  | .ok dirs => .ok (dirs.foldl (fun out d => if !d.IsDir then out ++ [d.Name] else out) [])

/-! ## The network tables as the specification describes them -/

/-- The interface entry of a created interface: its device name, IP address and
netmask. -/
def specInterface (nw : InterfaceCreated) : VmNetworkInf :=
  { Device := nw.DeviceName, IpAddress := nw.IpAddr, NetMask := nw.NetMask }

/-- The route produced from one route entry of an interface: destination and gateway
are kept, the device is the interface's device name for a route via this device and
empty otherwise. -/
def specRoute (nw : InterfaceCreated) (rl : RouteRule) : VmRoute :=
  { Dest := rl.Destination, Gateway := rl.Gateway,
    Device := if rl.ViaThis then nw.DeviceName else "" }

/-- The routes of the interface with index `i`, in their original order. -/
def specRoutes (networkMap : GoMap Int InterfaceCreated) (i : Nat) : List VmRoute :=
  match networkMap.get? (i : Int) with
  | some nw => nw.RouteTable.map (specRoute nw)
  | none => []

/-- The network map holds an interface for every index below its size. -/
def DenseNetworks (networkMap : GoMap Int InterfaceCreated) : Prop :=
  ∀ i : Nat, i < networkMap.len → (networkMap.get? (i : Int)).isSome

instance (networkMap : GoMap Int InterfaceCreated) : Decidable (DenseNetworks networkMap) :=
  inferInstanceAs (Decidable (∀ i : Nat, i < networkMap.len → _))

/-! ## Sequences of allocator calls -/

/-- The three allocators of a context. -/
inductive Allocator where
  | pci
  | scsi
  | attach
  deriving DecidableEq, Repr

/-- The counter an allocator hands out next. -/
def QemuContext.counter (ctx : QemuContext) : Allocator → Int
  | .pci => ctx.pciAddr
  | .scsi => ctx.scsiId
  | .attach => (ctx.attachId : Int)

/-- One call of `nextPciAddr`, `nextScsiId` or `nextAttachId`. -/
def QemuContext.alloc (ctx : QemuContext) : Allocator → Except Fault (QemuContext × Int)
  | .pci => ctx.nextPciAddr
  | .scsi => ctx.nextScsiId
  | .attach =>
    match ctx.nextAttachId with
    | .error e => .error e
    | .ok (ctx', id) => .ok (ctx', (id : Int))

/-- A sequence of allocator calls; the result lists every returned value with the
allocator that returned it, in call order. -/
def QemuContext.allocs (ctx : QemuContext) :
    List Allocator → Except Fault (QemuContext × List (Allocator × Int))
  | [] => .ok (ctx, [])
  | a :: rest =>
    match ctx.alloc a with
    | .error e => .error e
    | .ok (ctx1, v) =>
      match QemuContext.allocs ctx1 rest with
      | .error e => .error e
      | .ok (ctx2, vs) => .ok (ctx2, (a, v) :: vs)

/-- The values one allocator returned, in call order. -/
def valuesOf (a : Allocator) (vs : List (Allocator × Int)) : List Int :=
  (vs.filter (fun p => decide (p.1 = a))).map Prod.snd

/-- The smallest value of an allocator's counter type. -/
def Allocator.floor : Allocator → Int
  | .pci => -(2 ^ 63)
  | .scsi => -(2 ^ 63)
  | .attach => 0

/-- The first value an allocator can no longer hand out without wrapping around. -/
def Allocator.limit : Allocator → Int
  | .pci => 2 ^ 63
  | .scsi => 2 ^ 63
  | .attach => 2 ^ 64

/-- A call of `nextAttachId` or of `resetAddr`. -/
inductive AddrCall where
  | nextAttachId
  | resetAddr
  deriving DecidableEq, Repr

/-- A sequence of `nextAttachId` and `resetAddr` calls; the result lists the attach ids
returned, in call order. -/
def QemuContext.attachRun (PciAddrFrom : Int) (ctx : QemuContext) :
    List AddrCall → Except Fault (QemuContext × List Nat)
  | [] => .ok (ctx, [])
  | .nextAttachId :: rest =>
    match ctx.nextAttachId with
    | .error e => .error e
    | .ok (ctx1, id) =>
      match QemuContext.attachRun PciAddrFrom ctx1 rest with
      | .error e => .error e
      | .ok (ctx2, ids) => .ok (ctx2, id :: ids)
  | .resetAddr :: rest =>
    match ctx.resetAddr PciAddrFrom with
    | .error e => .error e
    | .ok ctx1 => QemuContext.attachRun PciAddrFrom ctx1 rest

/-! ## Sample data -/

/-- A container record as `InitDeviceContext` leaves it: user entrypoint and cmd empty,
two user environment variables. -/
def sampleContainer : VmContainer :=
  { VmContainer.zero with
    Rootfs := "rootfs", Fstype := "ext4", RestartPolicy := "never",
    Cmd := ["-c", "date"],
    Envs := [{ Env := "PATH", Value := "/bin" }, { Env := "HOME", Value := "/root" }] }

/-- An unlocked context whose pod holds `sampleContainer` at index 0. -/
def sampleCtx : QemuContext :=
  { initContext 5 "/var/run/dvm" "vm-abcdefghij" 1 512 "kernel" "initrd.img" with
    vmSpec := some { Hostname := "pod", Containers := [sampleContainer], Interfaces := none,
                     Routes := none, Socket := "/var/run/dvm/vm-abcdefghij/dvm.sock",
                     ShareDir := ShareDir } }

/-- A freshly initialised context. -/
def freshCtx : QemuContext :=
  initContext 5 "/var/run/dvm" "vm-abcdefghij" 1 512 "kernel" "initrd.img"

/-- Scenario S2: two containers sharing the raw volume `v1`, mounted at `/data`
read-write in the first and read-only in the second. -/
def s2Spec : UserPod :=
  { Name := "pod", Tty := false,
    Volumes := [{ Name := "v1", Source := "/dev/vg/v1", Driver := "raw" }],
    Containers := [
      { Command := [], Entrypoint := [], Workdir := "", Envs := [], RestartPolicy := "",
        Volumes := [{ Path := "/data", Volume := "v1", ReadOnly := false }] },
      { Command := [], Entrypoint := [], Workdir := "", Envs := [], RestartPolicy := "",
        Volumes := [{ Path := "/data", Volume := "v1", ReadOnly := true }] }] }

/-- The context of scenario S2 after `InitDeviceContext`. -/
def s2Ctx : QemuContext :=
  match freshCtx.InitDeviceContext s2Spec 0 with
  | .ok ctx => ctx
  | .error _ => freshCtx

/-- The registry entry of `v1` in `s2Ctx`. -/
def s2Volume : volumeInfo :=
  { info := { name := "v1", filename := "/dev/vg/v1", format := "raw", fstype := "ext4",
              deviceName := "", scsiId := 0 },
    pos := [(0, "/data"), (1, "/data")], readOnly := [(0, false), (1, true)] }

/-- The `VolumeReady` event of scenario S2. -/
def s2Ready : VolumeReadyEvent :=
  { Name := "v1", Filepath := "/dev/mapper/v1", Fstype := "xfs", Format := "raw" }

/-- The `BlockdevInserted` event of scenario S2. -/
def s2Inserted : BlockdevInsertedEvent :=
  { Name := "v1", SourceType := "volume", DeviceName := "sda", ScsiId := 0 }

/-- A pod without containers and volumes. -/
def emptySpec : UserPod := { Name := "pod", Containers := [], Volumes := [], Tty := false }

/-- The interface with index 0 of scenario S3. -/
def s3Eth0 : InterfaceCreated :=
  { Index := 0, DeviceName := "eth0", IpAddr := "192.168.123.2", NetMask := "255.255.255.0",
    RouteTable := [{ Destination := "0.0.0.0/0", Gateway := "192.168.123.1", ViaThis := true }] }

/-- The interface with index 1 of scenario S3. -/
def s3Eth1 : InterfaceCreated :=
  { Index := 1, DeviceName := "eth1", IpAddr := "10.0.0.2", NetMask := "255.0.0.0",
    RouteTable := [{ Destination := "10.0.0.0/8", Gateway := "", ViaThis := true },
                   { Destination := "172.16.0.0/12", Gateway := "10.0.0.1", ViaThis := false }] }

/-- The context `r` yields, or `d` when `r` is a fault. -/
def orElse (r : Except Fault QemuContext) (d : QemuContext) : QemuContext :=
  match r with
  | .ok ctx => ctx
  | .error _ => d

/-- Scenario S3 after `InitDeviceContext` with two networks. -/
def s3Init : QemuContext := orElse (freshCtx.InitDeviceContext emptySpec 2) freshCtx

/-- Scenario S3 after both interfaces are created (index 1 first) and the insertion of
network 1 is confirmed: network 0 is still pending. -/
def s3Pending : QemuContext :=
  orElse (forEach QemuContext.netdevInserted [{ Index := 1 }]
    (orElse (forEach QemuContext.interfaceCreated [s3Eth1, s3Eth0] s3Init) freshCtx)) freshCtx

/-- The pod of `s3Pending`. -/
def s3Pod : VmPod :=
  { Hostname := "pod", Containers := [], Interfaces := none, Routes := none,
    Socket := "/var/run/dvm/vm-abcdefghij/dvm.sock", ShareDir := "share_dir" }

/-- A fresh context after `InitDeviceContext` with no network at all. -/
def noNetInit : QemuContext := orElse (freshCtx.InitDeviceContext emptySpec 0) freshCtx

/-- Another interface announced under index 0. -/
def s3Eth9 : InterfaceCreated :=
  { Index := 0, DeviceName := "eth9", IpAddr := "192.168.9.2", NetMask := "255.255.255.0",
    RouteTable := [] }

/-- One network: created, inserted and confirmed. -/
def oneNetDone : QemuContext :=
  orElse (forEach QemuContext.netdevInserted [{ Index := 0 }]
    (orElse (forEach QemuContext.interfaceCreated [s3Eth0]
      (orElse (freshCtx.InitDeviceContext emptySpec 1) freshCtx)) freshCtx)) freshCtx

/-- The interface list and the route table of a context, when it has a pod. -/
def networkTables (ctx : QemuContext) :
    Option (Option (List VmNetworkInf) × Option (List VmRoute)) :=
  ctx.vmSpec.map fun vm => (vm.Interfaces, vm.Routes)

/-- A pod declaring one volume that has a source and the empty driver. -/
def sourceOnlySpec : UserPod :=
  { Name := "pod", Containers := [], Tty := false,
    Volumes := [{ Name := "v", Source := "/data", Driver := "" }] }

/-- A pod with the tty flag and one container. -/
def ttySpec : UserPod :=
  { Name := "pod", Tty := true, Volumes := [],
    Containers := [{ Command := ["/bin/sh"], Entrypoint := [], Workdir := "", Envs := [],
                     Volumes := [], RestartPolicy := "" }] }

/-- Scenario S2 with a directory-backed volume instead of the raw one. -/
def s2DirSpec : UserPod :=
  { s2Spec with Volumes := [{ Name := "v1", Source := "/srv/v1", Driver := "vfs" }] }

/-- The context of the directory variant of S2 after `InitDeviceContext`. -/
def s2DirCtx : QemuContext := orElse (freshCtx.InitDeviceContext s2DirSpec 0) freshCtx

/-- The registry entry of `v1` in `s2DirCtx`. -/
def s2DirVolume : volumeInfo :=
  { info := { name := "v1", filename := "/srv/v1", format := "vfs", fstype := "dir",
              deviceName := "", scsiId := 0 },
    pos := [(0, "/data"), (1, "/data")], readOnly := [(0, false), (1, true)] }

/-- The pod of `s2DirCtx`. -/
def s2DirPod : VmPod :=
  { Hostname := "pod",
    Containers := [initialContainer
      { Command := [], Entrypoint := [], Workdir := "", Envs := [], RestartPolicy := "",
        Volumes := [] },
      initialContainer
      { Command := [], Entrypoint := [], Workdir := "", Envs := [], RestartPolicy := "",
        Volumes := [] }],
    Interfaces := none, Routes := none,
    Socket := "/var/run/dvm/vm-abcdefghij/dvm.sock", ShareDir := "share_dir" }

/-- A `VolumeReady` event for the directory-backed `v1`. -/
def s2DirReady : VolumeReadyEvent :=
  { Name := "v1", Filepath := "/var/run/dvm/vm-abcdefghij/share_dir/v1", Fstype := "dir",
    Format := "vfs" }

/-- A `ContainerCreated` event of the second container that reports the image name of
`sampleCreated`. -/
def sharedCreated : ContainerCreatedEvent :=
  { Index := 1, Id := "c1", Rootfs := "/rootfs", Image := "/dev/mapper/img0", Fstype := "ext4",
    Workdir := "/", Entrypoint := ["/bin/sh"], Cmd := ["-c", "true"], Envs := [] }

/-- A `ContainerCreated` event of the second container with an image of its own. -/
def ownCreated : ContainerCreatedEvent :=
  { sharedCreated with Image := "/dev/mapper/img1" }

/-- The `BlockdevInserted` event of the image `/dev/mapper/img0`. -/
def imageInserted : BlockdevInsertedEvent :=
  { Name := "/dev/mapper/img0", SourceType := "image", DeviceName := "sda", ScsiId := 0 }

/-- The `BlockdevInserted` event of the image `/dev/mapper/img1`. -/
def ownInserted : BlockdevInsertedEvent :=
  { Name := "/dev/mapper/img1", SourceType := "image", DeviceName := "sdb", ScsiId := 1 }

/-- The pod of scenario S2 after `InitDeviceContext`: two containers. -/
def s2Pod : VmPod :=
  match s2Ctx.vmSpec with
  | some vm => vm
  | none => { Hostname := "", Containers := [], Interfaces := none, Routes := none,
              Socket := "", ShareDir := "" }

/-- Scenario S2 after `VolumeReady` and `BlockdevInserted` for `v1`. -/
def s2Done : QemuContext :=
  orElse (blockdevsInserted id [s2Inserted]
    (orElse ((s2Ctx.volumeReady id s2Ready).map Prod.fst) freshCtx)) freshCtx

/-- The directory variant of S2 after `VolumeReady` for `v1`. -/
def s2DirDone : QemuContext :=
  orElse ((s2DirCtx.volumeReady id s2DirReady).map Prod.fst) freshCtx

/-- Scenario S2 after `ContainerCreated` for the second container. -/
def s2Created : QemuContext := orElse (containersCreated id [sharedCreated] s2Ctx) freshCtx

/-- The context `oneNetDone` after interface 0 is announced once more, as `eth9`. -/
def oneNetChanged : QemuContext := orElse (oneNetDone.interfaceCreated s3Eth9) oneNetDone

/-- The volumes, the directory mounts and the command line of container `i`. -/
def containerView (ctx : QemuContext) (i : Int) :
    Option (List VmVolumeDescriptor × List VmFsmapDescriptor × List String) :=
  (ctx.container? i).map fun c => (c.Volumes, c.Fsmap, c.Cmd)

/-- A host on which `freshCtx` is live: the listeners are bound, the guest has opened the
console socket, and the share directory holds a volume with a file. -/
def liveHost : Host :=
  { chanOpen := fun _ => true,
    sock := fun s =>
      match s with
      | .qmpSock => { path := "/var/run/dvm/vm-abcdefghij/qmp.sock", listening := true }
      | .dvmSock => { path := "/var/run/dvm/vm-abcdefghij/dvm.sock", listening := true }
      | .ttySock => { path := "/var/run/dvm/vm-abcdefghij/tty.sock", listening := true },
    paths := [("/var/run/dvm/vm-abcdefghij", .dir),
              ("/var/run/dvm/vm-abcdefghij/qmp.sock", .file),
              ("/var/run/dvm/vm-abcdefghij/dvm.sock", .file),
              ("/var/run/dvm/vm-abcdefghij/tty.sock", .file),
              ("/var/run/dvm/vm-abcdefghij/console.sock", .file),
              ("/var/run/dvm/vm-abcdefghij/share_dir", .dir),
              ("/var/run/dvm/vm-abcdefghij/share_dir/v1", .dir),
              ("/var/run/dvm/vm-abcdefghij/share_dir/v1/data", .file)] }

/-- A pod with the tty flag, one volume and two containers, the first of which mounts
the volume. -/
def ttyPairSpec : UserPod :=
  { Name := "pod", Tty := true,
    Volumes := [{ Name := "v1", Source := "/dev/vg/v1", Driver := "raw" }],
    Containers := [
      { Command := ["/bin/sh"], Entrypoint := [], Workdir := "", Envs := [], RestartPolicy := "",
        Volumes := [{ Path := "/data", Volume := "v1", ReadOnly := false }] },
      { Command := ["/bin/sh"], Entrypoint := [], Workdir := "", Envs := [], RestartPolicy := "",
        Volumes := [] }] }

/-- An unlocked context whose attach-id counter holds the largest `uint64`. -/
def lastAttachIdCtx : QemuContext :=
  { sampleCtx with attachId := 2 ^ 64 - 1 }

/-- A `ContainerCreated` event for a block-backed root file system. -/
def sampleCreated : ContainerCreatedEvent :=
  { Index := 0, Id := "c0", Rootfs := "/rootfs", Image := "/dev/mapper/img0", Fstype := "ext4",
    Workdir := "/", Entrypoint := ["/bin/sh"], Cmd := ["-c", "true"],
    Envs := [("PATH", "/usr/bin"), ("TERM", "xterm"), ("LANG", "C")] }

/-- A `ContainerCreated` event for a directory-backed root file system. -/
def sampleCreatedDir : ContainerCreatedEvent :=
  { sampleCreated with Image := "/var/lib/aufs/mnt/c0", Fstype := "dir" }

/-- Scenario S2 after both containers are created, the first on a directory, the second
on an image. -/
def s2BothCreated : QemuContext :=
  orElse (containersCreated id [sampleCreatedDir, ownCreated] s2Ctx) freshCtx

/-- The pod of `s2BothCreated`. -/
def s2BothPod : VmPod :=
  match s2BothCreated.vmSpec with
  | some vm => vm
  | none => { Hostname := "", Containers := [], Interfaces := none, Routes := none,
              Socket := "", ShareDir := "" }

/-- A pod without tty whose only container mounts a volume that is not declared. -/
def undeclaredMountSpec : UserPod :=
  { Name := "pod", Tty := false, Volumes := [],
    Containers := [{ Command := [], Entrypoint := [], Workdir := "", Envs := [],
                     RestartPolicy := "",
                     Volumes := [{ Path := "/mnt", Volume := "w", ReadOnly := false }] }] }

/-- A pod without tty whose only container mounts a declared volume with the driver
`nfs`. -/
def nfsMountSpec : UserPod :=
  { Name := "pod", Tty := false,
    Volumes := [{ Name := "v", Source := "host:/export", Driver := "nfs" }],
    Containers := [{ Command := [], Entrypoint := [], Workdir := "", Envs := [],
                     RestartPolicy := "",
                     Volumes := [{ Path := "/mnt", Volume := "v", ReadOnly := false }] }] }

/-- A pod without tty whose only container mounts, at `/mnt`, the declared volume `v`
that has the source `/data` and the empty driver. -/
def sourceOnlyMountSpec : UserPod :=
  { Name := "pod", Tty := false,
    Volumes := [{ Name := "v", Source := "/data", Driver := "" }],
    Containers := [{ Command := [], Entrypoint := [], Workdir := "", Envs := [],
                     RestartPolicy := "",
                     Volumes := [{ Path := "/mnt", Volume := "v", ReadOnly := false }] }] }

/-! ## Lemmas on maps and slices -/

namespace GoMap

variable {K V : Type} [DecidableEq K]

theorem delete_eq_filter (m : GoMap K V) (k : K) :
    m.delete k = m.filter (fun e => decide (e.1 ≠ k)) := by
  induction m with
  | nil => rfl
  | cons e rest ih =>
    obtain ⟨k', v'⟩ := e
    by_cases h : k' = k <;> simp [delete, List.filter_cons, h, ih]

theorem get?_eq_none_iff (m : GoMap K V) (k : K) : m.get? k = none ↔ k ∉ m.keys := by
  induction m with
  | nil => simp [get?, keys]
  | cons e rest ih =>
    obtain ⟨k', v'⟩ := e
    by_cases h : k' = k
    · simp [get?, keys, h]
    · have h' : ¬ k = k' := fun e => h e.symm
      simpa [get?, keys, h, h'] using ih

theorem contains_iff (m : GoMap K V) (k : K) : m.contains k = true ↔ k ∈ m.keys := by
  rw [contains, Option.isSome_iff_ne_none, Ne, get?_eq_none_iff, not_not]

theorem get?_set_self (m : GoMap K V) (k : K) (v : V) : (m.set k v).get? k = some v := by
  induction m with
  | nil => simp [set, get?]
  | cons e rest ih =>
    obtain ⟨k', v'⟩ := e
    by_cases h : k' = k <;> simp [set, get?, h, ih]

theorem get?_set_of_ne (m : GoMap K V) (k k' : K) (v : V) (h : k' ≠ k) :
    (m.set k v).get? k' = m.get? k' := by
  induction m with
  | nil => simp [set, get?, h.symm]
  | cons e rest ih =>
    obtain ⟨k1, v1⟩ := e
    by_cases h1 : k1 = k
    · subst h1
      simp [set, get?, h.symm]
    · by_cases h2 : k1 = k'
      · subst h2
        simp [set, get?, h1]
      · simp [set, get?, h1, h2, ih]

theorem get?_eq_some_iff_mem (m : GoMap K V) (hm : m.WF) (k : K) (v : V) :
    m.get? k = some v ↔ (k, v) ∈ m := by
  induction m with
  | nil => simp [get?]
  | cons e rest ih =>
    obtain ⟨k', v'⟩ := e
    have hnd : k' ∉ keys rest ∧ (keys rest).Nodup := by
      simpa [WF, keys] using hm
    by_cases h : k' = k
    · subst h
      have hno : ∀ w, (k', w) ∉ rest := fun w hw =>
        hnd.1 (List.mem_map.mpr ⟨(k', w), hw, rfl⟩)
      simp only [get?, if_true, Option.some.injEq, List.mem_cons, Prod.mk.injEq, true_and]
      constructor
      · intro e; exact Or.inl e.symm
      · rintro (e | e)
        · exact e.symm
        · exact absurd e (hno v)
    · have h' : ¬ k = k' := fun e => h e.symm
      simp only [get?, h, if_false, List.mem_cons, Prod.mk.injEq, h', false_and, false_or]
      exact ih hnd.2

theorem mem_keys_iff_get? (m : GoMap K V) (k : K) : k ∈ m.keys ↔ m.get? k ≠ none := by
  rw [Ne, get?_eq_none_iff, not_not]

theorem mem_keys_set (m : GoMap K V) (k k' : K) (v : V) :
    k' ∈ (m.set k v).keys ↔ k' = k ∨ k' ∈ m.keys := by
  by_cases h : k' = k
  · subst h
    simp [mem_keys_iff_get?, get?_set_self]
  · simp [mem_keys_iff_get?, get?_set_of_ne _ _ _ _ h, h]

theorem mem_keys_delete (m : GoMap K V) (k k' : K) :
    k' ∈ (m.delete k).keys ↔ k' ∈ m.keys ∧ k' ≠ k := by
  rw [delete_eq_filter]
  simp only [keys, List.mem_map, List.mem_filter, decide_eq_true_eq]
  constructor
  · rintro ⟨e, ⟨he, hne⟩, rfl⟩
    exact ⟨⟨e, he, rfl⟩, hne⟩
  · rintro ⟨⟨e, he, rfl⟩, hne⟩
    exact ⟨e, ⟨he, hne⟩, rfl⟩

theorem WF_set (m : GoMap K V) (k : K) (v : V) (hm : m.WF) : (m.set k v).WF := by
  induction m with
  | nil => simp [set, WF, keys]
  | cons e rest ih =>
    obtain ⟨k1, v1⟩ := e
    have hnd : k1 ∉ keys rest ∧ (keys rest).Nodup := by
      simpa [WF, keys] using hm
    by_cases h : k1 = k
    · subst h
      simpa [set, WF, keys] using hm
    · have hk : k1 ∉ keys (set rest k v) := by
        rw [mem_keys_set]
        rintro (e | e)
        · exact h e
        · exact hnd.1 e
      have := ih hnd.2
      simp only [set, h, if_false, WF, keys, List.map_cons, List.nodup_cons]
      exact ⟨hk, this⟩

/-- The conditional delete used by the completion handlers is a plain delete. -/
theorem condDelete_eq (m : GoMap K V) (k : K) :
    (if m.contains k then m.delete k else m) = m.delete k := by
  by_cases hc : m.contains k = true
  · simp [hc]
  · rw [if_neg hc, delete_eq_filter]
    symm
    rw [List.filter_eq_self]
    intro e he
    have : k ∉ m.keys := fun hk => hc ((contains_iff m _).mpr hk)
    have hne : e.1 ≠ k := fun h => this (h ▸ List.mem_map.mpr ⟨e, he, rfl⟩)
    simpa using hne

/-- The first loop of the environment merge removes exactly the colliding keys. -/
theorem foldl_delete_eq_filter {α : Type} (key : α → K) (l : List α) (m : GoMap K V) :
    l.foldl (fun m e => if m.contains (key e) then m.delete (key e) else m) m =
      m.filter (fun kv => decide (kv.1 ∉ l.map key)) := by
  induction l generalizing m with
  | nil => simp
  | cons a l ih =>
    have hstep := condDelete_eq m (key a)
    rw [List.foldl_cons, hstep, ih, delete_eq_filter, List.filter_filter]
    congr 1
    funext kv
    by_cases h1 : kv.1 = key a <;> simp [h1]

end GoMap

theorem GoMap.len_eq_zero_iff {K V : Type} (m : GoMap K V) : m.len = 0 ↔ m = [] := by
  simp [GoMap.len, List.length_eq_zero]

theorem GoMap.eq_nil_iff_keys {K V : Type} (m : GoMap K V) : m = [] ↔ ∀ k, k ∉ m.keys := by
  cases m with
  | nil => simp [GoMap.keys]
  | cons e rest =>
    simp only [reduceCtorEq, false_iff, not_forall, not_not]
    exact ⟨e.1, by simp [GoMap.keys]⟩

/-! ### Loops -/

theorem forEach_append {σ α : Type} (body : σ → α → Except Fault σ) (l1 l2 : List α) (s : σ) :
    forEach body (l1 ++ l2) s =
      match forEach body l1 s with
      | .error e => .error e
      | .ok s' => forEach body l2 s' := by
  induction l1 generalizing s with
  | nil => rfl
  | cons a l ih =>
    simp only [List.cons_append, forEach]
    cases body s a with
    | error e => rfl
    | ok s' => exact ih s'

/-- A property that every successful turn of the loop body preserves holds after a
successful loop. -/
theorem forEach_invariant {σ α : Type} (body : σ → α → Except Fault σ) (P : σ → Prop)
    (l : List α) (hstep : ∀ s a s', a ∈ l → P s → body s a = .ok s' → P s')
    (s s' : σ) (hs : P s) (hrun : forEach body l s = .ok s') : P s' := by
  induction l generalizing s with
  | nil =>
    simp only [forEach, Except.ok.injEq] at hrun
    exact hrun ▸ hs
  | cons a l ih =>
    simp only [forEach] at hrun
    cases hb : body s a with
    | error e => simp [hb] at hrun
    | ok s1 =>
      simp only [hb] at hrun
      exact ih (fun s a' s' ha' => hstep s a' s' (List.mem_cons_of_mem _ ha')) s1
        (hstep s a s1 (List.mem_cons_self _ _) hs hb) hrun

/-- A loop whose body succeeds wherever the invariant holds succeeds. -/
theorem forEach_succeeds {σ α : Type} (body : σ → α → Except Fault σ) (P : σ → Prop)
    (l : List α) (hstep : ∀ s a, a ∈ l → P s → ∃ s', body s a = .ok s' ∧ P s')
    (s : σ) (hs : P s) : ∃ s', forEach body l s = .ok s' ∧ P s' := by
  induction l generalizing s with
  | nil => exact ⟨s, rfl, hs⟩
  | cons a l ih =>
    obtain ⟨s1, hb, hs1⟩ := hstep s a (List.mem_cons_self _ _) hs
    obtain ⟨s', hrun, hs'⟩ :=
      ih (fun s a' ha' => hstep s a' (List.mem_cons_of_mem _ ha')) s1 hs1
    exact ⟨s', by simp [forEach, hb, hrun], hs'⟩

/-! ### Slices -/

theorem getIdx_eq_some_iff {α : Type} (s : List α) (i : Int) (x : α) :
    getIdx s i = some x ↔ 0 ≤ i ∧ s[i.toNat]? = some x := by
  unfold getIdx
  by_cases hi : i < 0
  · simp [hi]
  · simp [hi, not_lt.mp hi]

theorem getIdx_isSome_iff {α : Type} (s : List α) (i : Int) :
    (getIdx s i).isSome ↔ 0 ≤ i ∧ i < s.length := by
  unfold getIdx
  by_cases hi : i < 0
  · simp [hi]
  · simp only [hi, if_false, List.get?_eq_getElem?, not_lt.mp hi, true_and]
    rw [Option.isSome_iff_exists]
    constructor
    · rintro ⟨x, hx⟩
      have := (List.getElem?_eq_some.mp hx).1
      omega
    · intro h
      have hlt : i.toNat < s.length := by omega
      exact ⟨s[i.toNat], List.getElem?_eq_getElem hlt⟩

theorem getIdx_setIdx {α : Type} (s : List α) (i j : Int) (x : α) :
    getIdx (setIdx s j x) i = if i = j then (getIdx s i).map (fun _ => x) else getIdx s i := by
  unfold getIdx setIdx
  by_cases hj : j < 0
  · by_cases hij : i = j
    · subst hij; simp [hj]
    · simp [hj, hij]
  · by_cases hi : i < 0
    · have : i ≠ j := by omega
      simp [hi, hj, this]
    · by_cases hij : i = j
      · subst hij
        simp only [hi, if_false, List.get?_eq_getElem?, List.getElem?_set, if_true]
        cases h : s[i.toNat]? with
        | none =>
          have := List.getElem?_eq_none_iff.mp h
          simp [Nat.not_lt.mpr this]
        | some y =>
          have := (List.getElem?_eq_some.mp h).1
          simp [this]
      · have hne : j.toNat ≠ i.toNat := by omega
        simp [hi, hj, hij, List.getElem?_set, hne]

theorem length_setIdx {α : Type} (s : List α) (i : Int) (x : α) :
    (setIdx s i x).length = s.length := by
  unfold setIdx
  split <;> simp

theorem getIdx_setIdx_self {α : Type} (s : List α) (i : Int) (x y : α)
    (h : getIdx s i = some y) : getIdx (setIdx s i x) i = some x := by
  unfold getIdx setIdx at *
  by_cases hi : i < 0
  · simp [hi] at h
  · simp only [hi, if_false] at h ⊢
    have hlt : i.toNat < s.length := by
      by_contra hge
      rw [List.get?_eq_none.mpr (not_lt.mp hge)] at h
      cases h
    simp [List.getElem?_set, hlt]

/-- The second loop of the environment merge appends one entry per enumerated pair. -/
theorem appendEnvs_eq (envs : List VmEnvironmentVar) (pairs : List (String × String)) :
    QemuContext.appendEnvs envs pairs =
      envs ++ pairs.map (fun ev => { Env := ev.1, Value := ev.2 }) := by
  unfold QemuContext.appendEnvs
  induction pairs generalizing envs with
  | nil => simp
  | cons a l ih => simp [List.foldl_cons, ih]

/-! ## Theorems -/

/-- C1: `deviceReady()` is true exactly when the containers, volumes, blockdevs and
networks sets of both `progress.adding` and `progress.deleting` are empty, in every
context state. -/
theorem deviceReady_iff (ctx : QemuContext) :
    ctx.deviceReady = true ↔
      (ctx.progress.adding.containers = [] ∧ ctx.progress.adding.volumes = [] ∧
        ctx.progress.adding.blockdevs = [] ∧ ctx.progress.adding.networks = []) ∧
      (ctx.progress.deleting.containers = [] ∧ ctx.progress.deleting.volumes = [] ∧
        ctx.progress.deleting.blockdevs = [] ∧ ctx.progress.deleting.networks = []) := by
  simp [QemuContext.deviceReady, processingMap.isEmpty, GoMap.len, List.length_eq_zero,
    and_assoc]

/-- What `containerCreated` returns on an unlocked context whose pod has a container
at the index of the event: the container record, the image map, the pending block
devices and the result. -/
theorem containerCreated_spec (ord : RangeOrder String String) (ctx : QemuContext)
    (info : ContainerCreatedEvent) (c : VmContainer)
    (hlock : ctx.lock = false) (hc : ctx.container? info.Index = some c) :
    ∃ ctx', ctx.containerCreated ord info = .ok (ctx', !(info.Fstype == "dir")) ∧
      ctx'.container? info.Index = some
        (if info.Fstype = "dir" then
          { QemuContext.mergeCreated ord c info with Image := info.Image }
         else QemuContext.mergeCreated ord c info) ∧
      ctx'.devices.imageMap =
        (if info.Fstype = "dir" then ctx.devices.imageMap
         else ctx.devices.imageMap.set info.Image
          (imageInfo.mk (blockDescriptor.mk info.Image info.Image "raw" info.Fstype "" 0)
            info.Index)) ∧
      ctx'.progress.adding.blockdevs =
        (if info.Fstype = "dir" then ctx.progress.adding.blockdevs
         else ctx.progress.adding.blockdevs.set info.Image true) := by
  unfold QemuContext.container? at hc
  cases hvm : ctx.vmSpec with
  | none => simp [hvm] at hc
  | some vm =>
    simp only [hvm] at hc
    unfold QemuContext.containerCreated QemuContext.Lock
    simp only [hlock, hvm, hc]
    by_cases hd : info.Fstype = "dir"
    · simp [hd, hc, QemuContext.container?, QemuContext.Unlock, QemuContext.modAdding,
        QemuContext.modFinished, QemuContext.putContainer,
        getIdx_setIdx_self _ _ _ _ hc]
    · simp [hd, hc, QemuContext.container?, QemuContext.Unlock, QemuContext.modAdding,
        QemuContext.modFinished, QemuContext.modDevices, QemuContext.putContainer,
        getIdx_setIdx_self _ _ _ _ hc]

/-- C2: after `containerCreated` the container's `Cmd` is the user's entrypoint when it
is non-empty and the image's entrypoint otherwise, followed by the user's cmd when it is
non-empty and the image's cmd otherwise. -/
theorem containerCreated_cmd (ord : RangeOrder String String) (ctx : QemuContext)
    (info : ContainerCreatedEvent) (c : VmContainer)
    (hlock : ctx.lock = false) (hc : ctx.container? info.Index = some c) :
    ∃ ctx' needInsert c', ctx.containerCreated ord info = .ok (ctx', needInsert) ∧
      ctx'.container? info.Index = some c' ∧
      c'.Cmd = (if c.Entrypoint ≠ [] then c.Entrypoint else info.Entrypoint) ++
        (if c.Cmd ≠ [] then c.Cmd else info.Cmd) := by
  obtain ⟨ctx', hrun, hget, -, -⟩ := containerCreated_spec ord ctx info c hlock hc
  refine ⟨ctx', _, _, hrun, hget, ?_⟩
  have hcmd : (QemuContext.mergeCreated ord c info).Cmd =
      (if c.Entrypoint ≠ [] then c.Entrypoint else info.Entrypoint) ++
        (if c.Cmd ≠ [] then c.Cmd else info.Cmd) := by
    simp only [QemuContext.mergeCreated, QemuContext.resolveCmd]
    cases hE : c.Entrypoint <;> cases hC : c.Cmd <;> cases hIE : info.Entrypoint <;>
      cases hIC : info.Cmd <;> simp
  by_cases hd : info.Fstype = "dir"
  · simpa [hd] using hcmd
  · simpa [hd] using hcmd

/-- Witness of C2 on the sample context: the image entrypoint is used, the user's cmd wins. -/
theorem containerCreated_cmd_witness :
    ∃ ctx' needInsert c', sampleCtx.containerCreated id sampleCreated = .ok (ctx', needInsert) ∧
      ctx'.container? 0 = some c' ∧ c'.Cmd = ["/bin/sh", "-c", "date"] :=
  containerCreated_cmd id sampleCtx sampleCreated sampleContainer rfl rfl

/-- C3: after `containerCreated` the container's `Envs` are the user's entries, unchanged
and in order, followed by a permutation of the image entries whose key is not a user
key: one entry per such key, none for a colliding key. -/
theorem containerCreated_envs (ord : RangeOrder String String) (hord : ord.Valid)
    (ctx : QemuContext) (info : ContainerCreatedEvent) (c : VmContainer)
    (hlock : ctx.lock = false) (hc : ctx.container? info.Index = some c)
    (hwf : GoMap.WF info.Envs) :
    ∃ ctx' needInsert c' tail, ctx.containerCreated ord info = .ok (ctx', needInsert) ∧
      ctx'.container? info.Index = some c' ∧
      c'.Envs = c.Envs ++ tail ∧
      tail.Perm ((info.Envs.filter
        (fun kv => decide (kv.1 ∉ c.Envs.map (fun e => e.Env)))).map
          (fun kv => { Env := kv.1, Value := kv.2 })) ∧
      (tail.map (fun e => e.Env)).Nodup ∧
      (∀ k v, VmEnvironmentVar.mk k v ∈ tail ↔
        (info.Envs.get? k = some v ∧ k ∉ c.Envs.map (fun e => e.Env))) := by
  obtain ⟨ctx', hrun, hget, -, -⟩ := containerCreated_spec ord ctx info c hlock hc
  have hprune : QemuContext.pruneEnvs c.Envs info.Envs =
      info.Envs.filter (fun kv => decide (kv.1 ∉ c.Envs.map (fun e => e.Env))) :=
    GoMap.foldl_delete_eq_filter (fun e : VmEnvironmentVar => e.Env) c.Envs info.Envs
  have hperm : (ord (QemuContext.pruneEnvs c.Envs info.Envs)).Perm
      (info.Envs.filter (fun kv => decide (kv.1 ∉ c.Envs.map (fun e => e.Env)))) := by
    rw [← hprune]; exact hord _
  refine ⟨ctx', _, _, (ord (QemuContext.pruneEnvs c.Envs info.Envs)).map
    (fun kv => { Env := kv.1, Value := kv.2 }), hrun, hget, ?_, hperm.map _, ?_, ?_⟩
  · by_cases hd : info.Fstype = "dir" <;>
      simp [hd, QemuContext.mergeCreated, appendEnvs_eq]
  · rw [List.map_map]
    have hk : ((ord (QemuContext.pruneEnvs c.Envs info.Envs)).map Prod.fst).Perm
        ((info.Envs.filter (fun kv => decide (kv.1 ∉ c.Envs.map (fun e => e.Env)))).map
          Prod.fst) := hperm.map _
    have hnd : ((info.Envs.filter
        (fun kv => decide (kv.1 ∉ c.Envs.map (fun e => e.Env)))).map Prod.fst).Nodup :=
      List.Nodup.sublist ((List.filter_sublist _).map _) hwf
    exact (hk.nodup_iff.mpr hnd)
  · intro k v
    rw [GoMap.get?_eq_some_iff_mem _ hwf]
    constructor
    · intro hmem
      obtain ⟨⟨k', v'⟩, hkv, heq⟩ := List.mem_map.mp hmem
      have hkv' := (hperm.mem_iff).mp hkv
      rw [List.mem_filter] at hkv'
      simp only [VmEnvironmentVar.mk.injEq] at heq
      obtain ⟨rfl, rfl⟩ := heq
      exact ⟨hkv'.1, by simpa using hkv'.2⟩
    · rintro ⟨hin, hnot⟩
      refine List.mem_map.mpr ⟨(k, v), (hperm.mem_iff).mpr ?_, rfl⟩
      rw [List.mem_filter]
      exact ⟨hin, by simpa using hnot⟩

/-- Witness of C3 on the sample context, the map being ranged over in reverse order:
`PATH` keeps the user's value, `LANG` and `TERM` are appended. -/
theorem containerCreated_envs_witness :
    ∃ ctx' needInsert c' tail,
      sampleCtx.containerCreated List.reverse sampleCreated = .ok (ctx', needInsert) ∧
      ctx'.container? sampleCreated.Index = some c' ∧
      c'.Envs = sampleContainer.Envs ++ tail ∧
      tail.Perm ((sampleCreated.Envs.filter
        (fun kv => decide (kv.1 ∉ sampleContainer.Envs.map (fun e => e.Env)))).map
          (fun kv => { Env := kv.1, Value := kv.2 })) ∧
      (tail.map (fun e => e.Env)).Nodup ∧
      (∀ k v, VmEnvironmentVar.mk k v ∈ tail ↔
        (sampleCreated.Envs.get? k = some v ∧
          k ∉ sampleContainer.Envs.map (fun e => e.Env))) :=
  containerCreated_envs List.reverse (fun m => List.reverse_perm m) sampleCtx sampleCreated
    sampleContainer rfl rfl (by decide)

/-- C4: for an event with `Fstype` "dir", `containerCreated` returns false, leaves
`devices.imageMap` and `progress.adding.blockdevs` unchanged and stores the reported
path in the container's `Image`; for any other `Fstype` it registers an image entry
under the reported image, marks that name in `adding.blockdevs` and returns true. -/
theorem containerCreated_fstype (ord : RangeOrder String String) (ctx : QemuContext)
    (info : ContainerCreatedEvent) (c : VmContainer)
    (hlock : ctx.lock = false) (hc : ctx.container? info.Index = some c) :
    ∃ ctx' needInsert c', ctx.containerCreated ord info = .ok (ctx', needInsert) ∧
      ctx'.container? info.Index = some c' ∧
      (info.Fstype = "dir" →
        needInsert = false ∧ ctx'.devices.imageMap = ctx.devices.imageMap ∧
        ctx'.progress.adding.blockdevs = ctx.progress.adding.blockdevs ∧
        c'.Image = info.Image) ∧
      (info.Fstype ≠ "dir" →
        needInsert = true ∧
        ctx'.devices.imageMap.get? info.Image = some
          (imageInfo.mk (blockDescriptor.mk info.Image info.Image "raw" info.Fstype "" 0)
            info.Index) ∧
        (∀ name, name ≠ info.Image →
          ctx'.devices.imageMap.get? name = ctx.devices.imageMap.get? name) ∧
        ctx'.progress.adding.blockdevs.contains info.Image = true) := by
  obtain ⟨ctx', hrun, hget, himg, hblk⟩ := containerCreated_spec ord ctx info c hlock hc
  refine ⟨ctx', _, _, hrun, hget, ?_, ?_⟩
  · intro hd
    simp [hd, himg, hblk]
  · intro hd
    rw [himg, hblk, if_neg hd, if_neg hd]
    refine ⟨by simp [hd], GoMap.get?_set_self _ _ _, ?_, ?_⟩
    · intro name hne
      exact GoMap.get?_set_of_ne _ _ _ _ hne
    · simp [GoMap.contains, GoMap.get?_set_self]

/-- Witness of C4 on the sample context with a directory-backed root file system. -/
theorem containerCreated_fstype_witness :
    ∃ ctx' needInsert c',
      sampleCtx.containerCreated id sampleCreatedDir = .ok (ctx', needInsert) ∧
      ctx'.container? sampleCreatedDir.Index = some c' ∧
      (sampleCreatedDir.Fstype = "dir" →
        needInsert = false ∧ ctx'.devices.imageMap = sampleCtx.devices.imageMap ∧
        ctx'.progress.adding.blockdevs = sampleCtx.progress.adding.blockdevs ∧
        c'.Image = sampleCreatedDir.Image) ∧
      (sampleCreatedDir.Fstype ≠ "dir" →
        needInsert = true ∧
        ctx'.devices.imageMap.get? sampleCreatedDir.Image = some
          (imageInfo.mk (blockDescriptor.mk sampleCreatedDir.Image sampleCreatedDir.Image "raw"
            sampleCreatedDir.Fstype "" 0) sampleCreatedDir.Index) ∧
        (∀ name, name ≠ sampleCreatedDir.Image →
          ctx'.devices.imageMap.get? name = sampleCtx.devices.imageMap.get? name) ∧
        ctx'.progress.adding.blockdevs.contains sampleCreatedDir.Image = true) :=
  containerCreated_fstype id sampleCtx sampleCreatedDir sampleContainer rfl rfl

/-! ### Allocators -/

theorem wrapInt_range (x : Int) :
    -(2 ^ 63) ≤ QemuContext.wrapInt x ∧ QemuContext.wrapInt x < 2 ^ 63 := by
  unfold QemuContext.wrapInt
  norm_num
  omega

theorem wrapInt_of_range (x : Int) (h1 : -(2 ^ 63) ≤ x) (h2 : x < 2 ^ 63) :
    QemuContext.wrapInt x = x := by
  unfold QemuContext.wrapInt
  norm_num at h1 h2 ⊢
  omega

/-- One allocator call on an unlocked context returns the current counter, leaves the
other counters alone and advances its own by one unless that wraps around. -/
theorem alloc_step (ctx : QemuContext) (a : Allocator) (hlock : ctx.lock = false)
    (hfloor : a.floor ≤ ctx.counter a) :
    ∃ ctx1, ctx.alloc a = .ok (ctx1, ctx.counter a) ∧ ctx1.lock = false ∧
      (∀ b, b ≠ a → ctx1.counter b = ctx.counter b) ∧
      (ctx.counter a + 1 < a.limit → ctx1.counter a = ctx.counter a + 1) ∧
      a.floor ≤ ctx1.counter a ∧ ctx1.counter a < a.limit := by
  cases a with
  | pci =>
    refine ⟨_, by simp [QemuContext.alloc, QemuContext.nextPciAddr, QemuContext.Lock, hlock]; exact ⟨rfl, rfl⟩,
      rfl, ?_, ?_, ?_, ?_⟩
    · intro b hb; cases b <;> first | rfl | exact absurd rfl hb
    · intro h
      exact wrapInt_of_range _ (by simp [Allocator.floor, QemuContext.counter] at hfloor ⊢; omega)
        (by simpa [Allocator.limit, QemuContext.counter] using h)
    · exact (wrapInt_range _).1
    · exact (wrapInt_range _).2
  | scsi =>
    refine ⟨_, by simp [QemuContext.alloc, QemuContext.nextScsiId, QemuContext.Lock, hlock]; exact ⟨rfl, rfl⟩,
      rfl, ?_, ?_, ?_, ?_⟩
    · intro b hb; cases b <;> first | rfl | exact absurd rfl hb
    · intro h
      exact wrapInt_of_range _ (by simp [Allocator.floor, QemuContext.counter] at hfloor ⊢; omega)
        (by simpa [Allocator.limit, QemuContext.counter] using h)
    · exact (wrapInt_range _).1
    · exact (wrapInt_range _).2
  | attach =>
    refine ⟨_, by simp [QemuContext.alloc, QemuContext.nextAttachId, QemuContext.Lock, hlock]; exact ⟨rfl, rfl⟩,
      rfl, ?_, ?_, ?_, ?_⟩
    · intro b hb; cases b <;> first | rfl | exact absurd rfl hb
    · intro h
      simp only [QemuContext.counter, Allocator.limit, QemuContext.Unlock] at h ⊢
      norm_num at h ⊢
      omega
    · simp only [QemuContext.counter, Allocator.floor, QemuContext.Unlock]
      omega
    · simp only [QemuContext.counter, Allocator.limit, QemuContext.Unlock]
      norm_num
      omega

/-- The values returned by a sequence of allocator calls that stays below the
wrap-around limits: each allocator hands out its counter, then counter + 1, and so on. -/
theorem allocs_values (ops : List Allocator) (ctx : QemuContext) (hlock : ctx.lock = false)
    (hfloor : ∀ a : Allocator, a.floor ≤ ctx.counter a)
    (hlimit : ∀ a : Allocator, ctx.counter a + (ops.count a : Int) ≤ a.limit) :
    ∃ ctx' vs, ctx.allocs ops = .ok (ctx', vs) ∧
      ∀ a, valuesOf a vs = (List.range (ops.count a)).map (fun (k : Nat) => ctx.counter a + (k : Int)) := by
  induction ops generalizing ctx with
  | nil => exact ⟨ctx, [], rfl, fun a => by simp [valuesOf]⟩
  | cons a0 rest ih =>
    obtain ⟨ctx1, hstep, hlock1, hother, hself, hfl1, hlim1⟩ :=
      alloc_step ctx a0 hlock (hfloor a0)
    have hcount : ∀ b, ((a0 :: rest).count b : Int) =
        (rest.count b : Int) + (if a0 = b then 1 else 0) := by
      intro b
      by_cases hb : a0 = b <;> simp [List.count_cons, hb]
    have hfloor1 : ∀ b : Allocator, b.floor ≤ ctx1.counter b := by
      intro b
      by_cases hb : b = a0
      · subst hb; exact hfl1
      · rw [hother b hb]; exact hfloor b
    have hlimit1 : ∀ b : Allocator, ctx1.counter b + (rest.count b : Int) ≤ b.limit := by
      intro b
      have hl := hlimit b
      rw [hcount b] at hl
      by_cases hb : b = a0
      · subst hb
        by_cases hz : rest.count b = 0
        · rw [hz]; simp only [Nat.cast_zero, add_zero]; exact le_of_lt hlim1
        · have hpos : (1 : Int) ≤ (rest.count b : Int) := by
            have : 1 ≤ rest.count b := Nat.one_le_iff_ne_zero.mpr hz
            exact_mod_cast this
          simp only [if_true] at hl
          rw [hself (by omega)]
          omega
      · rw [hother b hb]
        have : ¬ a0 = b := fun e => hb e.symm
        simp only [this, if_false, add_zero] at hl
        exact hl
    obtain ⟨ctx2, vs, hrun, hvals⟩ := ih ctx1 hlock1 hfloor1 hlimit1
    refine ⟨ctx2, (a0, ctx.counter a0) :: vs, by simp [QemuContext.allocs, hstep, hrun], ?_⟩
    intro b
    by_cases hb : b = a0
    · subst hb
      have hv : valuesOf b ((b, ctx.counter b) :: vs) = ctx.counter b :: valuesOf b vs := by
        simp [valuesOf]
      rw [hv, hvals b, List.count_cons_self, List.range_succ_eq_map]
      simp only [List.map_cons, List.map_map, Nat.cast_zero, add_zero, List.cons.injEq, true_and]
      by_cases hz : rest.count b = 0
      · simp [hz]
      · have hpos : (1 : Int) ≤ (rest.count b : Int) := by
          have : 1 ≤ rest.count b := Nat.one_le_iff_ne_zero.mpr hz
          exact_mod_cast this
        have hl := hlimit b
        rw [hcount b] at hl
        simp only [if_true] at hl
        rw [hself (by omega)]
        apply List.map_congr_left
        intro k _
        simp only [Function.comp, Nat.cast_succ]
        omega
    · have hne : ¬ a0 = b := fun e => hb e.symm
      have hv : valuesOf b ((a0, ctx.counter a0) :: vs) = valuesOf b vs := by
        simp [valuesOf, hne]
      rw [hv, hvals b, hother b hb, List.count_cons_of_ne hb]

/-- C5, as stated, fails at the width of the counter: on a context whose attach-id
counter holds the largest `uint64`, two calls of `nextAttachId` return 2^64 - 1 and then
0, so the second value is not greater than the first. -/
theorem nextAttachId_wraps_around :
    lastAttachIdCtx.lock = false ∧
      (lastAttachIdCtx.allocs [.attach, .attach]).map Prod.snd =
        .ok [(.attach, 18446744073709551615), (.attach, 0)] ∧
      ¬ (valuesOf .attach [(.attach, 18446744073709551615), (.attach, 0)]).Pairwise
        (fun x y => x < y) := by
  refine ⟨rfl, rfl, ?_⟩
  simp [valuesOf]

/-- C5 (amended): in a sequence of allocator calls on an unlocked context in which no
counter passes the largest value of its type, every call returns, each allocator hands
out its current counter, then that plus one, and so on, and therefore every value an
allocator returns is strictly greater than every value it returned earlier. -/
theorem allocs_strictly_increasing (ops : List Allocator) (ctx : QemuContext)
    (hlock : ctx.lock = false)
    (hfloor : ∀ a : Allocator, a.floor ≤ ctx.counter a)
    (hlimit : ∀ a : Allocator, ctx.counter a + (ops.count a : Int) ≤ a.limit) :
    ∃ ctx' vs, ctx.allocs ops = .ok (ctx', vs) ∧
      ∀ a, valuesOf a vs =
          (List.range (ops.count a)).map (fun (k : Nat) => ctx.counter a + (k : Int)) ∧
        (valuesOf a vs).Pairwise (fun x y => x < y) := by
  obtain ⟨ctx', vs, hrun, hvals⟩ := allocs_values ops ctx hlock hfloor hlimit
  refine ⟨ctx', vs, hrun, fun a => ⟨hvals a, ?_⟩⟩
  rw [hvals a, List.pairwise_map]
  refine (List.pairwise_lt_range _).imp ?_
  intro i j hij
  have : (i : Int) < (j : Int) := by exact_mod_cast hij
  omega

/-- Witness of the amended C5: five interleaved calls on the sample context. -/
theorem allocs_strictly_increasing_witness :
    ∃ ctx' vs, sampleCtx.allocs [.pci, .attach, .pci, .scsi, .attach] = .ok (ctx', vs) ∧
      ∀ a, valuesOf a vs =
          (List.range ([Allocator.pci, .attach, .pci, .scsi, .attach].count a)).map
            (fun (k : Nat) => sampleCtx.counter a + (k : Int)) ∧
        (valuesOf a vs).Pairwise (fun x y => x < y) :=
  allocs_strictly_increasing [.pci, .attach, .pci, .scsi, .attach] sampleCtx rfl
    (fun a => by cases a <;> decide) (fun a => by cases a <;> decide)


/-! ### `InitDeviceContext` -/

theorem RegistryFrame.refl (a : QemuContext) : RegistryFrame a a := by
  constructor <;> rfl

theorem RegistryFrame.trans {a b c : QemuContext} (h1 : RegistryFrame a b)
    (h2 : RegistryFrame b c) : RegistryFrame a c := by
  constructor
  · exact h2.id.trans h1.id
  · exact h2.cpu.trans h1.cpu
  · exact h2.memory.trans h1.memory
  · exact h2.pciAddr.trans h1.pciAddr
  · exact h2.scsiId.trans h1.scsiId
  · exact h2.attachId.trans h1.attachId
  · exact h2.kernel.trans h1.kernel
  · exact h2.initrd.trans h1.initrd
  · exact h2.ttys.trans h1.ttys
  · exact h2.ttySessions.trans h1.ttySessions
  · exact h2.qmpSockName.trans h1.qmpSockName
  · exact h2.dvmSockName.trans h1.dvmSockName
  · exact h2.ttySockName.trans h1.ttySockName
  · exact h2.consoleSockName.trans h1.consoleSockName
  · exact h2.shareDir.trans h1.shareDir
  · exact h2.handlerSet.trans h1.handlerSet
  · exact h2.userSpec.trans h1.userSpec
  · exact h2.vmSpec.trans h1.vmSpec
  · exact h2.lock.trans h1.lock
  · exact h2.imageMap.trans h1.imageMap
  · exact h2.networkMap.trans h1.networkMap
  · exact h2.deleting.trans h1.deleting
  · exact h2.finished.trans h1.finished
  · exact h2.addingTtys.trans h1.addingTtys
  · exact h2.addingSerialPorts.trans h1.addingSerialPorts

/-- The effect of the network loop of `InitDeviceContext`. -/
theorem addNetworks_spec (ctx : QemuContext) (n : Int) :
    RegistryFrame ctx (ctx.addNetworks n) ∧
      (ctx.addNetworks n).devices.volumeMap = ctx.devices.volumeMap ∧
      (ctx.addNetworks n).progress.adding.containers = ctx.progress.adding.containers ∧
      (ctx.addNetworks n).progress.adding.volumes = ctx.progress.adding.volumes ∧
      (ctx.addNetworks n).progress.adding.blockdevs = ctx.progress.adding.blockdevs ∧
      ∀ k, k ∈ (ctx.addNetworks n).progress.adding.networks.keys ↔
        k ∈ ctx.progress.adding.networks.keys ∨ (0 ≤ k ∧ k < n) := by
  have key : ∀ (l : List Nat) (c c' : QemuContext),
      c' = l.foldl (fun ctx (i : Nat) => ctx.modAdding fun pm =>
        { pm with networks := pm.networks.set (i : Int) true }) c →
      RegistryFrame c c' ∧ c'.devices.volumeMap = c.devices.volumeMap ∧
      c'.progress.adding.containers = c.progress.adding.containers ∧
      c'.progress.adding.volumes = c.progress.adding.volumes ∧
      c'.progress.adding.blockdevs = c.progress.adding.blockdevs ∧
      ∀ k, k ∈ c'.progress.adding.networks.keys ↔
        k ∈ c.progress.adding.networks.keys ∨ ∃ i ∈ l, k = (i : Int) := by
    intro l
    induction l with
    | nil =>
      intro c c' hc
      subst hc
      exact ⟨RegistryFrame.refl _, rfl, rfl, rfl, rfl, by simp⟩
    | cons i l ih =>
      intro c c' hc
      obtain ⟨hf, h1, h2, h3, h4, h5⟩ := ih (c.modAdding fun pm =>
        { pm with networks := pm.networks.set (i : Int) true }) c' hc
      refine ⟨RegistryFrame.trans (by constructor <;> rfl) hf, h1, h2, h3, h4, ?_⟩
      intro k
      rw [h5]
      simp only [QemuContext.modAdding, GoMap.mem_keys_set, List.mem_cons, exists_eq_or_imp]
      tauto
  obtain ⟨hf, h1, h2, h3, h4, h5⟩ := key (List.range n.toNat) ctx (ctx.addNetworks n) rfl
  refine ⟨hf, h1, h2, h3, h4, ?_⟩
  intro k
  rw [h5]
  apply or_congr Iff.rfl
  simp only [List.mem_range]
  constructor
  · rintro ⟨i, hi, rfl⟩
    omega
  · rintro ⟨h0, hn⟩
    exact ⟨k.toNat, by omega, by omega⟩

/-- Registering a volume entry without mounts keeps the mount invariant. -/
theorem MountsBelow_set_new (n : Nat) (ctx : QemuContext) (name a b c d : String)
    (h : MountsBelow n ctx) :
    MountsBelow n (ctx.modDevices fun dm =>
      { dm with volumeMap := dm.volumeMap.set name (QemuContext.newVolumeInfo a b c d) }) := by
  intro name' vol hget
  simp only [QemuContext.modDevices] at hget
  by_cases hn : name' = name
  · subst hn
    rw [GoMap.get?_set_self] at hget
    cases hget
    simp [QemuContext.newVolumeInfo, GoMap.WF, GoMap.keys]
  · rw [GoMap.get?_set_of_ne _ _ _ _ hn] at hget
    exact h name' vol hget

/-- The effect of one turn of the volume loop of `InitDeviceContext`. -/
theorem classifyVolume_spec (ctx : QemuContext) (vol : UserVolume) :
    RegistryFrame ctx (ctx.classifyVolume vol) ∧
      (ctx.classifyVolume vol).progress.adding.containers = ctx.progress.adding.containers ∧
      (ctx.classifyVolume vol).progress.adding.networks = ctx.progress.adding.networks ∧
      (∀ k, k ∈ (ctx.classifyVolume vol).progress.adding.volumes.keys ↔
        k = vol.Name ∨ k ∈ ctx.progress.adding.volumes.keys) ∧
      (∀ k, k ∈ (ctx.classifyVolume vol).progress.adding.blockdevs.keys ↔
        (k = vol.Name ∧ vol.isBlockdev) ∨ k ∈ ctx.progress.adding.blockdevs.keys) ∧
      (∀ k, k ∈ (ctx.classifyVolume vol).devices.volumeMap.keys ↔
        (k = vol.Name ∧ vol.registered) ∨ k ∈ ctx.devices.volumeMap.keys) ∧
      (∀ n, MountsBelow n ctx → MountsBelow n (ctx.classifyVolume vol)) := by
  unfold QemuContext.classifyVolume
  by_cases h1 : vol.Source = ""
  · simp only [h1, beq_self_eq_true, if_true]
    refine ⟨by constructor <;> rfl, rfl, rfl, ?_, ?_, ?_, ?_⟩
    · intro k; simp [QemuContext.modAdding, QemuContext.modDevices, GoMap.mem_keys_set]
    · intro k; simp [QemuContext.modAdding, QemuContext.modDevices, UserVolume.isBlockdev, h1]
    · intro k
      simp [QemuContext.modAdding, QemuContext.modDevices, GoMap.mem_keys_set,
        UserVolume.registered, h1]
    · intro n hn
      exact MountsBelow_set_new n ctx vol.Name _ _ _ _ hn
  · have h1' : (vol.Source == "") = false := by simpa using h1
    by_cases h2 : vol.Driver = "raw" ∨ vol.Driver = "qcow2"
    · have h2' : (vol.Driver == "raw" || vol.Driver == "qcow2") = true := by simpa using h2
      simp only [h1', h2', if_true, Bool.false_eq_true, if_false]
      refine ⟨by constructor <;> rfl, rfl, rfl, ?_, ?_, ?_, ?_⟩
      · intro k; simp [QemuContext.modAdding, QemuContext.modDevices, GoMap.mem_keys_set]
      · intro k
        simp [QemuContext.modAdding, QemuContext.modDevices, GoMap.mem_keys_set,
          UserVolume.isBlockdev, h1, h2]
      · intro k
        have hr : vol.registered := by
          rcases h2 with h | h
          · exact Or.inr (Or.inl h)
          · exact Or.inr (Or.inr (Or.inl h))
        simp [QemuContext.modAdding, QemuContext.modDevices, GoMap.mem_keys_set, hr]
      · intro n hn
        exact MountsBelow_set_new n ctx vol.Name _ _ _ _ hn
    · have h2' : (vol.Driver == "raw" || vol.Driver == "qcow2") = false := by simpa using h2
      by_cases h3 : vol.Driver = "vfs"
      · simp only [h1', h2', h3, beq_self_eq_true, if_true, Bool.false_eq_true, if_false]
        refine ⟨by constructor <;> rfl, rfl, rfl, ?_, ?_, ?_, ?_⟩
        · intro k; simp [QemuContext.modAdding, QemuContext.modDevices, GoMap.mem_keys_set]
        · intro k
          simp [QemuContext.modAdding, QemuContext.modDevices, UserVolume.isBlockdev, h3]
        · intro k
          simp [QemuContext.modAdding, QemuContext.modDevices, GoMap.mem_keys_set,
            UserVolume.registered, h3]
        · intro n hn
          exact MountsBelow_set_new n ctx vol.Name _ _ _ _ hn
      · have h3' : (vol.Driver == "vfs") = false := by simpa using h3
        simp only [h1', h2', h3', Bool.false_eq_true, if_false]
        refine ⟨by constructor <;> rfl, rfl, rfl, ?_, ?_, ?_, ?_⟩
        · intro k; simp [QemuContext.modAdding, GoMap.mem_keys_set]
        · intro k
          simp only [not_or] at h2
          simp [QemuContext.modAdding, UserVolume.isBlockdev, h2.1, h2.2]
        · intro k
          simp only [not_or] at h2
          simp [QemuContext.modAdding, UserVolume.registered, h1, h2.1, h2.2, h3]
        · intro n hn
          exact hn

theorem exists_mem_cons_or {α : Type} (P : α → Prop) (a : α) (l : List α) (Q : Prop) :
    ((∃ x ∈ l, P x) ∨ (P a ∨ Q)) ↔ ((∃ x ∈ a :: l, P x) ∨ Q) := by
  constructor
  · rintro (⟨v, hv, h⟩ | h | h)
    · exact Or.inl ⟨v, List.mem_cons_of_mem _ hv, h⟩
    · exact Or.inl ⟨a, List.mem_cons_self _ _, h⟩
    · exact Or.inr h
  · rintro (⟨v, hv, h⟩ | h)
    · rcases List.mem_cons.mp hv with rfl | hv
      · exact Or.inr (Or.inl h)
      · exact Or.inl ⟨v, hv, h⟩
    · exact Or.inr (Or.inr h)

/-- The effect of the volume loop of `InitDeviceContext`. -/
theorem classifyVolumes_spec (vols : List UserVolume) (ctx : QemuContext) :
    RegistryFrame ctx (vols.foldl QemuContext.classifyVolume ctx) ∧
      (vols.foldl QemuContext.classifyVolume ctx).progress.adding.containers =
        ctx.progress.adding.containers ∧
      (vols.foldl QemuContext.classifyVolume ctx).progress.adding.networks =
        ctx.progress.adding.networks ∧
      (∀ k, k ∈ (vols.foldl QemuContext.classifyVolume ctx).progress.adding.volumes.keys ↔
        (∃ vol ∈ vols, k = vol.Name) ∨ k ∈ ctx.progress.adding.volumes.keys) ∧
      (∀ k, k ∈ (vols.foldl QemuContext.classifyVolume ctx).progress.adding.blockdevs.keys ↔
        (∃ vol ∈ vols, k = vol.Name ∧ vol.isBlockdev) ∨ k ∈ ctx.progress.adding.blockdevs.keys) ∧
      (∀ k, k ∈ (vols.foldl QemuContext.classifyVolume ctx).devices.volumeMap.keys ↔
        (∃ vol ∈ vols, k = vol.Name ∧ vol.registered) ∨ k ∈ ctx.devices.volumeMap.keys) ∧
      (∀ n, MountsBelow n ctx → MountsBelow n (vols.foldl QemuContext.classifyVolume ctx)) := by
  induction vols generalizing ctx with
  | nil => exact ⟨RegistryFrame.refl _, rfl, rfl, by simp, by simp, by simp, fun _ h => h⟩
  | cons vol vols ih =>
    obtain ⟨f1, a1, b1, c1, d1, e1, g1⟩ := classifyVolume_spec ctx vol
    obtain ⟨f2, a2, b2, c2, d2, e2, g2⟩ := ih (ctx.classifyVolume vol)
    refine ⟨f1.trans f2, a2.trans a1, b2.trans b1, ?_, ?_, ?_, fun n h => g2 n (g1 n h)⟩
    · intro k
      rw [List.foldl_cons, c2, c1]
      exact exists_mem_cons_or (fun v : UserVolume => k = v.Name) vol vols _
    · intro k
      rw [List.foldl_cons, d2, d1]
      exact exists_mem_cons_or (fun v : UserVolume => k = v.Name ∧ v.isBlockdev) vol vols _
    · intro k
      rw [List.foldl_cons, e2, e1]
      exact exists_mem_cons_or (fun v : UserVolume => k = v.Name ∧ v.registered) vol vols _

/-- The effect of recording one mount. -/
theorem recordMount_spec (i : Int) (ctx ctx' : QemuContext) (v : UserVolumeReference)
    (h : QemuContext.recordMount i ctx v = .ok ctx') :
    RegistryFrame ctx ctx' ∧ ctx'.progress.adding = ctx.progress.adding ∧
      (∀ k, k ∈ ctx'.devices.volumeMap.keys ↔ k ∈ ctx.devices.volumeMap.keys) ∧
      (∀ n : Nat, 0 ≤ i → i < (n : Int) → MountsBelow n ctx → MountsBelow n ctx') := by
  unfold QemuContext.recordMount at h
  cases hv : ctx.devices.volumeMap.get? v.Volume with
  | none => simp [hv] at h
  | some vol =>
    simp only [hv, Except.ok.injEq] at h
    subst h
    refine ⟨by constructor <;> rfl, rfl, ?_, ?_⟩
    · intro k
      simp only [QemuContext.modDevices, GoMap.mem_keys_set]
      constructor
      · rintro (rfl | hk)
        · exact (GoMap.mem_keys_iff_get? _ _).mpr (by simp [hv])
        · exact hk
      · exact Or.inr
    · intro n h0 hn hinv name' vol' hget
      simp only [QemuContext.modDevices] at hget
      by_cases hname : name' = v.Volume
      · subst hname
        rw [GoMap.get?_set_self] at hget
        cases hget
        obtain ⟨hwf, hkeys⟩ := hinv _ vol hv
        refine ⟨GoMap.WF_set _ _ _ hwf, ?_⟩
        intro j hj
        rcases (GoMap.mem_keys_set _ _ _ _).mp hj with rfl | hj
        · exact ⟨h0, hn⟩
        · exact hkeys j hj
      · rw [GoMap.get?_set_of_ne _ _ _ _ hname] at hget
        exact hinv name' vol' hget

theorem recordMount_succeeds (i : Int) (ctx : QemuContext) (v : UserVolumeReference)
    (h : v.Volume ∈ ctx.devices.volumeMap.keys) :
    ∃ ctx', QemuContext.recordMount i ctx v = .ok ctx' := by
  unfold QemuContext.recordMount
  cases hv : ctx.devices.volumeMap.get? v.Volume with
  | none => exact absurd hv ((GoMap.mem_keys_iff_get? _ _).mp h)
  | some vol => exact ⟨_, rfl⟩

/-- The effect of the mount loop of one container. -/
theorem recordMounts_spec (i : Int) (vs : List UserVolumeReference) (ctx ctx' : QemuContext)
    (h : forEach (QemuContext.recordMount i) vs ctx = .ok ctx') :
    RegistryFrame ctx ctx' ∧ ctx'.progress.adding = ctx.progress.adding ∧
      (∀ k, k ∈ ctx'.devices.volumeMap.keys ↔ k ∈ ctx.devices.volumeMap.keys) ∧
      (∀ n : Nat, 0 ≤ i → i < (n : Int) → MountsBelow n ctx → MountsBelow n ctx') := by
  refine forEach_invariant (QemuContext.recordMount i)
    (fun c => RegistryFrame ctx c ∧ c.progress.adding = ctx.progress.adding ∧
      (∀ k, k ∈ c.devices.volumeMap.keys ↔ k ∈ ctx.devices.volumeMap.keys) ∧
      (∀ n : Nat, 0 ≤ i → i < (n : Int) → MountsBelow n ctx → MountsBelow n c))
    vs ?_ ctx ctx' ⟨RegistryFrame.refl _, rfl, fun _ => Iff.rfl, fun _ _ _ h => h⟩ h
  rintro s a s' - ⟨hf, ha, hk, hm⟩ hstep
  obtain ⟨hf', ha', hk', hm'⟩ := recordMount_spec i s s' a hstep
  exact ⟨hf.trans hf', ha'.trans ha, fun k => (hk' k).trans (hk k),
    fun n h0 hn hinv => hm' n h0 hn (hm n h0 hn hinv)⟩

theorem recordMounts_succeeds (i : Int) (vs : List UserVolumeReference) (ctx : QemuContext)
    (h : ∀ v ∈ vs, v.Volume ∈ ctx.devices.volumeMap.keys) :
    ∃ ctx', forEach (QemuContext.recordMount i) vs ctx = .ok ctx' := by
  obtain ⟨ctx', hrun, -⟩ := forEach_succeeds (QemuContext.recordMount i)
    (fun c => ∀ k, k ∈ c.devices.volumeMap.keys ↔ k ∈ ctx.devices.volumeMap.keys) vs
    (by
      intro s a ha hs
      obtain ⟨s', hs'⟩ := recordMount_succeeds i s a ((hs _).mpr (h a ha))
      exact ⟨s', hs', fun k => ((recordMount_spec i s s' a hs').2.2.1 k).trans (hs k)⟩)
    ctx (fun _ => Iff.rfl)
  exact ⟨ctx', hrun⟩

/-- The effect of one turn of the container loop of `InitDeviceContext`, which runs with
the mutex held: the turn returns only for a pod without tty. -/
theorem initContainer_spec (spec : UserPod) (ctx ctx' : QemuContext)
    (cs cs' : List VmContainer) (e : Nat × UserContainer) (hlock : ctx.lock = true)
    (h : QemuContext.initContainer spec (ctx, cs) e = .ok (ctx', cs')) :
    spec.Tty = false ∧ RegistryFrame ctx ctx' ∧
      ctx'.progress.adding.networks = ctx.progress.adding.networks ∧
      ctx'.progress.adding.volumes = ctx.progress.adding.volumes ∧
      ctx'.progress.adding.blockdevs = ctx.progress.adding.blockdevs ∧
      (∀ k, k ∈ ctx'.progress.adding.containers.keys ↔
        k = (e.1 : Int) ∨ k ∈ ctx.progress.adding.containers.keys) ∧
      cs'.length = cs.length ∧
      (∀ k, k ∈ ctx'.devices.volumeMap.keys ↔ k ∈ ctx.devices.volumeMap.keys) ∧
      (∀ n : Nat, e.1 < n → MountsBelow n ctx → MountsBelow n ctx') := by
  unfold QemuContext.initContainer at h
  simp only at h
  cases hm : forEach (QemuContext.recordMount (e.1 : Int)) e.2.Volumes ctx with
  | error err => simp [hm] at h
  | ok ctxm =>
    obtain ⟨hf, ha, hk, hinv⟩ := recordMounts_spec _ _ _ _ hm
    simp only [hm] at h
    cases htty : spec.Tty with
    | true =>
      have hl : ctxm.lock = true := hf.lock.trans hlock
      simp [htty, QemuContext.nextAttachId, QemuContext.Lock, QemuContext.modAdding, hl] at h
    | false =>
      simp only [htty, Bool.false_eq_true, if_false, Except.ok.injEq, Prod.mk.injEq] at h
      obtain ⟨h1, h2⟩ := h
      subst h1 h2
      refine ⟨rfl, hf.trans (by constructor <;> rfl), ?_, ?_, ?_, ?_, ?_, hk, ?_⟩
      · simp [QemuContext.modAdding, ha]
      · simp [QemuContext.modAdding, ha]
      · simp [QemuContext.modAdding, ha]
      · intro k
        simp [QemuContext.modAdding, ha, GoMap.mem_keys_set]
      · exact length_setIdx _ _ _
      · intro n hn hmb
        exact hinv n (by omega) (by exact_mod_cast hn) hmb

theorem initContainer_succeeds (spec : UserPod) (ctx : QemuContext) (cs : List VmContainer)
    (e : Nat × UserContainer) (htty : spec.Tty = false)
    (h : ∀ v ∈ e.2.Volumes, v.Volume ∈ ctx.devices.volumeMap.keys) :
    ∃ st', QemuContext.initContainer spec (ctx, cs) e = .ok st' := by
  obtain ⟨ctxm, hm⟩ := recordMounts_succeeds (e.1 : Int) e.2.Volumes ctx h
  unfold QemuContext.initContainer
  simp only [hm, htty, Bool.false_eq_true, if_false]
  exact ⟨_, rfl⟩

/-- The effect of the container loop of `InitDeviceContext`. -/
theorem initContainers_spec (spec : UserPod) (l : List (Nat × UserContainer))
    (ctx ctx' : QemuContext) (cs cs' : List VmContainer) (hlock : ctx.lock = true)
    (h : forEach (QemuContext.initContainer spec) l (ctx, cs) = .ok (ctx', cs')) :
    (l ≠ [] → spec.Tty = false) ∧ RegistryFrame ctx ctx' ∧
      ctx'.progress.adding.networks = ctx.progress.adding.networks ∧
      ctx'.progress.adding.volumes = ctx.progress.adding.volumes ∧
      ctx'.progress.adding.blockdevs = ctx.progress.adding.blockdevs ∧
      (∀ k, k ∈ ctx'.progress.adding.containers.keys ↔
        (∃ e ∈ l, k = (e.1 : Int)) ∨ k ∈ ctx.progress.adding.containers.keys) ∧
      cs'.length = cs.length ∧
      (∀ k, k ∈ ctx'.devices.volumeMap.keys ↔ k ∈ ctx.devices.volumeMap.keys) ∧
      (∀ n : Nat, (∀ e ∈ l, e.1 < n) → MountsBelow n ctx → MountsBelow n ctx') := by
  induction l generalizing ctx cs with
  | nil =>
    simp only [forEach, Except.ok.injEq, Prod.mk.injEq] at h
    obtain ⟨rfl, rfl⟩ := h
    exact ⟨fun h => absurd rfl h, RegistryFrame.refl _, rfl, rfl, rfl, by simp, rfl,
      fun _ => Iff.rfl, fun _ _ h => h⟩
  | cons e l ih =>
    simp only [forEach] at h
    cases hb : QemuContext.initContainer spec (ctx, cs) e with
    | error err => simp [hb] at h
    | ok st1 =>
      obtain ⟨ctx1, cs1⟩ := st1
      simp only [hb] at h
      obtain ⟨t1, f1, n1, v1, b1, c1, l1, k1, m1⟩ :=
        initContainer_spec spec ctx ctx1 cs cs1 e hlock hb
      obtain ⟨-, f2, n2, v2, b2, c2, l2, k2, m2⟩ :=
        ih ctx1 cs1 (f1.lock.trans hlock) h
      refine ⟨fun _ => t1, f1.trans f2, n2.trans n1, v2.trans v1, b2.trans b1, ?_,
        l2.trans l1, fun k => (k2 k).trans (k1 k), ?_⟩
      · intro k
        rw [c2, c1]
        exact exists_mem_cons_or (fun x : Nat × UserContainer => k = (x.1 : Int)) e l _
      · intro n hn hmb
        exact m2 n (fun x hx => hn x (List.mem_cons_of_mem _ hx))
          (m1 n (hn e (List.mem_cons_self _ _)) hmb)

theorem initContainers_succeeds (spec : UserPod) (l : List (Nat × UserContainer))
    (ctx : QemuContext) (cs : List VmContainer) (hlock : ctx.lock = true)
    (htty : spec.Tty = false)
    (h : ∀ e ∈ l, ∀ v ∈ e.2.Volumes, v.Volume ∈ ctx.devices.volumeMap.keys) :
    ∃ st', forEach (QemuContext.initContainer spec) l (ctx, cs) = .ok st' := by
  obtain ⟨st', hrun, -⟩ := forEach_succeeds (QemuContext.initContainer spec)
    (fun st : QemuContext × List VmContainer => st.1.lock = true ∧
      ∀ k, k ∈ st.1.devices.volumeMap.keys ↔ k ∈ ctx.devices.volumeMap.keys) l
    (by
      rintro ⟨c, csx⟩ e he ⟨hl, hk⟩
      obtain ⟨⟨c', csx'⟩, hs'⟩ := initContainer_succeeds spec c csx e htty
        (fun v hv => (hk _).mpr (h e he v hv))
      obtain ⟨-, f1, -, -, -, -, -, k1, -⟩ := initContainer_spec spec c c' csx csx' e hl hs'
      exact ⟨(c', csx'), hs', f1.lock.trans hl, fun k => (k1 k).trans (hk k)⟩)
    (ctx, cs) ⟨hlock, fun _ => Iff.rfl⟩
  exact ⟨st', hrun⟩

/-- What `InitDeviceContext` establishes when it returns. -/
theorem InitDeviceContext_post (c0 c1 : QemuContext) (spec : UserPod) (networks : Int)
    (h : c0.InitDeviceContext spec networks = .ok c1) : InitPost c0 spec networks c1 := by
  unfold QemuContext.InitDeviceContext QemuContext.Lock at h
  cases hl : c0.lock with
  | true => simp [hl] at h
  | false =>
    simp only [hl, Bool.false_eq_true, if_false] at h
    generalize hA : ({ c0 with lock := true } : QemuContext) = cA at h
    have fA : RegistryFrame c0 ({ c0 with lock := false } : QemuContext) := by
      constructor <;> first | rfl | exact hl.symm
    obtain ⟨fN, nv, nc, nvol, nb, nk⟩ := addNetworks_spec cA networks
    obtain ⟨fV, vc, vn, vvol, vb, vk, vm⟩ :=
      classifyVolumes_spec spec.Volumes (cA.addNetworks networks)
    cases hrun : forEach (QemuContext.initContainer spec) spec.Containers.enum
        (List.foldl QemuContext.classifyVolume (cA.addNetworks networks) spec.Volumes,
          List.replicate spec.Containers.length VmContainer.zero) with
    | error err => simp [hrun] at h
    | ok st =>
      obtain ⟨cB, cs⟩ := st
      simp only [hrun, Except.ok.injEq] at h
      have hlA : cA.lock = true := by rw [← hA]
      have hlV : (List.foldl QemuContext.classifyVolume (cA.addNetworks networks)
          spec.Volumes).lock = true := (fV.lock.trans fN.lock).trans hlA
      obtain ⟨tC, fC, cn, cvol, cb, cc, clen, ck, cm⟩ :=
        initContainers_spec spec _ _ cB _ cs hlV hrun
      have fAll : RegistryFrame cA cB := (fN.trans fV).trans fC
      have hdev0 : cA.devices = c0.devices := by rw [← hA]
      have hprog0 : cA.progress = c0.progress := by rw [← hA]
      have hatt0 : cA.attachId = c0.attachId := by rw [← hA]
      have htty0 : cA.ttys = c0.ttys := by rw [← hA]
      subst h
      refine
        { noTty := ?_, lock := rfl, userSpec := rfl, vmSpec := ?_, imageMap := ?_,
          networkMap := ?_, deleting := ?_, finished := ?_, attachId := ?_, ttys := ?_,
          addingNetworks := ?_, addingVolumes := ?_, addingBlockdevs := ?_,
          addingContainers := ?_, volumeMap := ?_, mounts := ?_ }
      · intro hne
        apply tC
        intro hnil
        apply hne
        have := congrArg List.length hnil
        simpa using this
      · exact ⟨_, rfl, by simpa using clen, rfl, rfl, rfl⟩
      · simp only [QemuContext.Unlock]
        rw [fAll.imageMap, hdev0]
      · simp only [QemuContext.Unlock]
        rw [fAll.networkMap, hdev0]
      · simp only [QemuContext.Unlock]
        rw [fAll.deleting, hprog0]
      · simp only [QemuContext.Unlock]
        rw [fAll.finished, hprog0]
      · simp only [QemuContext.Unlock]
        rw [fAll.attachId, hatt0]
      · simp only [QemuContext.Unlock]
        rw [fAll.ttys, htty0]
      · intro k
        simp only [QemuContext.Unlock]
        rw [cn, vn, nk, hprog0]
      · intro k
        simp only [QemuContext.Unlock]
        rw [cvol, vvol, nvol, hprog0]
      · intro k
        simp only [QemuContext.Unlock]
        rw [cb, vb, nb, hprog0]
      · intro k
        simp only [QemuContext.Unlock]
        rw [cc, vc, nc, hprog0]
        apply or_congr _ Iff.rfl
        constructor
        · rintro ⟨e, he, rfl⟩
          have := List.fst_lt_of_mem_enum he
          omega
        · rintro ⟨h0, hlt⟩
          have hlt' : k.toNat < spec.Containers.length := by omega
          refine ⟨(k.toNat, spec.Containers[k.toNat]), ?_, by simp; omega⟩
          exact List.mk_mem_enum_iff_getElem?.mpr (List.getElem?_eq_getElem hlt')
      · intro k
        simp only [QemuContext.Unlock]
        rw [ck, vk, nv, hdev0]
      · intro hmb
        have hmbA : MountsBelow spec.Containers.length cA := by
          intro name vol hget
          rw [hdev0] at hget
          exact hmb name vol hget
        have hmbN : MountsBelow spec.Containers.length (cA.addNetworks networks) := by
          intro name vol hget
          rw [nv] at hget
          exact hmbA name vol hget
        have := cm spec.Containers.length (fun e he => List.fst_lt_of_mem_enum he)
          (vm _ hmbN)
        intro name vol hget
        exact this name vol hget

/-- `InitDeviceContext` returns on an unlocked context when the pod has no tty or no
container and every mount names a volume with a registry entry. -/
theorem InitDeviceContext_returns (c0 : QemuContext) (spec : UserPod) (networks : Int)
    (hlock : c0.lock = false) (htty : spec.Tty = false ∨ spec.Containers = [])
    (hm : MountsDeclared c0 spec) :
    ∃ c1, c0.InitDeviceContext spec networks = .ok c1 := by
  unfold QemuContext.InitDeviceContext QemuContext.Lock
  simp only [hlock, Bool.false_eq_true, if_false]
  generalize hA : ({ c0 with lock := true } : QemuContext) = cA
  have hlA : cA.lock = true := by rw [← hA]
  have hdev0 : cA.devices = c0.devices := by rw [← hA]
  obtain ⟨fN, nv, -⟩ := addNetworks_spec cA networks
  obtain ⟨fV, -, -, -, -, vk, -⟩ :=
    classifyVolumes_spec spec.Volumes (cA.addNetworks networks)
  have hlV : (List.foldl QemuContext.classifyVolume (cA.addNetworks networks)
      spec.Volumes).lock = true := (fV.lock.trans fN.lock).trans hlA
  have hrun : ∃ st', forEach (QemuContext.initContainer spec) spec.Containers.enum
      (List.foldl QemuContext.classifyVolume (cA.addNetworks networks) spec.Volumes,
        List.replicate spec.Containers.length VmContainer.zero) = .ok st' := by
    rcases htty with htty | hnil
    · apply initContainers_succeeds spec _ _ _ hlV htty
      intro e he v hv
      rw [vk, nv, hdev0]
      exact hm e.2 (List.snd_mem_of_mem_enum he) v hv
    · rw [hnil]
      exact ⟨_, rfl⟩
  obtain ⟨⟨cB, cs⟩, hrun⟩ := hrun
  simp only [hrun]
  exact ⟨_, rfl⟩

/-! ### Propagation of an inserted volume -/

/-- In a map without repeated keys the entries under one key are the looked-up one. -/
theorem GoMap.filter_key_eq {K V : Type} [DecidableEq K] (m : GoMap K V) (hm : m.WF) (k : K) :
    m.filter (fun e => decide (e.1 = k)) =
      match m.get? k with
      | some v => [(k, v)]
      | none => [] := by
  induction m with
  | nil => rfl
  | cons e rest ih =>
    obtain ⟨k', v'⟩ := e
    have hnd : k' ∉ GoMap.keys rest ∧ (GoMap.keys rest).Nodup := by
      simpa [GoMap.WF, GoMap.keys] using hm
    by_cases h : k' = k
    · subst h
      have hnone : GoMap.get? rest k' = none := (GoMap.get?_eq_none_iff _ _).mpr hnd.1
      have := ih hnd.2
      rw [hnone] at this
      simp [GoMap.get?, List.filter_cons, this]
    · simp only [GoMap.get?, h, if_false, List.filter_cons, decide_False, Bool.false_eq_true]
      exact ih hnd.2

/-- Any enumeration of a map without repeated keys looks up the same values. -/
theorem GoMap.perm_get? {K V : Type} [DecidableEq K] (l m : GoMap K V) (hm : m.WF)
    (hp : l.Perm m) : l.WF ∧ ∀ k, l.get? k = m.get? k := by
  have hl : l.WF := (hp.map Prod.fst).nodup_iff.mpr hm
  refine ⟨hl, fun k => ?_⟩
  cases h : m.get? k with
  | none =>
    rw [GoMap.get?_eq_none_iff] at h ⊢
    intro hk
    exact h ((hp.map Prod.fst).mem_iff.mp hk)
  | some v =>
    rw [GoMap.get?_eq_some_iff_mem _ hm] at h
    rw [GoMap.get?_eq_some_iff_mem _ hl]
    exact hp.mem_iff.mpr h

/-- The loop of `blockdevInserted` over the mounts of a volume: every container gets
one descriptor per enumerated mount that carries its index. -/
theorem forEach_appendVolume (f : Int × String → VmVolumeDescriptor) (l : List (Int × String))
    (ctx : QemuContext) (vm : VmPod) (hvm : ctx.vmSpec = some vm)
    (hidx : ∀ e ∈ l, (getIdx vm.Containers e.1).isSome) :
    ∃ ctx' vm', forEach (fun ctx e => ctx.appendVolume e.1 (f e)) l ctx = .ok ctx' ∧
      ctx'.vmSpec = some vm' ∧ ctx'.devices = ctx.devices ∧ ctx'.progress = ctx.progress ∧
      ctx'.lock = ctx.lock ∧
      ∀ i, getIdx vm'.Containers i = (getIdx vm.Containers i).map (fun c =>
        { c with Volumes := c.Volumes ++ (l.filter (fun e => decide (e.1 = i))).map f }) := by
  induction l generalizing ctx vm with
  | nil =>
    refine ⟨ctx, vm, rfl, hvm, rfl, rfl, rfl, fun i => ?_⟩
    cases getIdx vm.Containers i <;> simp
  | cons e l ih =>
    have he := hidx e (List.mem_cons_self _ _)
    obtain ⟨c, hc⟩ := Option.isSome_iff_exists.mp he
    obtain ⟨c1, hc1⟩ : ∃ c1 : VmContainer, c1 = { c with Volumes := c.Volumes ++ [f e] } :=
      ⟨_, rfl⟩
    have hstep : ctx.appendVolume e.1 (f e) = .ok (ctx.putContainer vm e.1 c1) := by
      simp [QemuContext.appendVolume, hvm, hc, hc1]
    have hidx1 : ∀ x ∈ l, (getIdx (setIdx vm.Containers e.1 c1) x.1).isSome := by
      intro x hx
      rw [getIdx_setIdx]
      have := hidx x (List.mem_cons_of_mem _ hx)
      split <;> simp [this]
    obtain ⟨ctx', vm', hrun, hvm', hd, hp, hl, hget⟩ :=
      ih (ctx.putContainer vm e.1 c1)
        (VmPod.mk vm.Hostname (setIdx vm.Containers e.1 c1) vm.Interfaces vm.Routes
          vm.Socket vm.ShareDir) rfl hidx1
    refine ⟨ctx', vm', by simp only [forEach, hstep, hrun], hvm', hd, hp, hl, fun i => ?_⟩
    rw [hget i, getIdx_setIdx]
    by_cases hi : i = e.1
    · subst hi
      simp [hc, hc1, List.filter_cons]
    · have hi' : ¬ e.1 = i := fun h => hi h.symm
      simp [hi, hi', List.filter_cons]

theorem finishVolume_frame (ctx : QemuContext) (name : String) :
    (ctx.finishVolume name).devices = ctx.devices ∧
      (ctx.finishVolume name).vmSpec = ctx.vmSpec ∧
      (ctx.finishVolume name).lock = ctx.lock := by
  unfold QemuContext.finishVolume
  simp only
  split <;> exact ⟨rfl, rfl, rfl⟩

theorem finishBlockdev_frame (ctx : QemuContext) (name : String) :
    (ctx.finishBlockdev name).devices = ctx.devices ∧
      (ctx.finishBlockdev name).vmSpec = ctx.vmSpec ∧
      (ctx.finishBlockdev name).lock = ctx.lock := by
  unfold QemuContext.finishBlockdev
  simp only
  split <;> exact ⟨rfl, rfl, rfl⟩

/-- `volumeReady` for a block-backed volume with a registry entry. -/
theorem volumeReady_block (ord : RangeOrder Int String) (ctx : QemuContext)
    (info : VolumeReadyEvent) (vol : volumeInfo) (hlock : ctx.lock = false)
    (hvol : ctx.devices.volumeMap.get? info.Name = some vol) (hblock : info.Fstype ≠ "dir") :
    ∃ ctx', ctx.volumeReady ord info = .ok (ctx', true) ∧ ctx'.lock = false ∧
      ctx'.vmSpec = ctx.vmSpec ∧
      ctx'.devices.volumeMap.get? info.Name = some
        (volumeInfo.mk (blockDescriptor.mk vol.info.name info.Filepath info.Format info.Fstype
          vol.info.deviceName vol.info.scsiId) vol.pos vol.readOnly) := by
  unfold QemuContext.volumeReady QemuContext.Lock
  simp only [hlock, Bool.false_eq_true, if_false, hvol]
  have hne : (info.Fstype != "dir") = true := by simpa using hblock
  simp only [hne, if_true]
  refine ⟨_, rfl, ?_, ?_, ?_⟩
  · simp [QemuContext.Unlock]
  · simp only [QemuContext.Unlock]
    rw [(finishVolume_frame _ _).2.1]
    rfl
  · simp only [QemuContext.Unlock]
    rw [(finishVolume_frame _ _).1]
    simp only [QemuContext.modAdding, QemuContext.modDevices]
    rw [GoMap.get?_set_self]

/-- `blockdevInserted` for a volume whose recorded mounts name existing containers. -/
theorem blockdevInserted_volume (ord : RangeOrder Int String) (hord : ord.Valid)
    (ctx : QemuContext) (info : BlockdevInsertedEvent) (vol : volumeInfo) (vm : VmPod)
    (hlock : ctx.lock = false) (htype : info.SourceType = "volume")
    (hvol : ctx.devices.volumeMap.get? info.Name = some vol) (hvm : ctx.vmSpec = some vm)
    (hwf : vol.pos.WF) (hidx : ∀ i ∈ vol.pos.keys, (getIdx vm.Containers i).isSome) :
    ∃ ctx' vm', ctx.blockdevInserted ord info = .ok ctx' ∧ ctx'.lock = false ∧
      ctx'.vmSpec = some vm' ∧
      ∀ i, getIdx vm'.Containers i = (getIdx vm.Containers i).map (fun c =>
        match vol.pos.get? i with
        | some path =>
          { c with Volumes := c.Volumes ++
              [VmVolumeDescriptor.mk info.DeviceName path vol.info.fstype
                ((vol.readOnly.get? i).getD false)] }
        | none => c) := by
  have hperm := hord vol.pos
  obtain ⟨hwf', hget'⟩ := GoMap.perm_get? (ord vol.pos) vol.pos hwf hperm
  have hidx' : ∀ e ∈ ord vol.pos, (getIdx vm.Containers e.1).isSome := by
    intro e he
    apply hidx
    exact List.mem_map.mpr ⟨e, hperm.mem_iff.mp he, rfl⟩
  obtain ⟨vol1, hvol1⟩ : ∃ v : volumeInfo, v =
      volumeInfo.mk (blockDescriptor.mk vol.info.name vol.info.filename vol.info.format
        vol.info.fstype info.DeviceName info.ScsiId) vol.pos vol.readOnly := ⟨_, rfl⟩
  obtain ⟨c1, vm1, hrun, hvm1, -, -, hl1, hcont⟩ :=
    forEach_appendVolume
      (fun e => VmVolumeDescriptor.mk info.DeviceName e.2 vol.info.fstype
        ((vol.readOnly.get? e.1).getD false))
      (ord vol.pos)
      ((({ ctx with lock := true } : QemuContext)).modDevices fun d =>
        { d with volumeMap := d.volumeMap.set info.Name vol1 })
      vm hvm hidx'
  have hrec : ({ ctx with lock := true } : QemuContext).recordBlockdev ord info = .ok c1 := by
    unfold QemuContext.recordBlockdev
    have h1 : (info.SourceType == "image") = false := by rw [htype]; decide
    have h2 : (info.SourceType == "volume") = true := by rw [htype]; decide
    simp only [h1, h2, Bool.false_eq_true, if_false, if_true, hvol]
    rw [hvol1] at hrun
    exact hrun
  refine ⟨(c1.finishBlockdev info.Name).Unlock, vm1, ?_, rfl, ?_, ?_⟩
  · unfold QemuContext.blockdevInserted QemuContext.Lock
    simp only [hlock, Bool.false_eq_true, if_false, hrec]
  · simp only [QemuContext.Unlock]
    rw [(finishBlockdev_frame _ _).2.1, hvm1]
  · intro i
    rw [hcont i, GoMap.filter_key_eq _ hwf' i, hget' i]
    cases getIdx vm.Containers i with
    | none => rfl
    | some c =>
      cases hp : vol.pos.get? i with
      | none => simp
      | some path => simp

/-- C6: after `InitDeviceContext`, `volumeReady` for a block-backed volume and one
`blockdevInserted` event with source type "volume" for it, every container that mounts
the volume has exactly one new entry at the end of its `Volumes`, with the event's
device name, the container's own mount path, the volume's fstype and the container's
own read-only flag; the other containers are unchanged. -/
theorem blockdevInserted_volume_mounts (ordV ordB : RangeOrder Int String) (hordB : ordB.Valid)
    (c0 c1 : QemuContext) (spec : UserPod) (networks : Int) (vol : volumeInfo)
    (ready : VolumeReadyEvent) (ins : BlockdevInsertedEvent)
    (hfresh : c0.devices.volumeMap = [])
    (hinit : c0.InitDeviceContext spec networks = .ok c1)
    (hvol : c1.devices.volumeMap.get? ready.Name = some vol)
    (hblock : ready.Fstype ≠ "dir")
    (hname : ins.Name = ready.Name) (htype : ins.SourceType = "volume") :
    ∃ c2 c3, c1.volumeReady ordV ready = .ok (c2, true) ∧
      c2.blockdevInserted ordB ins = .ok c3 ∧
      (∀ i ∈ vol.pos.keys, (c1.container? i).isSome) ∧
      ∀ i c, c1.container? i = some c →
        c3.container? i = some
          (match vol.pos.get? i with
           | some path =>
             { c with Volumes := c.Volumes ++
                [VmVolumeDescriptor.mk ins.DeviceName path ready.Fstype
                  ((vol.readOnly.get? i).getD false)] }
           | none => c) := by
  have post := InitDeviceContext_post c0 c1 spec networks hinit
  obtain ⟨vm, hvm, hlen, -⟩ := post.vmSpec
  have hmb : MountsBelow spec.Containers.length c1 := by
    apply post.mounts
    intro name v hget
    rw [hfresh] at hget
    simp [GoMap.get?] at hget
  obtain ⟨hwf, hkeys⟩ := hmb _ vol hvol
  have hidx : ∀ i ∈ vol.pos.keys, (getIdx vm.Containers i).isSome := by
    intro i hi
    rw [getIdx_isSome_iff, hlen]
    exact hkeys i hi
  obtain ⟨c2, hready, hl2, hvm2, hvol2⟩ :=
    volumeReady_block ordV c1 ready vol post.lock hvol hblock
  rw [← hname] at hvol2
  obtain ⟨c3, vm3, hins, -, hvm3, hcont⟩ :=
    blockdevInserted_volume ordB hordB c2 ins _ vm hl2 htype hvol2 (hvm2.trans hvm) hwf hidx
  refine ⟨c2, c3, hready, hins, ?_, ?_⟩
  · intro i hi
    simpa [QemuContext.container?, hvm] using hidx i hi
  · intro i c hc
    simp only [QemuContext.container?, hvm] at hc
    simp only [QemuContext.container?, hvm3, hcont i, hc, Option.map_some']

/-- Witness of C6 on scenario S2 (`v1` at `/data`, read-write in container 0 and
read-only in container 1), the mounts being ranged over in reverse order. -/
theorem blockdevInserted_volume_mounts_witness :
    ∃ c2 c3, s2Ctx.volumeReady id s2Ready = .ok (c2, true) ∧
      c2.blockdevInserted List.reverse s2Inserted = .ok c3 ∧
      (∀ i ∈ s2Volume.pos.keys, (s2Ctx.container? i).isSome) ∧
      ∀ i c, s2Ctx.container? i = some c →
        c3.container? i = some
          (match s2Volume.pos.get? i with
           | some path =>
             { c with Volumes := c.Volumes ++
                [VmVolumeDescriptor.mk s2Inserted.DeviceName path s2Ready.Fstype
                  ((s2Volume.readOnly.get? i).getD false)] }
           | none => c) :=
  blockdevInserted_volume_mounts id List.reverse (fun m => List.reverse_perm m) freshCtx s2Ctx
    s2Spec 0 s2Volume s2Ready s2Inserted rfl rfl rfl (by decide) rfl rfl

/-! ### The network batch -/

theorem appendRoutes_eq (infs : List VmNetworkInf) (i : Nat) (routes : List VmRoute)
    (table : List RouteRule) :
    QemuContext.appendRoutes infs i routes table =
      routes ++ table.map (fun rl =>
        VmRoute.mk rl.Destination rl.Gateway
          (if rl.ViaThis then (infs.getD i QemuContext.zeroInf).Device else "")) := by
  unfold QemuContext.appendRoutes
  induction table generalizing routes with
  | nil => simp
  | cons rl table ih =>
    rw [List.foldl_cons, ih]
    simp

/-- One turn of the loop of `netdevInserted` at an index whose slot is still zero. -/
theorem buildInterface_eq (nm : GoMap Int InterfaceCreated) (infs : List VmNetworkInf)
    (routes : List VmRoute) (k : Nat) (nw : InterfaceCreated)
    (hget : nm.get? (k : Int) = some nw) (hk : infs[k]? = some QemuContext.zeroInf) :
    ∃ infs', QemuContext.buildInterface nm (infs, routes) k =
        .ok (infs', routes ++ specRoutes nm k) ∧
      infs'.length = infs.length ∧ infs'[k]? = some (specInterface nw) ∧
      ∀ i, i ≠ k → infs'[i]? = infs[i]? := by
  unfold QemuContext.buildInterface
  simp only [hget]
  generalize hX : List.modify
    (fun inf : VmNetworkInf => { inf with NetMask := nw.NetMask }) k
      (List.modify (fun inf : VmNetworkInf => { inf with IpAddress := nw.IpAddr }) k
        (List.modify (fun inf : VmNetworkInf => { inf with Device := nw.DeviceName }) k
          infs)) = X
  have hat : X[k]? = some (specInterface nw) := by
    rw [← hX]
    simp [hk, specInterface, QemuContext.zeroInf]
  have hr : QemuContext.appendRoutes X k routes nw.RouteTable = routes ++ specRoutes nm k := by
    rw [appendRoutes_eq]
    simp only [List.append_cancel_left_eq, specRoutes, hget]
    apply List.map_congr_left
    intro rl _
    simp [specRoute, List.getD_eq_getElem?_getD, hat, specInterface]
  rw [hr]
  refine ⟨X, rfl, ?_, hat, ?_⟩
  · rw [← hX]
    simp
  · intro i hi
    have hi' : k ≠ i := fun h => hi h.symm
    rw [← hX]
    simp [List.getElem?_modify_ne _ _ hi']

/-- The loop of `netdevInserted` over the first `k` interface indices. -/
theorem buildNetwork_prefix (nm : GoMap Int InterfaceCreated) (hden : DenseNetworks nm)
    (k : Nat) (hk : k ≤ nm.len) :
    ∃ infs, forEach (QemuContext.buildInterface nm) (List.range k)
        (List.replicate nm.len QemuContext.zeroInf, []) =
          .ok (infs, (List.range k).flatMap (specRoutes nm)) ∧
      infs.length = nm.len ∧
      (∀ i, i < k → infs[i]? = (nm.get? (i : Int)).map specInterface) ∧
      (∀ i, k ≤ i → i < nm.len → infs[i]? = some QemuContext.zeroInf) := by
  induction k with
  | zero =>
    refine ⟨_, rfl, by simp, by simp, ?_⟩
    intro i _ hi
    simp [List.getElem?_replicate, hi]
  | succ k ih =>
    obtain ⟨infs, hrun, hlen, hlow, hhigh⟩ := ih (by omega)
    obtain ⟨nw, hnw⟩ := Option.isSome_iff_exists.mp (hden k (by omega))
    obtain ⟨infs', hstep, hlen', hat, hother⟩ :=
      buildInterface_eq nm infs ((List.range k).flatMap (specRoutes nm)) k nw hnw
        (hhigh k (le_refl _) (by omega))
    refine ⟨infs', ?_, hlen'.trans hlen, ?_, ?_⟩
    · rw [List.range_succ, forEach_append, hrun]
      simp only [forEach, hstep, List.flatMap_append, List.flatMap_singleton]
    · intro i hi
      by_cases hik : i = k
      · subst hik
        rw [hat, hnw]
        rfl
      · rw [hother i hik]
        exact hlow i (by omega)
    · intro i hi hin
      rw [hother i (by omega)]
      exact hhigh i (by omega) hin

/-- The tables `netdevInserted` builds from a dense network map: one interface entry
per index, and the routes of the interfaces concatenated in index order. -/
theorem buildNetwork_eq (nm : GoMap Int InterfaceCreated) (hden : DenseNetworks nm) :
    ∃ infs, QemuContext.buildNetwork nm =
        .ok (infs, (List.range nm.len).flatMap (specRoutes nm)) ∧
      infs.length = nm.len ∧
      ∀ i, i < nm.len → infs[i]? = (nm.get? (i : Int)).map specInterface := by
  obtain ⟨infs, hrun, hlen, hlow, -⟩ := buildNetwork_prefix nm hden nm.len (le_refl _)
  exact ⟨infs, hrun, hlen, hlow⟩

theorem finishNetwork_spec (ctx : QemuContext) (index : Int) :
    (ctx.finishNetwork index).devices = ctx.devices ∧
      (ctx.finishNetwork index).vmSpec = ctx.vmSpec ∧
      (ctx.finishNetwork index).lock = ctx.lock ∧
      (ctx.finishNetwork index).progress.adding.networks =
        ctx.progress.adding.networks.delete index := by
  unfold QemuContext.finishNetwork
  simp only
  split
  · exact ⟨rfl, rfl, rfl, rfl⟩
  · rename_i h
    refine ⟨rfl, rfl, rfl, ?_⟩
    have := GoMap.condDelete_eq ctx.progress.adding.networks index
    simp only [QemuContext.modFinished] at h
    rw [if_neg h] at this
    exact this

/-- A `netdevInserted` call that leaves a network pending changes nothing in the pod. -/
theorem netdevInserted_pending (ctx : QemuContext) (info : NetDevInsertedEvent)
    (hlock : ctx.lock = false)
    (hpending : ctx.progress.adding.networks.delete info.Index ≠ []) :
    ∃ ctx', ctx.netdevInserted info = .ok ctx' ∧ ctx'.lock = false ∧
      ctx'.devices = ctx.devices ∧ ctx'.vmSpec = ctx.vmSpec ∧
      ctx'.progress.adding.networks = ctx.progress.adding.networks.delete info.Index := by
  obtain ⟨hd, hv, hl, ha⟩ := finishNetwork_spec ({ ctx with lock := true } : QemuContext)
    info.Index
  unfold QemuContext.netdevInserted QemuContext.Lock
  simp only [hlock, Bool.false_eq_true, if_false]
  have hg : ¬ ((QemuContext.finishNetwork ({ ctx with lock := true } : QemuContext)
      info.Index).progress.adding.networks.len == 0) = true := by
    rw [ha]
    simpa [GoMap.len_eq_zero_iff] using hpending
  rw [if_neg hg]
  exact ⟨_, rfl, rfl, hd, hv, ha⟩

/-- A `netdevInserted` call that leaves no network pending stores the tables built from
the network map, whatever the pod held before. -/
theorem netdevInserted_builds (ctx : QemuContext) (info : NetDevInsertedEvent) (vm : VmPod)
    (hlock : ctx.lock = false) (hvm : ctx.vmSpec = some vm)
    (hden : DenseNetworks ctx.devices.networkMap)
    (hlast : ctx.progress.adding.networks.delete info.Index = []) :
    ∃ ctx' infs, ctx.netdevInserted info = .ok ctx' ∧ ctx'.lock = false ∧
      ctx'.devices = ctx.devices ∧
      ctx'.progress.adding.networks = [] ∧
      infs.length = ctx.devices.networkMap.len ∧
      (∀ i, i < ctx.devices.networkMap.len →
        infs[i]? = (ctx.devices.networkMap.get? (i : Int)).map specInterface) ∧
      ctx'.vmSpec = some (VmPod.mk vm.Hostname vm.Containers (some infs)
        (some ((List.range ctx.devices.networkMap.len).flatMap
          (specRoutes ctx.devices.networkMap))) vm.Socket vm.ShareDir) := by
  obtain ⟨hd, hv, hl, ha⟩ := finishNetwork_spec ({ ctx with lock := true } : QemuContext)
    info.Index
  obtain ⟨infs, hb, hlen, hget⟩ := buildNetwork_eq ctx.devices.networkMap hden
  unfold QemuContext.netdevInserted QemuContext.Lock
  simp only [hlock, Bool.false_eq_true, if_false]
  have hg : ((QemuContext.finishNetwork ({ ctx with lock := true } : QemuContext)
      info.Index).progress.adding.networks.len == 0) = true := by
    rw [ha]
    simpa [GoMap.len_eq_zero_iff] using hlast
  have hd' : (QemuContext.finishNetwork ({ ctx with lock := true } : QemuContext)
      info.Index).devices.networkMap = ctx.devices.networkMap := by rw [hd]
  have hv' : (QemuContext.finishNetwork ({ ctx with lock := true } : QemuContext)
      info.Index).vmSpec = some vm := by rw [hv]; exact hvm
  rw [if_pos hg, hd', hb]
  simp only [hv']
  refine ⟨_, infs, rfl, rfl, hd, ?_, hlen, hget, rfl⟩
  simp only [QemuContext.Unlock]
  rw [ha]
  exact hlast

/-- C8: when `netdevInserted` builds the route table, `vmSpec.Routes` is the
concatenation, in interface index order, of the routes of each interface in their
original order; a route keeps its destination and gateway, its device is the device name
of its interface when `ViaThis` is set and empty otherwise. -/
theorem netdevInserted_routes (ctx : QemuContext) (info : NetDevInsertedEvent) (vm : VmPod)
    (hlock : ctx.lock = false) (hvm : ctx.vmSpec = some vm)
    (hden : DenseNetworks ctx.devices.networkMap)
    (hlast : ∀ k ∈ ctx.progress.adding.networks.keys, k = info.Index) :
    ∃ ctx' vm', ctx.netdevInserted info = .ok ctx' ∧ ctx'.vmSpec = some vm' ∧
      vm'.Routes = some ((List.range ctx.devices.networkMap.len).flatMap fun i =>
        match ctx.devices.networkMap.get? (i : Int) with
        | some nw => nw.RouteTable.map fun rl =>
            VmRoute.mk rl.Destination rl.Gateway (if rl.ViaThis then nw.DeviceName else "")
        | none => []) := by
  have hnil : ctx.progress.adding.networks.delete info.Index = [] := by
    rw [GoMap.eq_nil_iff_keys]
    intro k hk
    rw [GoMap.mem_keys_delete] at hk
    exact hk.2 (hlast k hk.1)
  obtain ⟨ctx', infs, hrun, -, -, -, -, -, hvm'⟩ :=
    netdevInserted_builds ctx info vm hlock hvm hden hnil
  refine ⟨ctx', _, hrun, hvm', ?_⟩
  simp only [Option.some.injEq]
  apply List.flatMap_congr
  intro i _
  simp only [specRoutes]
  cases ctx.devices.networkMap.get? (i : Int) with
  | none => rfl
  | some nw => rfl

/-- Witness of C8 on scenario S3: network 1 is confirmed first, the call for network 0
builds the table with the route of `eth0` before the routes of `eth1`. -/
theorem netdevInserted_routes_witness :
    ∃ ctx' vm', s3Pending.netdevInserted { Index := 0 } = .ok ctx' ∧ ctx'.vmSpec = some vm' ∧
      vm'.Routes = some ((List.range s3Pending.devices.networkMap.len).flatMap fun i =>
        match s3Pending.devices.networkMap.get? (i : Int) with
        | some nw => nw.RouteTable.map fun rl =>
            VmRoute.mk rl.Destination rl.Gateway (if rl.ViaThis then nw.DeviceName else "")
        | none => []) :=
  netdevInserted_routes s3Pending { Index := 0 } s3Pod rfl rfl (by decide) (by decide)

/-- A sequence of `interfaceCreated` calls on an unlocked context stores each event
under its index and changes nothing else that the network batch reads. -/
theorem interfaceCreated_run (ifs : List InterfaceCreated) (ctx : QemuContext)
    (hlock : ctx.lock = false) :
    ∃ ctx', forEach QemuContext.interfaceCreated ifs ctx = .ok ctx' ∧ ctx'.lock = false ∧
      ctx'.vmSpec = ctx.vmSpec ∧ ctx'.progress = ctx.progress ∧
      ctx'.devices.networkMap =
        ifs.foldl (fun m e => GoMap.set m e.Index e) ctx.devices.networkMap := by
  induction ifs generalizing ctx with
  | nil => exact ⟨ctx, rfl, hlock, rfl, rfl, rfl⟩
  | cons e ifs ih =>
    have hstep : ctx.interfaceCreated e = .ok
        (({ ctx with lock := true } : QemuContext).modDevices fun d =>
          { d with networkMap := d.networkMap.set e.Index e }).Unlock := by
      simp [QemuContext.interfaceCreated, QemuContext.Lock, hlock]
    obtain ⟨ctx', hrun, hl, hv, hp, hn⟩ := ih _ (rfl :
      ((({ ctx with lock := true } : QemuContext).modDevices fun d =>
          { d with networkMap := d.networkMap.set e.Index e }).Unlock).lock = false)
    exact ⟨ctx', by simp only [forEach, hstep, hrun], hl, hv, hp, hn⟩

theorem foldl_set_get?_of_not_mem (ifs : List InterfaceCreated)
    (m : GoMap Int InterfaceCreated) (k : Int) (hk : k ∉ ifs.map (fun e => e.Index)) :
    (ifs.foldl (fun m e => GoMap.set m e.Index e) m).get? k = m.get? k := by
  induction ifs generalizing m with
  | nil => rfl
  | cons e ifs ih =>
    simp only [List.map_cons, List.mem_cons, not_or] at hk
    rw [List.foldl_cons, ih _ hk.2, GoMap.get?_set_of_ne _ _ _ _ hk.1]

theorem foldl_set_get?_of_mem (ifs : List InterfaceCreated)
    (hnd : (ifs.map (fun e => e.Index)).Nodup) (m : GoMap Int InterfaceCreated)
    (e : InterfaceCreated) (he : e ∈ ifs) :
    (ifs.foldl (fun m e => GoMap.set m e.Index e) m).get? e.Index = some e := by
  induction ifs generalizing m with
  | nil => cases he
  | cons a ifs ih =>
    simp only [List.map_cons, List.nodup_cons] at hnd
    rw [List.foldl_cons]
    rcases List.mem_cons.mp he with rfl | he
    · rw [foldl_set_get?_of_not_mem _ _ _ hnd.1, GoMap.get?_set_self]
    · exact ih hnd.2 _ he

theorem foldl_set_keys (ifs : List InterfaceCreated) (m : GoMap Int InterfaceCreated)
    (hm : m.WF) :
    (ifs.foldl (fun m e => GoMap.set m e.Index e) m).WF ∧
      ∀ k, k ∈ (ifs.foldl (fun m e => GoMap.set m e.Index e) m).keys ↔
        k ∈ ifs.map (fun e => e.Index) ∨ k ∈ m.keys := by
  induction ifs generalizing m with
  | nil => exact ⟨hm, by simp⟩
  | cons a ifs ih =>
    obtain ⟨hwf, hk⟩ := ih (GoMap.set m a.Index a) (GoMap.WF_set _ _ _ hm)
    refine ⟨hwf, fun k => ?_⟩
    rw [List.foldl_cons, hk, GoMap.mem_keys_set]
    simp only [List.map_cons, List.mem_cons]
    tauto

/-- The network map after interfaces with the indices 0..N-1 are created on an empty
map: it has size N, is dense, and holds each event under its index. -/
theorem foldl_set_dense (ifs : List InterfaceCreated) (N : Nat)
    (hperm : (ifs.map (fun e => e.Index)).Perm ((List.range N).map Int.ofNat)) :
    (ifs.foldl (fun m e => GoMap.set m e.Index e) []).len = N ∧
      DenseNetworks (ifs.foldl (fun m e => GoMap.set m e.Index e) []) ∧
      ∀ e ∈ ifs, (ifs.foldl (fun m e => GoMap.set m e.Index e) []).get? e.Index = some e := by
  have hndr : ((List.range N).map Int.ofNat).Nodup :=
    (List.nodup_range N).map Int.ofNat_injective
  have hnd : (ifs.map (fun e => e.Index)).Nodup := hperm.nodup_iff.mpr hndr
  obtain ⟨hwf, hkeys⟩ := foldl_set_keys ifs [] (by simp [GoMap.WF, GoMap.keys])
  have hlen : (ifs.foldl (fun m e => GoMap.set m e.Index e) []).len = N := by
    have hp : (GoMap.keys (ifs.foldl (fun m e => GoMap.set m e.Index e) [])).Perm
        ((List.range N).map Int.ofNat) := by
      rw [List.perm_ext_iff_of_nodup hwf hndr]
      intro k
      rw [hkeys, ← hperm.mem_iff]
      simp [GoMap.keys]
    have := hp.length_eq
    simpa [GoMap.keys, GoMap.len] using this
  refine ⟨hlen, ?_, fun e he => foldl_set_get?_of_mem ifs hnd [] e he⟩
  intro i hi
  rw [hlen] at hi
  have hmem : (i : Int) ∈ ifs.map (fun e => e.Index) := by
    rw [hperm.mem_iff]
    exact List.mem_map.mpr ⟨i, List.mem_range.mpr hi, rfl⟩
  obtain ⟨e, he, hei⟩ := List.mem_map.mp hmem
  rw [← hei, foldl_set_get?_of_mem ifs hnd [] e he]
  rfl

/-- A sequence of `netdevInserted` calls on an unlocked context with a pod and a dense
network map: every call returns; the pod keeps its interface list and route table as
long as a network is pending, and holds the tables built from the network map after any
call that leaves no network pending. -/
theorem netdevInserted_run (evs : List NetDevInsertedEvent) (ctx : QemuContext) (vm : VmPod)
    (hlock : ctx.lock = false) (hvm : ctx.vmSpec = some vm)
    (hden : DenseNetworks ctx.devices.networkMap) :
    ∃ ctx' vm' infs, forEach QemuContext.netdevInserted evs ctx = .ok ctx' ∧
      ctx'.lock = false ∧ ctx'.devices = ctx.devices ∧ ctx'.vmSpec = some vm' ∧
      vm'.Containers = vm.Containers ∧
      infs.length = ctx.devices.networkMap.len ∧
      (∀ i, i < ctx.devices.networkMap.len →
        infs[i]? = (ctx.devices.networkMap.get? (i : Int)).map specInterface) ∧
      (∀ k, k ∈ ctx'.progress.adding.networks.keys ↔
        k ∈ ctx.progress.adding.networks.keys ∧ k ∉ evs.map (fun e => e.Index)) ∧
      (ctx'.progress.adding.networks ≠ [] →
        vm'.Interfaces = vm.Interfaces ∧ vm'.Routes = vm.Routes) ∧
      (evs ≠ [] → ctx'.progress.adding.networks = [] →
        vm'.Interfaces = some infs ∧
        vm'.Routes = some ((List.range ctx.devices.networkMap.len).flatMap
          (specRoutes ctx.devices.networkMap))) := by
  obtain ⟨infs, -, hlen, hget⟩ := buildNetwork_eq ctx.devices.networkMap hden
  induction evs using List.reverseRecOn with
  | nil =>
    exact ⟨ctx, vm, infs, rfl, hlock, rfl, hvm, rfl, hlen, hget, by simp,
      fun _ => ⟨rfl, rfl⟩, fun h => absurd rfl h⟩
  | append_singleton evs e ih =>
    obtain ⟨c1, vm1, infs1, hrun, hl1, hd1, hvm1, hc1, hlen1, hget1, hk1, hp1, -⟩ := ih
    have hinfs : infs1 = infs := by
      apply List.ext_getElem?
      intro i
      by_cases hi : i < ctx.devices.networkMap.len
      · rw [hget1 i hi, hget i hi]
      · rw [List.getElem?_eq_none (by omega), List.getElem?_eq_none (by omega)]
    subst hinfs
    have hkeys : ∀ k, k ∈ (c1.progress.adding.networks.delete e.Index).keys ↔
        k ∈ ctx.progress.adding.networks.keys ∧
          k ∉ (evs ++ [e]).map (fun e => e.Index) := by
      intro k
      rw [GoMap.mem_keys_delete, hk1]
      simp only [List.map_append, List.map_cons, List.map_nil, List.mem_append,
        List.mem_singleton, not_or]
      tauto
    by_cases hlast : c1.progress.adding.networks.delete e.Index = []
    · have hden1 : DenseNetworks c1.devices.networkMap := by rw [hd1]; exact hden
      obtain ⟨c2, infs2, hstep, hl2, hd2, ha2, hlen2, hget2, hvm2⟩ :=
        netdevInserted_builds c1 e vm1 hl1 hvm1 hden1 hlast
      rw [hd1] at hlen2 hget2 hvm2
      have hinfs2 : infs2 = infs1 := by
        apply List.ext_getElem?
        intro i
        by_cases hi : i < ctx.devices.networkMap.len
        · rw [hget2 i hi, hget i hi]
        · rw [List.getElem?_eq_none (by omega), List.getElem?_eq_none (by omega)]
      subst hinfs2
      refine ⟨c2, _, infs2, ?_, hl2, hd2.trans hd1, hvm2, hc1, hlen, hget, ?_, ?_, ?_⟩
      · rw [forEach_append, hrun]
        simp only [forEach, hstep]
      · intro k
        rw [ha2, ← hlast]
        exact hkeys k
      · intro hne
        exact absurd ha2 hne
      · intro _ _
        exact ⟨rfl, rfl⟩
    · obtain ⟨c2, hstep, hl2, hd2, hvm2, ha2⟩ := netdevInserted_pending c1 e hl1 hlast
      have hne1 : c1.progress.adding.networks ≠ [] := by
        intro h
        apply hlast
        rw [h]
        rfl
      refine ⟨c2, vm1, infs1, ?_, hl2, hd2.trans hd1, hvm2.trans hvm1, hc1, hlen, hget,
        ?_, ?_, ?_⟩
      · rw [forEach_append, hrun]
        simp only [forEach, hstep]
      · intro k
        rw [ha2]
        exact hkeys k
      · intro _
        exact hp1 hne1
      · intro _ hnil
        rw [ha2] at hnil
        exact absurd hnil hlast

/-- C7: after `InitDeviceContext` with N networks on a context without interfaces,
`interfaceCreated` for every index 0..N-1 and then `netdevInserted` for every index
0..N-1 in any order, all calls return and `vmSpec.Interfaces` has length N and holds at
every index the device name, IP address and netmask of the interface created with that
index. -/
theorem netdevInserted_interfaces (c0 c1 : QemuContext) (spec : UserPod) (N : Nat)
    (ifs : List InterfaceCreated) (evs : List NetDevInsertedEvent)
    (hnet : c0.devices.networkMap = []) (hadd : c0.progress.adding.networks = [])
    (hinit : c0.InitDeviceContext spec (N : Int) = .ok c1) (hpos : 0 < N)
    (hifs : (ifs.map (fun e => e.Index)).Perm ((List.range N).map Int.ofNat))
    (hevs : (evs.map (fun e => e.Index)).Perm ((List.range N).map Int.ofNat)) :
    ∃ c2 c3 vm infs, forEach QemuContext.interfaceCreated ifs c1 = .ok c2 ∧
      forEach QemuContext.netdevInserted evs c2 = .ok c3 ∧
      c3.vmSpec = some vm ∧ vm.Interfaces = some infs ∧ infs.length = N ∧
      ∀ e ∈ ifs, getIdx infs e.Index =
        some (VmNetworkInf.mk e.DeviceName e.IpAddr e.NetMask) := by
  have post := InitDeviceContext_post c0 c1 spec N hinit
  obtain ⟨vm1, hvm1, -, -, -, -⟩ := post.vmSpec
  obtain ⟨c2, hrun2, hl2, hv2, hp2, hn2⟩ := interfaceCreated_run ifs c1 post.lock
  rw [post.networkMap, hnet] at hn2
  obtain ⟨hlen, hden, hget⟩ := foldl_set_dense ifs N hifs
  rw [← hn2] at hlen hden hget
  obtain ⟨c3, vm3, infs, hrun3, -, -, hvm3, -, hilen, higet, hkeys, -, hbuilt⟩ :=
    netdevInserted_run evs c2 vm1 hl2 (hv2.trans hvm1) hden
  have hne : evs ≠ [] := by
    intro h
    have := hevs.length_eq
    rw [h] at this
    simp at this
    omega
  have hnil : c3.progress.adding.networks = [] := by
    rw [GoMap.eq_nil_iff_keys]
    intro k hk
    rw [hkeys, hp2, post.addingNetworks, hadd] at hk
    obtain ⟨hk1, hk2⟩ := hk
    apply hk2
    rw [hevs.mem_iff]
    rcases hk1 with h | ⟨h0, hN⟩
    · simp [GoMap.keys] at h
    · exact List.mem_map.mpr ⟨k.toNat, List.mem_range.mpr (by omega), by simp; omega⟩
  obtain ⟨hI, -⟩ := hbuilt hne hnil
  refine ⟨c2, c3, vm3, infs, hrun2, hrun3, hvm3, hI, hilen.trans hlen, ?_⟩
  intro e he
  have hmem : e.Index ∈ (List.range N).map Int.ofNat :=
    hifs.mem_iff.mp (List.mem_map.mpr ⟨e, he, rfl⟩)
  obtain ⟨i, hi, hie⟩ := List.mem_map.mp hmem
  rw [List.mem_range] at hi
  have hie' : e.Index = (i : Int) := hie.symm
  rw [getIdx_eq_some_iff]
  refine ⟨by omega, ?_⟩
  have hi2 : (e.Index).toNat = i := by omega
  rw [hi2, higet i (by omega), ← hie', hget e he]
  rfl

/-- Witness of C7 on scenario S3: interface 1 is created and confirmed before
interface 0. -/
theorem netdevInserted_interfaces_witness :
    ∃ c2 c3 vm infs, forEach QemuContext.interfaceCreated [s3Eth1, s3Eth0] s3Init = .ok c2 ∧
      forEach QemuContext.netdevInserted [{ Index := 1 }, { Index := 0 }] c2 = .ok c3 ∧
      c3.vmSpec = some vm ∧ vm.Interfaces = some infs ∧ infs.length = 2 ∧
      ∀ e ∈ [s3Eth1, s3Eth0], getIdx infs e.Index =
        some (VmNetworkInf.mk e.DeviceName e.IpAddr e.NetMask) :=
  netdevInserted_interfaces freshCtx s3Init emptySpec 2 [s3Eth1, s3Eth0]
    [{ Index := 1 }, { Index := 0 }] rfl rfl rfl (by decide) (by decide) (by decide)

/-- C9, as stated, fails: after `InitDeviceContext` with no network, `adding.networks`
is empty from the start, no call empties it, and yet the first `netdevInserted` event
assigns the interface list and the route table (nil becomes the empty slice); and once
the batch of one network is complete, a later `netdevInserted` event assigns both again,
which shows when the network map has changed in between. -/
theorem netdevInserted_assigns_again :
    (freshCtx.InitDeviceContext emptySpec 0 = .ok noNetInit ∧
      noNetInit.progress.adding.networks = [] ∧
      networkTables noNetInit = some (none, none) ∧
      (noNetInit.netdevInserted { Index := 0 }).map networkTables =
        .ok (some (some [], some []))) ∧
    (networkTables oneNetDone =
        some (some [{ Device := "eth0", IpAddress := "192.168.123.2",
                      NetMask := "255.255.255.0" }],
              some [{ Dest := "0.0.0.0/0", Gateway := "192.168.123.1", Device := "eth0" }]) ∧
      oneNetDone.progress.adding.networks = [] ∧
      (forEach QemuContext.netdevInserted [{ Index := 0 }]
          (orElse (oneNetDone.interfaceCreated s3Eth9) oneNetDone)).map networkTables =
        .ok (some (some [{ Device := "eth9", IpAddress := "192.168.9.2",
                           NetMask := "255.255.255.0" }], some []))) :=
  ⟨⟨rfl, rfl, rfl, rfl⟩, rfl, rfl, rfl⟩

/-- C9 (amended): after `InitDeviceContext` and any `interfaceCreated` events that
leave the network map dense, every sequence of `netdevInserted` events returns;
`vmSpec.Interfaces` and `vmSpec.Routes` are nil as long as `adding.networks` is
non-empty, and after any `netdevInserted` call that leaves `adding.networks` empty they
hold the interface list and the route table built from the network map. -/
theorem netdevInserted_batch (c0 c1 : QemuContext) (spec : UserPod) (networks : Int)
    (ifs : List InterfaceCreated) (evs : List NetDevInsertedEvent)
    (hinit : c0.InitDeviceContext spec networks = .ok c1) :
    ∃ c2, forEach QemuContext.interfaceCreated ifs c1 = .ok c2 ∧
      (DenseNetworks c2.devices.networkMap →
        ∃ c3 vm infs, forEach QemuContext.netdevInserted evs c2 = .ok c3 ∧
          c3.vmSpec = some vm ∧
          infs.length = c2.devices.networkMap.len ∧
          (∀ i, i < c2.devices.networkMap.len →
            infs[i]? = (c2.devices.networkMap.get? (i : Int)).map specInterface) ∧
          (c3.progress.adding.networks ≠ [] → vm.Interfaces = none ∧ vm.Routes = none) ∧
          (evs ≠ [] → c3.progress.adding.networks = [] →
            vm.Interfaces = some infs ∧
            vm.Routes = some ((List.range c2.devices.networkMap.len).flatMap
              (specRoutes c2.devices.networkMap)))) := by
  have post := InitDeviceContext_post c0 c1 spec networks hinit
  obtain ⟨vm1, hvm1, -, hI1, hR1, -⟩ := post.vmSpec
  obtain ⟨c2, hrun2, hl2, hv2, -, -⟩ := interfaceCreated_run ifs c1 post.lock
  refine ⟨c2, hrun2, fun hden => ?_⟩
  obtain ⟨c3, vm3, infs, hrun3, -, -, hvm3, -, hilen, higet, -, hpend, hbuilt⟩ :=
    netdevInserted_run evs c2 vm1 hl2 (hv2.trans hvm1) hden
  refine ⟨c3, vm3, infs, hrun3, hvm3, hilen, higet, ?_, hbuilt⟩
  intro hne
  obtain ⟨h1, h2⟩ := hpend hne
  exact ⟨h1.trans hI1, h2.trans hR1⟩

/-- Witness of the amended C9 on scenario S3, with a duplicate of the last event. -/
theorem netdevInserted_batch_witness :
    ∃ c2, forEach QemuContext.interfaceCreated [s3Eth1, s3Eth0] s3Init = .ok c2 ∧
      (DenseNetworks c2.devices.networkMap →
        ∃ c3 vm infs, forEach QemuContext.netdevInserted
            [{ Index := 1 }, { Index := 0 }, { Index := 0 }] c2 = .ok c3 ∧
          c3.vmSpec = some vm ∧
          infs.length = c2.devices.networkMap.len ∧
          (∀ i, i < c2.devices.networkMap.len →
            infs[i]? = (c2.devices.networkMap.get? (i : Int)).map specInterface) ∧
          (c3.progress.adding.networks ≠ [] → vm.Interfaces = none ∧ vm.Routes = none) ∧
          (([{ Index := 1 }, { Index := 0 }, { Index := 0 }] : List NetDevInsertedEvent) ≠ [] →
            c3.progress.adding.networks = [] →
            vm.Interfaces = some infs ∧
            vm.Routes = some ((List.range c2.devices.networkMap.len).flatMap
              (specRoutes c2.devices.networkMap)))) :=
  netdevInserted_batch freshCtx s3Init emptySpec 2 [s3Eth1, s3Eth0]
    [{ Index := 1 }, { Index := 0 }, { Index := 0 }] rfl

/-- C10 (amended): on a freshly initialised context, for a pod without tty (or without
containers) whose mounts name declared volumes with a registry entry,
`InitDeviceContext(spec, n)` returns, and afterwards `adding.containers` is the set of
the container indices, `adding.volumes` the set of the declared volume names,
`adding.networks` is 0..n-1, `adding.blockdevs` holds exactly the names of the volumes
with a non-empty source and driver raw or qcow2, and `deleting` and `finished` are
empty. -/
theorem InitDeviceContext_adding (PciAddrFrom : Int) (BaseDir id : String) (cpu memory : Int)
    (kernel initrd : String) (spec : UserPod) (networks : Int)
    (htty : spec.Tty = false ∨ spec.Containers = [])
    (hm : MountsDeclared (initContext PciAddrFrom BaseDir id cpu memory kernel initrd) spec) :
    ∃ c1, (initContext PciAddrFrom BaseDir id cpu memory kernel initrd).InitDeviceContext
        spec networks = .ok c1 ∧
      (∀ k, k ∈ c1.progress.adding.containers.keys ↔
        0 ≤ k ∧ k < (spec.Containers.length : Int)) ∧
      (∀ k, k ∈ c1.progress.adding.volumes.keys ↔ ∃ vol ∈ spec.Volumes, k = vol.Name) ∧
      (∀ k, k ∈ c1.progress.adding.networks.keys ↔ 0 ≤ k ∧ k < networks) ∧
      (∀ k, k ∈ c1.progress.adding.blockdevs.keys ↔
        ∃ vol ∈ spec.Volumes, k = vol.Name ∧ vol.Source ≠ "" ∧
          (vol.Driver = "raw" ∨ vol.Driver = "qcow2")) ∧
      c1.progress.deleting = newProcessingMap ∧ c1.progress.finished = newProcessingMap := by
  obtain ⟨c1, hrun⟩ := InitDeviceContext_returns _ spec networks rfl htty hm
  have post := InitDeviceContext_post _ c1 spec networks hrun
  refine ⟨c1, hrun, ?_, ?_, ?_, ?_, post.deleting, post.finished⟩
  · intro k
    rw [post.addingContainers]
    simp [initContext, newProcessingList, newProcessingMap, GoMap.keys]
  · intro k
    rw [post.addingVolumes]
    simp [initContext, newProcessingList, newProcessingMap, GoMap.keys]
  · intro k
    rw [post.addingNetworks]
    simp [initContext, newProcessingList, newProcessingMap, GoMap.keys]
  · intro k
    rw [post.addingBlockdevs]
    simp [initContext, newProcessingList, newProcessingMap, GoMap.keys, UserVolume.isBlockdev]

/-- Witness of the amended C10 on scenario S2 with two networks. -/
theorem InitDeviceContext_adding_witness :
    ∃ c1, (initContext 5 "/var/run/dvm" "vm-abcdefghij" 1 512 "kernel"
        "initrd.img").InitDeviceContext s2Spec 2 = .ok c1 ∧
      (∀ k, k ∈ c1.progress.adding.containers.keys ↔
        0 ≤ k ∧ k < (s2Spec.Containers.length : Int)) ∧
      (∀ k, k ∈ c1.progress.adding.volumes.keys ↔ ∃ vol ∈ s2Spec.Volumes, k = vol.Name) ∧
      (∀ k, k ∈ c1.progress.adding.networks.keys ↔ 0 ≤ k ∧ k < (2 : Int)) ∧
      (∀ k, k ∈ c1.progress.adding.blockdevs.keys ↔
        ∃ vol ∈ s2Spec.Volumes, k = vol.Name ∧ vol.Source ≠ "" ∧
          (vol.Driver = "raw" ∨ vol.Driver = "qcow2")) ∧
      c1.progress.deleting = newProcessingMap ∧ c1.progress.finished = newProcessingMap :=
  InitDeviceContext_adding 5 "/var/run/dvm" "vm-abcdefghij" 1 512 "kernel" "initrd.img"
    s2Spec 2 (Or.inl rfl) (by
      intro c hc v hv
      left
      simp only [s2Spec, List.mem_cons, List.mem_singleton, List.not_mem_nil, or_false] at hc
      rcases hc with rfl | rfl <;>
        · simp only [List.mem_singleton] at hv
          subst hv
          exact ⟨_, List.mem_singleton.mpr rfl, rfl, Or.inr (Or.inl rfl)⟩)

/-! ### The registry entries and the container records after `InitDeviceContext` -/

theorem classifyVolume_unmounted (ctx : QemuContext) (vol : UserVolume)
    (h : VolumesUnmounted ctx) : VolumesUnmounted (ctx.classifyVolume vol) := by
  have key : ∀ (a b c d : String), VolumesUnmounted (ctx.modDevices fun dm =>
      { dm with volumeMap := dm.volumeMap.set vol.Name (QemuContext.newVolumeInfo a b c d) }) := by
    intro a b c d
    refine ⟨GoMap.WF_set _ _ _ h.1, ?_⟩
    intro V v hget
    simp only [QemuContext.modDevices] at hget
    by_cases hn : V = vol.Name
    · subst hn
      rw [GoMap.get?_set_self] at hget
      cases hget
      exact ⟨rfl, rfl⟩
    · rw [GoMap.get?_set_of_ne _ _ _ _ hn] at hget
      exact h.2 V v hget
  unfold QemuContext.classifyVolume
  by_cases h1 : vol.Source = ""
  · simp only [h1, beq_self_eq_true, if_true]
    exact key _ _ _ _
  · have h1' : (vol.Source == "") = false := by simpa using h1
    by_cases h2 : (vol.Driver == "raw" || vol.Driver == "qcow2") = true
    · simp only [h1', h2, if_true, Bool.false_eq_true, if_false]
      exact key _ _ _ _
    · by_cases h3 : (vol.Driver == "vfs") = true
      · simp only [h1', h2, h3, if_true, Bool.false_eq_true, if_false]
        exact key _ _ _ _
      · simp only [h1', h2, h3, Bool.false_eq_true, if_false]
        exact h

theorem classifyVolumes_unmounted (vols : List UserVolume) (ctx : QemuContext)
    (h : VolumesUnmounted ctx) : VolumesUnmounted (vols.foldl QemuContext.classifyVolume ctx) := by
  induction vols generalizing ctx with
  | nil => exact h
  | cons vol vols ih => exact ih _ (classifyVolume_unmounted ctx vol h)

/-- What one recorded mount does to every registry entry. -/
theorem recordMount_detail (i : Int) (ctx ctx' : QemuContext) (v : UserVolumeReference)
    (h : QemuContext.recordMount i ctx v = .ok ctx') :
    (∀ V, ctx'.devices.volumeMap.get? V =
        (ctx.devices.volumeMap.get? V).map (fun vol => recordedMount V i vol v)) ∧
      (ctx.devices.volumeMap.WF → ctx'.devices.volumeMap.WF) := by
  unfold QemuContext.recordMount at h
  cases hv : ctx.devices.volumeMap.get? v.Volume with
  | none => simp [hv] at h
  | some vol =>
    simp only [hv, Except.ok.injEq] at h
    subst h
    refine ⟨fun V => ?_, fun hwf => GoMap.WF_set _ _ _ hwf⟩
    simp only [QemuContext.modDevices]
    by_cases hV : V = v.Volume
    · subst hV
      rw [GoMap.get?_set_self, hv]
      simp [recordedMount]
    · rw [GoMap.get?_set_of_ne _ _ _ _ hV]
      have hV' : ¬ v.Volume = V := fun e => hV e.symm
      cases ctx.devices.volumeMap.get? V <;> simp [recordedMount, hV']

/-- What the mount loop of one container does to every registry entry. -/
theorem recordMounts_detail (i : Int) (vs : List UserVolumeReference) (ctx ctx' : QemuContext)
    (h : forEach (QemuContext.recordMount i) vs ctx = .ok ctx') :
    (∀ V, ctx'.devices.volumeMap.get? V =
        (ctx.devices.volumeMap.get? V).map (fun vol => vs.foldl (recordedMount V i) vol)) ∧
      (ctx.devices.volumeMap.WF → ctx'.devices.volumeMap.WF) := by
  induction vs generalizing ctx with
  | nil =>
    simp only [forEach, Except.ok.injEq] at h
    subst h
    exact ⟨fun V => by cases ctx.devices.volumeMap.get? V <;> simp, fun hwf => hwf⟩
  | cons v vs ih =>
    simp only [forEach] at h
    cases hb : QemuContext.recordMount i ctx v with
    | error e => simp [hb] at h
    | ok c1 =>
      simp only [hb] at h
      obtain ⟨h1, w1⟩ := recordMount_detail i ctx c1 v hb
      obtain ⟨h2, w2⟩ := ih c1 h
      refine ⟨fun V => ?_, fun hwf => w2 (w1 hwf)⟩
      rw [h2 V, h1 V]
      cases ctx.devices.volumeMap.get? V <;> simp

/-- What one turn of the container loop does to the registry entries and to the slice
of container records. -/
theorem initContainer_detail (spec : UserPod) (ctx ctx' : QemuContext)
    (cs cs' : List VmContainer) (e : Nat × UserContainer) (hlock : ctx.lock = true)
    (h : QemuContext.initContainer spec (ctx, cs) e = .ok (ctx', cs')) :
    cs' = setIdx cs (e.1 : Int) (initialContainer e.2) ∧
      (∀ V, ctx'.devices.volumeMap.get? V = (ctx.devices.volumeMap.get? V).map
        (fun vol => e.2.Volumes.foldl (recordedMount V (e.1 : Int)) vol)) ∧
      (ctx.devices.volumeMap.WF → ctx'.devices.volumeMap.WF) := by
  unfold QemuContext.initContainer at h
  simp only at h
  cases hm : forEach (QemuContext.recordMount (e.1 : Int)) e.2.Volumes ctx with
  | error err => simp [hm] at h
  | ok ctxm =>
    obtain ⟨hd, hw⟩ := recordMounts_detail _ _ _ _ hm
    obtain ⟨hf, -⟩ := recordMounts_spec _ _ _ _ hm
    simp only [hm] at h
    cases htty : spec.Tty with
    | true =>
      have hl : ctxm.lock = true := hf.lock.trans hlock
      simp [htty, QemuContext.nextAttachId, QemuContext.Lock, QemuContext.modAdding, hl] at h
    | false =>
      simp only [htty, Bool.false_eq_true, if_false, Except.ok.injEq, Prod.mk.injEq] at h
      obtain ⟨h1, h2⟩ := h
      subst h1 h2
      exact ⟨rfl, hd, hw⟩

/-- What the container loop does to the registry entries and to the container
records. -/
theorem initContainers_detail (spec : UserPod) (l : List (Nat × UserContainer))
    (ctx ctx' : QemuContext) (cs cs' : List VmContainer) (hlock : ctx.lock = true)
    (h : forEach (QemuContext.initContainer spec) l (ctx, cs) = .ok (ctx', cs')) :
    cs' = l.foldl (fun cs e => setIdx cs (e.1 : Int) (initialContainer e.2)) cs ∧
      (∀ V, ctx'.devices.volumeMap.get? V =
        (ctx.devices.volumeMap.get? V).map (recordedMounts V l)) ∧
      (ctx.devices.volumeMap.WF → ctx'.devices.volumeMap.WF) := by
  induction l generalizing ctx cs with
  | nil =>
    simp only [forEach, Except.ok.injEq, Prod.mk.injEq] at h
    obtain ⟨rfl, rfl⟩ := h
    exact ⟨rfl, fun V => by cases ctx.devices.volumeMap.get? V <;> simp [recordedMounts],
      fun hwf => hwf⟩
  | cons e l ih =>
    simp only [forEach] at h
    cases hb : QemuContext.initContainer spec (ctx, cs) e with
    | error err => simp [hb] at h
    | ok st1 =>
      obtain ⟨ctx1, cs1⟩ := st1
      simp only [hb] at h
      obtain ⟨hc1, hd1, hw1⟩ := initContainer_detail spec ctx ctx1 cs cs1 e hlock hb
      obtain ⟨-, f1, -⟩ := initContainer_spec spec ctx ctx1 cs cs1 e hlock hb
      obtain ⟨hc2, hd2, hw2⟩ := ih ctx1 cs1 (f1.lock.trans hlock) h
      refine ⟨?_, fun V => ?_, fun hwf => hw2 (hw1 hwf)⟩
      · rw [hc2, hc1]
        rfl
      · rw [hd2 V, hd1 V]
        cases ctx.devices.volumeMap.get? V <;> simp [recordedMounts]

/-- Storing the records of the declared containers at their indices fills the slice in
declaration order. -/
theorem foldl_setIdx_enumFrom (xs : List UserContainer) (done : List VmContainer)
    (rest : List VmContainer) (hlen : rest.length = xs.length) :
    (xs.enumFrom done.length).foldl
        (fun cs e => setIdx cs (e.1 : Int) (initialContainer e.2)) (done ++ rest) =
      done ++ xs.map initialContainer := by
  induction xs generalizing done rest with
  | nil =>
    have : rest = [] := List.length_eq_zero.mp hlen
    simp [this]
  | cons x xs ih =>
    cases rest with
    | nil => simp at hlen
    | cons r rest =>
      simp only [List.length_cons, add_left_inj] at hlen
      have hset : setIdx (done ++ r :: rest) (done.length : Int) (initialContainer x) =
          (done ++ [initialContainer x]) ++ rest := by
        simp [setIdx]
      simp only [List.enumFrom_cons, List.foldl_cons, hset]
      have := ih (done ++ [initialContainer x]) rest hlen
      simp only [List.length_append, List.length_singleton] at this
      rw [this]
      simp

/-- The registry entries and the container records `InitDeviceContext` leaves when it
returns from a context whose volume entries carry no mount. -/
theorem InitDeviceContext_detail (c0 c1 : QemuContext) (spec : UserPod) (networks : Int)
    (hun : VolumesUnmounted c0) (h : c0.InitDeviceContext spec networks = .ok c1) :
    c1.devices.volumeMap.WF ∧
      (∀ V vol, c1.devices.volumeMap.get? V = some vol →
        ∃ vol0 : volumeInfo, vol0.pos = [] ∧ vol0.readOnly = [] ∧
          vol = recordedMounts V spec.Containers.enum vol0) ∧
      ∃ vm, c1.vmSpec = some vm ∧ vm.Containers = spec.Containers.map initialContainer := by
  unfold QemuContext.InitDeviceContext QemuContext.Lock at h
  cases hl : c0.lock with
  | true => simp [hl] at h
  | false =>
    simp only [hl, Bool.false_eq_true, if_false] at h
    generalize hA : ({ c0 with lock := true } : QemuContext) = cA at h
    have hlA : cA.lock = true := by rw [← hA]
    have hdev0 : cA.devices = c0.devices := by rw [← hA]
    obtain ⟨fN, nv, -⟩ := addNetworks_spec cA networks
    obtain ⟨fV, -⟩ := classifyVolumes_spec spec.Volumes (cA.addNetworks networks)
    have hunN : VolumesUnmounted (cA.addNetworks networks) := by
      unfold VolumesUnmounted
      rw [nv, hdev0]
      exact hun
    have hunV := classifyVolumes_unmounted spec.Volumes _ hunN
    cases hrun : forEach (QemuContext.initContainer spec) spec.Containers.enum
        (List.foldl QemuContext.classifyVolume (cA.addNetworks networks) spec.Volumes,
          List.replicate spec.Containers.length VmContainer.zero) with
    | error err => simp [hrun] at h
    | ok st =>
      obtain ⟨cB, cs⟩ := st
      simp only [hrun, Except.ok.injEq] at h
      have hlV : (List.foldl QemuContext.classifyVolume (cA.addNetworks networks)
          spec.Volumes).lock = true := (fV.lock.trans fN.lock).trans hlA
      obtain ⟨hcs, hent, hwf⟩ := initContainers_detail spec _ _ cB _ cs hlV hrun
      subst h
      refine ⟨hwf hunV.1, ?_, ⟨_, rfl, ?_⟩⟩
      · intro V vol hget
        simp only [QemuContext.Unlock] at hget
        rw [hent V] at hget
        cases hv0 : (List.foldl QemuContext.classifyVolume (cA.addNetworks networks)
            spec.Volumes).devices.volumeMap.get? V with
        | none => simp [hv0] at hget
        | some vol0 =>
          simp only [hv0, Option.map_some', Option.some.injEq] at hget
          obtain ⟨hp, hr⟩ := hunV.2 V vol0 hv0
          exact ⟨vol0, hp, hr, hget.symm⟩
      · simp only
        rw [hcs]
        have := foldl_setIdx_enumFrom spec.Containers []
          (List.replicate spec.Containers.length VmContainer.zero) (by simp)
        simpa [List.enum] using this

/-- C11, as stated, fails for a declared volume with a source and the empty driver:
`InitDeviceContext` returns, the volume is pending in `adding.volumes`, and the registry
holds no entry for it. -/
theorem InitDeviceContext_skips_volume :
    (∀ vol ∈ sourceOnlySpec.Volumes,
        vol.Driver = "raw" ∨ vol.Driver = "qcow2" ∨ vol.Driver = "vfs" ∨ vol.Driver = "") ∧
      (freshCtx.InitDeviceContext sourceOnlySpec 0).map
          (fun c => (c.devices.volumeMap.keys, c.progress.adding.volumes.keys)) =
        .ok ([], ["v"]) :=
  ⟨by decide, rfl⟩

/-- C11 (amended): for a pod without tty (or without containers) whose declared volumes
each have an empty source or a driver among raw, qcow2 and vfs and whose mounts name
declared volumes, `InitDeviceContext` returns on a fresh context; afterwards the
registry holds exactly one volume entry for each declared volume name and
`vmSpec.Containers` holds one record per declared container, in declaration order. -/
theorem InitDeviceContext_registry (PciAddrFrom : Int) (BaseDir id : String) (cpu memory : Int)
    (kernel initrd : String) (spec : UserPod) (networks : Int)
    (htty : spec.Tty = false ∨ spec.Containers = [])
    (hreg : ∀ vol ∈ spec.Volumes, vol.Source = "" ∨ vol.Driver = "raw" ∨
      vol.Driver = "qcow2" ∨ vol.Driver = "vfs")
    (hmounts : ∀ c ∈ spec.Containers, ∀ v ∈ c.Volumes, ∃ vol ∈ spec.Volumes,
      v.Volume = vol.Name) :
    ∃ c1 vm, (initContext PciAddrFrom BaseDir id cpu memory kernel initrd).InitDeviceContext
        spec networks = .ok c1 ∧
      (c1.devices.volumeMap.keys).Nodup ∧
      (∀ name, name ∈ c1.devices.volumeMap.keys ↔ ∃ vol ∈ spec.Volumes, name = vol.Name) ∧
      c1.vmSpec = some vm ∧
      vm.Containers.length = spec.Containers.length ∧
      ∀ (i : Nat) (c : UserContainer), spec.Containers[i]? = some c →
        vm.Containers[i]? = some
          { Id := "", Rootfs := "rootfs", Fstype := "ext4", Image := "", Volumes := [],
            Fsmap := [], Tty := 0, Workdir := c.Workdir, Entrypoint := c.Entrypoint,
            Cmd := c.Command,
            Envs := c.Envs.map fun e => { Env := e.Env, Value := e.Value },
            RestartPolicy := if c.RestartPolicy.length > 0 then c.RestartPolicy else "never" } := by
  have hm : MountsDeclared (initContext PciAddrFrom BaseDir id cpu memory kernel initrd) spec := by
    intro c hc v hv
    obtain ⟨vol, hvol, hname⟩ := hmounts c hc v hv
    exact Or.inl ⟨vol, hvol, hname, hreg vol hvol⟩
  obtain ⟨c1, hrun⟩ := InitDeviceContext_returns _ spec networks rfl htty hm
  have post := InitDeviceContext_post _ c1 spec networks hrun
  obtain ⟨hwf, -, vm, hvm, hcs⟩ := InitDeviceContext_detail _ c1 spec networks
    (by simp [VolumesUnmounted, initContext, newDeviceMap, GoMap.WF, GoMap.keys, GoMap.get?])
    hrun
  refine ⟨c1, vm, hrun, hwf, ?_, hvm, by rw [hcs]; simp, ?_⟩
  · intro name
    rw [post.volumeMap]
    simp only [initContext, newDeviceMap, GoMap.keys, List.map_nil, List.not_mem_nil, or_false]
    constructor
    · rintro ⟨vol, hvol, hname, -⟩
      exact ⟨vol, hvol, hname⟩
    · rintro ⟨vol, hvol, hname⟩
      exact ⟨vol, hvol, hname, hreg vol hvol⟩
  · intro i c hc
    rw [hcs, List.getElem?_map, hc]
    rfl

/-- Witness of the amended C11 on scenario S2. -/
theorem InitDeviceContext_registry_witness :
    ∃ c1 vm, (initContext 5 "/var/run/dvm" "vm-abcdefghij" 1 512 "kernel"
        "initrd.img").InitDeviceContext s2Spec 2 = .ok c1 ∧
      (c1.devices.volumeMap.keys).Nodup ∧
      (∀ name, name ∈ c1.devices.volumeMap.keys ↔ ∃ vol ∈ s2Spec.Volumes, name = vol.Name) ∧
      c1.vmSpec = some vm ∧
      vm.Containers.length = s2Spec.Containers.length ∧
      ∀ (i : Nat) (c : UserContainer), s2Spec.Containers[i]? = some c →
        vm.Containers[i]? = some
          { Id := "", Rootfs := "rootfs", Fstype := "ext4", Image := "", Volumes := [],
            Fsmap := [], Tty := 0, Workdir := c.Workdir, Entrypoint := c.Entrypoint,
            Cmd := c.Command,
            Envs := c.Envs.map fun e => { Env := e.Env, Value := e.Value },
            RestartPolicy := if c.RestartPolicy.length > 0 then c.RestartPolicy else "never" } :=
  InitDeviceContext_registry 5 "/var/run/dvm" "vm-abcdefghij" 1 512 "kernel" "initrd.img"
    s2Spec 2 (Or.inl rfl) (by decide) (by decide)

/-! ### The mounts recorded by `InitDeviceContext` -/

theorem GoMap.foldl_set_get?_of_not_mem_key {α K V : Type} [DecidableEq K] (key : α → K)
    (val : α → V) (l : List α) (m : GoMap K V) (k : K) (hk : k ∉ l.map key) :
    (l.foldl (fun m a => GoMap.set m (key a) (val a)) m).get? k = m.get? k := by
  induction l generalizing m with
  | nil => rfl
  | cons a l ih =>
    simp only [List.map_cons, List.mem_cons, not_or] at hk
    rw [List.foldl_cons, ih _ hk.2, GoMap.get?_set_of_ne _ _ _ _ hk.1]

theorem GoMap.foldl_set_get?_of_mem_key {α K V : Type} [DecidableEq K] (key : α → K)
    (val : α → V) (l : List α) (hnd : (l.map key).Nodup) (m : GoMap K V) (a : α)
    (ha : a ∈ l) :
    (l.foldl (fun m a => GoMap.set m (key a) (val a)) m).get? (key a) = some (val a) := by
  induction l generalizing m with
  | nil => cases ha
  | cons b l ih =>
    simp only [List.map_cons, List.nodup_cons] at hnd
    rw [List.foldl_cons]
    rcases List.mem_cons.mp ha with rfl | ha
    · rw [GoMap.foldl_set_get?_of_not_mem_key key val _ _ _ hnd.1, GoMap.get?_set_self]
    · exact ih hnd.2 _ ha

/-- Lookup in a map built from the empty map by assignments under distinct keys. -/
theorem GoMap.foldl_set_nil_get?_iff {α K V : Type} [DecidableEq K] (key : α → K)
    (val : α → V) (l : List α) (hnd : (l.map key).Nodup) (k : K) (v : V) :
    (l.foldl (fun m a => GoMap.set m (key a) (val a)) []).get? k = some v ↔
      ∃ a ∈ l, key a = k ∧ val a = v := by
  constructor
  · intro h
    by_cases hk : k ∈ l.map key
    · obtain ⟨a, ha, rfl⟩ := List.mem_map.mp hk
      rw [GoMap.foldl_set_get?_of_mem_key key val l hnd [] a ha] at h
      exact ⟨a, ha, rfl, Option.some.inj h⟩
    · rw [GoMap.foldl_set_get?_of_not_mem_key key val l [] k hk] at h
      simp [GoMap.get?] at h
  · rintro ⟨a, ha, rfl, rfl⟩
    exact GoMap.foldl_set_get?_of_mem_key key val l hnd [] a ha

theorem recordedMount_foldl_of_ne (V : String) (i : Int) (vs : List UserVolumeReference)
    (vol : volumeInfo) (h : ∀ v ∈ vs, v.Volume ≠ V) :
    vs.foldl (recordedMount V i) vol = vol := by
  induction vs generalizing vol with
  | nil => rfl
  | cons v vs ih =>
    have hv : v.Volume ≠ V := h v (List.mem_cons_self _ _)
    rw [List.foldl_cons]
    simp only [recordedMount, hv, if_false]
    exact ih vol (fun x hx => h x (List.mem_cons_of_mem _ hx))

/-- The mounts of a container that names each volume at most once change the entry of
`V` exactly by the mount that names `V`, if there is one. -/
theorem recordedMount_foldl (V : String) (i : Int) (vs : List UserVolumeReference)
    (vol : volumeInfo) (hnd : (vs.map (fun v => v.Volume)).Nodup) :
    vs.foldl (recordedMount V i) vol =
      match vs.find? (fun v => decide (v.Volume = V)) with
      | some v => volumeInfo.mk vol.info (vol.pos.set i v.Path) (vol.readOnly.set i v.ReadOnly)
      | none => vol := by
  induction vs generalizing vol with
  | nil => rfl
  | cons v vs ih =>
    simp only [List.map_cons, List.nodup_cons] at hnd
    rw [List.foldl_cons, List.find?_cons]
    by_cases hv : v.Volume = V
    · have hrest : ∀ x ∈ vs, x.Volume ≠ V := by
        intro x hx hxV
        exact hnd.1 (List.mem_map.mpr ⟨x, hx, hxV.trans hv.symm⟩)
      rw [recordedMount_foldl_of_ne V i vs _ hrest]
      simp [recordedMount, hv]
    · simp only [recordedMount, hv, if_false, decide_False]
      exact ih vol hnd.2

/-- The two mount maps of the entry of `V` after the mounts of the containers `l`. -/
theorem recordedMounts_maps (V : String) (l : List (Nat × UserContainer)) (vol : volumeInfo)
    (hnd : ∀ e ∈ l, (e.2.Volumes.map (fun v => v.Volume)).Nodup) :
    (recordedMounts V l vol).pos =
        (l.filterMap (declaredMount V)).foldl (fun m w => GoMap.set m w.1 w.2.1) vol.pos ∧
      (recordedMounts V l vol).readOnly =
        (l.filterMap (declaredMount V)).foldl (fun m w => GoMap.set m w.1 w.2.2)
          vol.readOnly := by
  induction l generalizing vol with
  | nil => exact ⟨rfl, rfl⟩
  | cons e l ih =>
    have he := hnd e (List.mem_cons_self _ _)
    have hl : ∀ x ∈ l, (x.2.Volumes.map (fun v => v.Volume)).Nodup :=
      fun x hx => hnd x (List.mem_cons_of_mem _ hx)
    have hstep : recordedMounts V (e :: l) vol =
        recordedMounts V l (e.2.Volumes.foldl (recordedMount V (e.1 : Int)) vol) := rfl
    rw [hstep, recordedMount_foldl V _ _ vol he, List.filterMap_cons]
    cases hf : e.2.Volumes.find? (fun v => decide (v.Volume = V)) with
    | none =>
      have : declaredMount V e = none := by simp [declaredMount, hf]
      simp only [this]
      exact ih vol hl
    | some v =>
      have : declaredMount V e = some ((e.1 : Int), v.Path, v.ReadOnly) := by
        simp [declaredMount, hf]
      simp only [this, List.foldl_cons]
      exact ih _ hl

theorem declaredMount_keys_sublist (V : String) (l : List (Nat × UserContainer)) :
    ((l.filterMap (declaredMount V)).map (fun w => w.1)).Sublist
      (l.map (fun e => (e.1 : Int))) := by
  induction l with
  | nil => simp
  | cons e l ih =>
    rw [List.filterMap_cons]
    cases hf : declaredMount V e with
    | none =>
      simp only [List.map_cons]
      exact ih.cons _
    | some w =>
      have hw : w.1 = (e.1 : Int) := by
        simp only [declaredMount, Option.map_eq_some'] at hf
        obtain ⟨v, -, rfl⟩ := hf
        rfl
      simp only [List.map_cons, hw]
      exact ih.cons₂ _

/-- A container that names each volume at most once mounts `V` at `path` with flag `ro`
exactly when its declared mount of `V` says so. -/
theorem declaredMount_eq_some_iff (V : String) (e : Nat × UserContainer) (j : Int)
    (path : String) (ro : Bool) (hnd : (e.2.Volumes.map (fun v => v.Volume)).Nodup) :
    declaredMount V e = some (j, path, ro) ↔
      (e.1 : Int) = j ∧ UserVolumeReference.mk path V ro ∈ e.2.Volumes := by
  simp only [declaredMount, Option.map_eq_some', Prod.mk.injEq]
  constructor
  · rintro ⟨v, hf, hj, hp, hr⟩
    have hV : v.Volume = V := by simpa using List.find?_some hf
    have hmem := List.mem_of_find?_eq_some hf
    refine ⟨hj, ?_⟩
    have : UserVolumeReference.mk path V ro = v := by
      cases v
      simp only [UserVolumeReference.mk.injEq]
      exact ⟨hp.symm, hV.symm, hr.symm⟩
    rw [this]
    exact hmem
  · rintro ⟨hj, hmem⟩
    have hsome : (e.2.Volumes.find? (fun v => decide (v.Volume = V))).isSome := by
      rw [List.find?_isSome]
      exact ⟨_, hmem, by simp⟩
    obtain ⟨v, hf⟩ := Option.isSome_iff_exists.mp hsome
    have hV : v.Volume = V := by simpa using List.find?_some hf
    have hv := List.mem_of_find?_eq_some hf
    have heq : v = UserVolumeReference.mk path V ro :=
      List.inj_on_of_nodup_map hnd hv hmem hV
    exact ⟨v, hf, hj, by rw [heq], by rw [heq]⟩

/-- The mount maps of a registry entry without mounts after the mounts of all declared
containers, each of which names every volume at most once. -/
theorem recordedMounts_get? (V : String) (cs : List UserContainer) (vol0 : volumeInfo)
    (hp : vol0.pos = []) (hr : vol0.readOnly = [])
    (honce : ∀ c ∈ cs, (c.Volumes.map (fun v => v.Volume)).Nodup)
    (i : Int) (path : String) (ro : Bool) :
    ((recordedMounts V cs.enum vol0).pos.get? i = some path ∧
        (recordedMounts V cs.enum vol0).readOnly.get? i = some ro) ↔
      ∃ c, getIdx cs i = some c ∧ UserVolumeReference.mk path V ro ∈ c.Volumes := by
  have hnd : ∀ e ∈ cs.enum, (e.2.Volumes.map (fun v => v.Volume)).Nodup :=
    fun e he => honce e.2 (List.snd_mem_of_mem_enum he)
  obtain ⟨hpos, hro⟩ := recordedMounts_maps V cs.enum vol0 hnd
  rw [hpos, hro, hp, hr]
  have hkeys : ((cs.enum.filterMap (declaredMount V)).map (fun w => w.1)).Nodup := by
    refine (declaredMount_keys_sublist V cs.enum).nodup ?_
    have : cs.enum.map (fun e => (e.1 : Int)) = (List.range cs.length).map Int.ofNat := by
      rw [← List.enum_map_fst cs, List.map_map]
      rfl
    rw [this]
    exact (List.nodup_range _).map Int.ofNat_injective
  rw [GoMap.foldl_set_nil_get?_iff (fun w : Int × String × Bool => w.1) (fun w => w.2.1) _ hkeys,
    GoMap.foldl_set_nil_get?_iff (fun w : Int × String × Bool => w.1) (fun w => w.2.2) _ hkeys]
  constructor
  · rintro ⟨⟨w1, hw1, hk1, hv1⟩, ⟨w2, hw2, hk2, hv2⟩⟩
    have hw : w1 = w2 := List.inj_on_of_nodup_map hkeys hw1 hw2 (hk1.trans hk2.symm)
    subst hw
    obtain ⟨e, he, hd⟩ := List.mem_filterMap.mp hw1
    have hd' : declaredMount V e = some (i, path, ro) := by
      rw [hd]
      obtain ⟨a, b, c⟩ := w1
      simp only at hk1 hv1 hv2
      rw [hk1, hv1, hv2]
    obtain ⟨hi, hmem⟩ := (declaredMount_eq_some_iff V e i path ro (hnd e he)).mp hd'
    refine ⟨e.2, ?_, hmem⟩
    rw [getIdx_eq_some_iff]
    refine ⟨by omega, ?_⟩
    have : i.toNat = e.1 := by omega
    rw [this]
    exact List.mem_enum_iff_getElem?.mp he
  · rintro ⟨c, hc, hmem⟩
    rw [getIdx_eq_some_iff] at hc
    obtain ⟨h0, hc⟩ := hc
    have he : (i.toNat, c) ∈ cs.enum := List.mk_mem_enum_iff_getElem?.mpr hc
    have hd : declaredMount V (i.toNat, c) = some (i, path, ro) :=
      (declaredMount_eq_some_iff V (i.toNat, c) i path ro (hnd _ he)).mpr
        ⟨by simp; omega, hmem⟩
    have hw : (i, path, ro) ∈ cs.enum.filterMap (declaredMount V) :=
      List.mem_filterMap.mpr ⟨_, he, hd⟩
    exact ⟨⟨_, hw, rfl, rfl⟩, ⟨_, hw, rfl, rfl⟩⟩

/-- C12 (amended): for a pod without tty (or without containers) in which every mount
names a declared volume that gets a registry entry (its source is empty or its driver is
raw, qcow2 or vfs) and every container names a volume at most once, `InitDeviceContext` returns on a fresh context; afterwards every mounted volume
has its entry, the entry of a volume V has `pos[i] = path` and `readOnly[i] = ro` for
exactly those container indices i whose mount list contains (V, path, ro), and the
`Volumes` and `Fsmap` lists of the containers are empty. -/
theorem InitDeviceContext_mounts (PciAddrFrom : Int) (BaseDir id : String) (cpu memory : Int)
    (kernel initrd : String) (spec : UserPod) (networks : Int)
    (htty : spec.Tty = false ∨ spec.Containers = [])
    (hmounts : ∀ c ∈ spec.Containers, ∀ v ∈ c.Volumes, ∃ vol ∈ spec.Volumes,
      v.Volume = vol.Name ∧ (vol.Source = "" ∨ vol.Driver = "raw" ∨ vol.Driver = "qcow2" ∨
        vol.Driver = "vfs"))
    (honce : ∀ c ∈ spec.Containers, (c.Volumes.map (fun v => v.Volume)).Nodup) :
    ∃ c1 vm, (initContext PciAddrFrom BaseDir id cpu memory kernel initrd).InitDeviceContext
        spec networks = .ok c1 ∧ c1.vmSpec = some vm ∧
      (∀ c ∈ spec.Containers, ∀ v ∈ c.Volumes,
        (c1.devices.volumeMap.get? v.Volume).isSome) ∧
      (∀ V vol, c1.devices.volumeMap.get? V = some vol →
        ∀ (i : Int) (path : String) (ro : Bool),
          (vol.pos.get? i = some path ∧ vol.readOnly.get? i = some ro) ↔
            ∃ c, getIdx spec.Containers i = some c ∧
              UserVolumeReference.mk path V ro ∈ c.Volumes) ∧
      (∀ c ∈ vm.Containers, c.Volumes = [] ∧ c.Fsmap = []) := by
  have hm : MountsDeclared (initContext PciAddrFrom BaseDir id cpu memory kernel initrd) spec := by
    intro c hc v hv
    obtain ⟨vol, hvol, hname, hr⟩ := hmounts c hc v hv
    exact Or.inl ⟨vol, hvol, hname, hr⟩
  obtain ⟨c1, hrun⟩ := InitDeviceContext_returns _ spec networks rfl htty hm
  have post := InitDeviceContext_post _ c1 spec networks hrun
  obtain ⟨-, hent, vm, hvm, hcs⟩ := InitDeviceContext_detail _ c1 spec networks
    (by simp [VolumesUnmounted, initContext, newDeviceMap, GoMap.WF, GoMap.keys, GoMap.get?])
    hrun
  refine ⟨c1, vm, hrun, hvm, ?_, ?_, ?_⟩
  · intro c hc v hv
    obtain ⟨vol, hvol, hname, hr⟩ := hmounts c hc v hv
    have hk : v.Volume ∈ c1.devices.volumeMap.keys :=
      (post.volumeMap _).mpr (Or.inl ⟨vol, hvol, hname, hr⟩)
    rw [GoMap.mem_keys_iff_get?] at hk
    exact Option.isSome_iff_ne_none.mpr hk
  · intro V vol hget i path ro
    obtain ⟨vol0, hp, hr, rfl⟩ := hent V vol hget
    exact recordedMounts_get? V spec.Containers vol0 hp hr honce i path ro
  · intro c hc
    rw [hcs] at hc
    obtain ⟨u, -, rfl⟩ := List.mem_map.mp hc
    exact ⟨rfl, rfl⟩

/-- Witness of the amended C12 on scenario S2. -/
theorem InitDeviceContext_mounts_witness :
    ∃ c1 vm, (initContext 5 "/var/run/dvm" "vm-abcdefghij" 1 512 "kernel"
        "initrd.img").InitDeviceContext s2Spec 2 = .ok c1 ∧ c1.vmSpec = some vm ∧
      (∀ c ∈ s2Spec.Containers, ∀ v ∈ c.Volumes,
        (c1.devices.volumeMap.get? v.Volume).isSome) ∧
      (∀ V vol, c1.devices.volumeMap.get? V = some vol →
        ∀ (i : Int) (path : String) (ro : Bool),
          (vol.pos.get? i = some path ∧ vol.readOnly.get? i = some ro) ↔
            ∃ c, getIdx s2Spec.Containers i = some c ∧
              UserVolumeReference.mk path V ro ∈ c.Volumes) ∧
      (∀ c ∈ vm.Containers, c.Volumes = [] ∧ c.Fsmap = []) :=
  InitDeviceContext_mounts 5 "/var/run/dvm" "vm-abcdefghij" 1 512 "kernel" "initrd.img"
    s2Spec 2 (Or.inl rfl) (by decide) (by decide)

/-- C13 fails on the code: for a pod with the tty flag and one container,
`InitDeviceContext` on a fresh context takes the context lock and then calls
`nextAttachId`, which waits for the same lock: the call never returns, no attach id is
assigned and the allocator is not advanced. -/
theorem InitDeviceContext_tty_blocks :
    ttySpec.Tty = true ∧ ttySpec.Containers.length = 1 ∧ freshCtx.lock = false ∧
      freshCtx.InitDeviceContext ttySpec 0 = .error .deadlock :=
  ⟨rfl, rfl, rfl, rfl⟩

/-! ### `volumeReady` -/

/-- The loop of `volumeReady` over the mounts of a directory-backed volume: every
container gets one fsmap entry per enumerated mount that carries its index. -/
theorem forEach_appendFsmap (f : Int × String → VmFsmapDescriptor) (l : List (Int × String))
    (ctx : QemuContext) (vm : VmPod) (hvm : ctx.vmSpec = some vm)
    (hidx : ∀ e ∈ l, (getIdx vm.Containers e.1).isSome) :
    ∃ ctx' vm', forEach (fun ctx e => ctx.appendFsmap e.1 (f e)) l ctx = .ok ctx' ∧
      ctx'.vmSpec = some vm' ∧ ctx'.devices = ctx.devices ∧ ctx'.progress = ctx.progress ∧
      ctx'.lock = ctx.lock ∧
      ∀ i, getIdx vm'.Containers i = (getIdx vm.Containers i).map (fun c =>
        { c with Fsmap := c.Fsmap ++ (l.filter (fun e => decide (e.1 = i))).map f }) := by
  induction l generalizing ctx vm with
  | nil =>
    refine ⟨ctx, vm, rfl, hvm, rfl, rfl, rfl, fun i => ?_⟩
    cases getIdx vm.Containers i <;> simp
  | cons e l ih =>
    obtain ⟨c, hc⟩ := Option.isSome_iff_exists.mp (hidx e (List.mem_cons_self _ _))
    obtain ⟨c1, hc1⟩ : ∃ c1 : VmContainer, c1 = { c with Fsmap := c.Fsmap ++ [f e] } :=
      ⟨_, rfl⟩
    have hstep : ctx.appendFsmap e.1 (f e) = .ok (ctx.putContainer vm e.1 c1) := by
      simp [QemuContext.appendFsmap, hvm, hc, hc1]
    have hidx1 : ∀ x ∈ l, (getIdx (setIdx vm.Containers e.1 c1) x.1).isSome := by
      intro x hx
      rw [getIdx_setIdx]
      have := hidx x (List.mem_cons_of_mem _ hx)
      split <;> simp [this]
    obtain ⟨ctx', vm', hrun, hvm', hd, hp, hl, hget⟩ :=
      ih (ctx.putContainer vm e.1 c1)
        (VmPod.mk vm.Hostname (setIdx vm.Containers e.1 c1) vm.Interfaces vm.Routes
          vm.Socket vm.ShareDir) rfl hidx1
    refine ⟨ctx', vm', by simp only [forEach, hstep, hrun], hvm', hd, hp, hl, fun i => ?_⟩
    rw [hget i, getIdx_setIdx]
    by_cases hi : i = e.1
    · subst hi
      simp [hc, hc1, List.filter_cons]
    · have hi' : ¬ e.1 = i := fun h => hi h.symm
      simp [hi, hi', List.filter_cons]

/-- The bookkeeping at the end of `volumeReady`. -/
theorem finishVolume_progress (ctx : QemuContext) (name : String) :
    (ctx.finishVolume name).progress.adding.volumes = ctx.progress.adding.volumes.delete name ∧
      (ctx.finishVolume name).progress.finished.volumes =
        ctx.progress.finished.volumes.set name true ∧
      (ctx.finishVolume name).progress.adding.blockdevs = ctx.progress.adding.blockdevs := by
  unfold QemuContext.finishVolume
  simp only
  split
  · exact ⟨rfl, rfl, rfl⟩
  · rename_i h
    refine ⟨?_, rfl, rfl⟩
    have := GoMap.condDelete_eq ctx.progress.adding.volumes name
    simp only [QemuContext.modFinished] at h
    rw [if_neg h] at this
    exact this

/-- C14: for a registered volume whose recorded mounts name existing containers,
`volumeReady` returns; it stores the reported file path, format and fstype in the
entry and moves the volume from `adding.volumes` to `finished.volumes`. For fstype
"dir" it returns false, leaves `adding.blockdevs` unchanged and appends to every
container that mounts the volume exactly one fsmap entry (reported path, the container's
mount path, the container's read-only flag); otherwise it returns true, marks the
volume in `adding.blockdevs` and leaves the pod unchanged. -/
theorem volumeReady_effect (ord : RangeOrder Int String) (hord : ord.Valid)
    (ctx : QemuContext) (info : VolumeReadyEvent) (vol : volumeInfo) (vm : VmPod)
    (hlock : ctx.lock = false)
    (hvol : ctx.devices.volumeMap.get? info.Name = some vol) (hvm : ctx.vmSpec = some vm)
    (hwf : vol.pos.WF) (hidx : ∀ i ∈ vol.pos.keys, (getIdx vm.Containers i).isSome) :
    ∃ ctx' needInsert, ctx.volumeReady ord info = .ok (ctx', needInsert) ∧
      ctx'.devices.volumeMap.get? info.Name = some
        (volumeInfo.mk (blockDescriptor.mk vol.info.name info.Filepath info.Format info.Fstype
          vol.info.deviceName vol.info.scsiId) vol.pos vol.readOnly) ∧
      info.Name ∉ ctx'.progress.adding.volumes.keys ∧
      (∀ k, k ≠ info.Name →
        (k ∈ ctx'.progress.adding.volumes.keys ↔ k ∈ ctx.progress.adding.volumes.keys)) ∧
      info.Name ∈ ctx'.progress.finished.volumes.keys ∧
      (info.Fstype = "dir" →
        needInsert = false ∧
        ctx'.progress.adding.blockdevs = ctx.progress.adding.blockdevs ∧
        ∀ i c, ctx.container? i = some c →
          ctx'.container? i = some
            (match vol.pos.get? i with
             | some path =>
               { c with Fsmap := c.Fsmap ++
                  [VmFsmapDescriptor.mk info.Filepath path ((vol.readOnly.get? i).getD false)] }
             | none => c)) ∧
      (info.Fstype ≠ "dir" →
        needInsert = true ∧ info.Name ∈ ctx'.progress.adding.blockdevs.keys ∧
        ctx'.vmSpec = ctx.vmSpec) := by
  obtain ⟨vol1, hvol1⟩ : ∃ v : volumeInfo, v =
      volumeInfo.mk (blockDescriptor.mk vol.info.name info.Filepath info.Format info.Fstype
        vol.info.deviceName vol.info.scsiId) vol.pos vol.readOnly := ⟨_, rfl⟩
  obtain ⟨cA, hcA⟩ : ∃ c : QemuContext, c = (({ ctx with lock := true } : QemuContext)).modDevices
      fun d => { d with volumeMap := d.volumeMap.set info.Name vol1 } := ⟨_, rfl⟩
  have hAvm : cA.vmSpec = some vm := by rw [hcA]; exact hvm
  have hAget : cA.devices.volumeMap.get? info.Name = some vol1 := by
    rw [hcA]
    simp only [QemuContext.modDevices]
    rw [GoMap.get?_set_self]
  have hAprog : cA.progress = ctx.progress := by rw [hcA]; rfl
  have hmemdel : ∀ (c : QemuContext), c.progress.adding.volumes = ctx.progress.adding.volumes →
      info.Name ∉ (c.finishVolume info.Name).Unlock.progress.adding.volumes.keys ∧
      (∀ k, k ≠ info.Name →
        (k ∈ (c.finishVolume info.Name).Unlock.progress.adding.volumes.keys ↔
          k ∈ ctx.progress.adding.volumes.keys)) ∧
      info.Name ∈ (c.finishVolume info.Name).Unlock.progress.finished.volumes.keys := by
    intro c hc
    obtain ⟨h1, h2, -⟩ := finishVolume_progress c info.Name
    simp only [QemuContext.Unlock]
    rw [h1, h2, hc]
    refine ⟨fun h => ((GoMap.mem_keys_delete _ _ _).mp h).2 rfl, fun k hk => ?_, ?_⟩
    · rw [GoMap.mem_keys_delete]
      exact ⟨fun h => h.1, fun h => ⟨h, hk⟩⟩
    · rw [GoMap.mem_keys_set]
      exact Or.inl rfl
  by_cases hd : info.Fstype = "dir"
  · have hperm := hord vol.pos
    obtain ⟨hwf', hget'⟩ := GoMap.perm_get? (ord vol.pos) vol.pos hwf hperm
    have hidx' : ∀ e ∈ ord vol.pos, (getIdx vm.Containers e.1).isSome := by
      intro e he
      exact hidx _ (List.mem_map.mpr ⟨e, hperm.mem_iff.mp he, rfl⟩)
    obtain ⟨cB, vmB, hrun, hvmB, hdB, hpB, -, hcont⟩ :=
      forEach_appendFsmap
        (fun e => VmFsmapDescriptor.mk info.Filepath e.2 ((vol.readOnly.get? e.1).getD false))
        (ord vol.pos) cA vm hAvm hidx'
    obtain ⟨m1, m2, m3⟩ := hmemdel cB (by rw [hpB, hAprog])
    refine ⟨(cB.finishVolume info.Name).Unlock, false, ?_, ?_, m1, m2, m3, ?_, ?_⟩
    · unfold QemuContext.volumeReady QemuContext.Lock
      have hne : (info.Fstype != "dir") = false := by simp [hd]
      simp only [hlock, Bool.false_eq_true, if_false, hvol, hne]
      rw [hcA, hvol1] at hrun
      simp only [hrun]
    · simp only [QemuContext.Unlock]
      rw [(finishVolume_frame _ _).1, hdB, hAget, hvol1]
    · intro _
      refine ⟨rfl, ?_, ?_⟩
      · simp only [QemuContext.Unlock]
        rw [(finishVolume_progress _ _).2.2, hpB, hAprog]
      · intro i c hc
        simp only [QemuContext.container?, hvm] at hc
        simp only [QemuContext.container?, QemuContext.Unlock]
        rw [(finishVolume_frame _ _).2.1, hvmB]
        simp only
        rw [hcont i, hc, GoMap.filter_key_eq _ hwf' i, hget' i]
        cases hp : vol.pos.get? i with
        | none => simp
        | some path => simp
    · intro hnd
      exact absurd hd hnd
  · obtain ⟨cC, hcC⟩ : ∃ c : QemuContext, c = cA.modAdding fun pm =>
        { pm with blockdevs := pm.blockdevs.set info.Name true } := ⟨_, rfl⟩
    obtain ⟨m1, m2, m3⟩ := hmemdel cC (by rw [hcC]; simp only [QemuContext.modAdding]; rw [hAprog])
    refine ⟨(cC.finishVolume info.Name).Unlock, true, ?_, ?_, m1, m2, m3, ?_, ?_⟩
    · unfold QemuContext.volumeReady QemuContext.Lock
      have hne : (info.Fstype != "dir") = true := by simpa using hd
      simp only [hlock, Bool.false_eq_true, if_false, hvol, hne, if_true]
      rw [hcC, hcA, hvol1]
    · simp only [QemuContext.Unlock]
      rw [(finishVolume_frame _ _).1, hcC]
      simp only [QemuContext.modAdding]
      rw [hAget, hvol1]
    · intro h
      exact absurd h hd
    · intro _
      refine ⟨rfl, ?_, ?_⟩
      · simp only [QemuContext.Unlock]
        rw [(finishVolume_progress _ _).2.2, hcC]
        simp only [QemuContext.modAdding]
        rw [GoMap.mem_keys_set]
        exact Or.inl rfl
      · simp only [QemuContext.Unlock]
        rw [(finishVolume_frame _ _).2.1, hcC]
        simp only [QemuContext.modAdding]
        exact hAvm.trans hvm.symm

/-- Witness of C14 on the directory variant of scenario S2. -/
theorem volumeReady_effect_witness :
    ∃ ctx' needInsert, s2DirCtx.volumeReady List.reverse s2DirReady = .ok (ctx', needInsert) ∧
      ctx'.devices.volumeMap.get? s2DirReady.Name = some
        (volumeInfo.mk (blockDescriptor.mk s2DirVolume.info.name s2DirReady.Filepath
          s2DirReady.Format s2DirReady.Fstype s2DirVolume.info.deviceName
          s2DirVolume.info.scsiId) s2DirVolume.pos s2DirVolume.readOnly) ∧
      s2DirReady.Name ∉ ctx'.progress.adding.volumes.keys ∧
      (∀ k, k ≠ s2DirReady.Name →
        (k ∈ ctx'.progress.adding.volumes.keys ↔ k ∈ s2DirCtx.progress.adding.volumes.keys)) ∧
      s2DirReady.Name ∈ ctx'.progress.finished.volumes.keys ∧
      (s2DirReady.Fstype = "dir" →
        needInsert = false ∧
        ctx'.progress.adding.blockdevs = s2DirCtx.progress.adding.blockdevs ∧
        ∀ i c, s2DirCtx.container? i = some c →
          ctx'.container? i = some
            (match s2DirVolume.pos.get? i with
             | some path =>
               { c with Fsmap := c.Fsmap ++
                  [VmFsmapDescriptor.mk s2DirReady.Filepath path
                    ((s2DirVolume.readOnly.get? i).getD false)] }
             | none => c)) ∧
      (s2DirReady.Fstype ≠ "dir" →
        needInsert = true ∧ s2DirReady.Name ∈ ctx'.progress.adding.blockdevs.keys ∧
        ctx'.vmSpec = s2DirCtx.vmSpec) :=
  volumeReady_effect List.reverse (fun m => List.reverse_perm m) s2DirCtx s2DirReady
    s2DirVolume s2DirPod rfl rfl rfl (by decide) (by decide)

/-! ### Images: creation and insertion -/

/-- `containerCreated` for a root file system that is not a directory. -/
theorem containerCreated_image (ord : RangeOrder String String) (ctx : QemuContext)
    (info : ContainerCreatedEvent) (vm : VmPod) (hlock : ctx.lock = false)
    (hvm : ctx.vmSpec = some vm) (hidx : (getIdx vm.Containers info.Index).isSome)
    (hnd : info.Fstype ≠ "dir") :
    ∃ ctx' vm', ctx.containerCreated ord info = .ok (ctx', true) ∧ ctx'.lock = false ∧
      ctx'.vmSpec = some vm' ∧
      (∀ i, (getIdx vm'.Containers i).isSome = (getIdx vm.Containers i).isSome) ∧
      ctx'.devices.imageMap = ctx.devices.imageMap.set info.Image (registeredImage info) ∧
      ctx'.progress.adding.blockdevs = ctx.progress.adding.blockdevs.set info.Image true := by
  obtain ⟨c, hc⟩ := Option.isSome_iff_exists.mp hidx
  unfold QemuContext.containerCreated QemuContext.Lock
  simp only [hlock, Bool.false_eq_true, if_false, hvm, hc]
  have hne : (info.Fstype == "dir") = false := by simpa using hnd
  simp only [hne, Bool.false_eq_true, if_false]
  refine ⟨_, _, rfl, rfl, rfl, ?_, rfl, rfl⟩
  intro i
  rw [getIdx_setIdx]
  split
  · rename_i h
    subst h
    simp [hc]
  · rfl

/-- `blockdevInserted` for a registered image whose container exists. -/
theorem blockdevInserted_image (ord : RangeOrder Int String) (ctx : QemuContext)
    (info : BlockdevInsertedEvent) (img : imageInfo) (vm : VmPod) (c : VmContainer)
    (hlock : ctx.lock = false) (htype : info.SourceType = "image")
    (himg : ctx.devices.imageMap.get? info.Name = some img) (hvm : ctx.vmSpec = some vm)
    (hc : getIdx vm.Containers img.pos = some c) :
    ∃ ctx' vm', ctx.blockdevInserted ord info = .ok ctx' ∧ ctx'.lock = false ∧
      ctx'.vmSpec = some vm' ∧
      (∀ i, getIdx vm'.Containers i =
        if i = img.pos then some { c with Image := info.DeviceName }
        else getIdx vm.Containers i) ∧
      (∀ name, ctx'.devices.imageMap.get? name =
        if name = info.Name then
          some (imageInfo.mk (blockDescriptor.mk img.info.name img.info.filename img.info.format
            img.info.fstype info.DeviceName info.ScsiId) img.pos)
        else ctx.devices.imageMap.get? name) ∧
      ctx'.progress.adding.blockdevs = ctx.progress.adding.blockdevs.delete info.Name := by
  obtain ⟨img1, himg1⟩ : ∃ x : imageInfo, x =
      imageInfo.mk (blockDescriptor.mk img.info.name img.info.filename img.info.format
        img.info.fstype info.DeviceName info.ScsiId) img.pos := ⟨_, rfl⟩
  obtain ⟨c1, hc1⟩ : ∃ x : VmContainer, x = { c with Image := info.DeviceName } := ⟨_, rfl⟩
  obtain ⟨cA, hcA⟩ : ∃ x : QemuContext, x =
      ((({ ctx with lock := true } : QemuContext)).modDevices fun d =>
        { d with imageMap := d.imageMap.set info.Name img1 }).putContainer vm img.pos c1 :=
    ⟨_, rfl⟩
  have hrec : ({ ctx with lock := true } : QemuContext).recordBlockdev ord info = .ok cA := by
    unfold QemuContext.recordBlockdev
    have h1 : (info.SourceType == "image") = true := by rw [htype]; decide
    simp only [h1, if_true, himg]
    simp only [QemuContext.modDevices, hvm, hc]
    rw [hcA, himg1, hc1]
    rfl
  have hprog : (cA.finishBlockdev info.Name).progress.adding.blockdevs =
      ctx.progress.adding.blockdevs.delete info.Name := by
    unfold QemuContext.finishBlockdev
    simp only
    have hA : cA.progress = ctx.progress := by rw [hcA]; rfl
    split
    · simp only [QemuContext.modAdding, QemuContext.modFinished]
      rw [hA]
    · rename_i h
      have := GoMap.condDelete_eq ctx.progress.adding.blockdevs info.Name
      simp only [QemuContext.modFinished] at h ⊢
      rw [hA] at h ⊢
      rw [if_neg h] at this
      exact this
  refine ⟨(cA.finishBlockdev info.Name).Unlock,
    VmPod.mk vm.Hostname (setIdx vm.Containers img.pos c1) vm.Interfaces vm.Routes
      vm.Socket vm.ShareDir, ?_, rfl, ?_, ?_, ?_, ?_⟩
  · unfold QemuContext.blockdevInserted QemuContext.Lock
    simp only [hlock, Bool.false_eq_true, if_false, hrec]
  · simp only [QemuContext.Unlock]
    rw [(finishBlockdev_frame _ _).2.1, hcA]
    rfl
  · intro i
    simp only
    rw [getIdx_setIdx]
    by_cases hi : i = img.pos
    · subst hi
      simp [hc, hc1]
    · simp [hi]
  · intro name
    simp only [QemuContext.Unlock]
    rw [(finishBlockdev_frame _ _).1, hcA]
    simp only [QemuContext.putContainer, QemuContext.modDevices]
    by_cases hn : name = info.Name
    · subst hn
      rw [GoMap.get?_set_self, himg1]
      simp
    · rw [GoMap.get?_set_of_ne _ _ _ _ hn]
      simp [hn]
  · simp only [QemuContext.Unlock]
    exact hprog

/-- A sequence of `ContainerCreated` events for root file systems that are not
directories, reporting pairwise distinct images: every call returns and every image is
registered for the container of its event. -/
theorem containersCreated_images (ord : RangeOrder String String)
    (crs : List ContainerCreatedEvent) (ctx : QemuContext) (vm : VmPod)
    (hlock : ctx.lock = false) (hvm : ctx.vmSpec = some vm)
    (hev : ∀ cr ∈ crs, cr.Fstype ≠ "dir" ∧ (getIdx vm.Containers cr.Index).isSome)
    (hnames : (crs.map (fun cr => cr.Image)).Nodup) :
    ∃ c1 vm1, containersCreated ord crs ctx = .ok c1 ∧ c1.lock = false ∧
      c1.vmSpec = some vm1 ∧
      (∀ i, (getIdx vm1.Containers i).isSome = (getIdx vm.Containers i).isSome) ∧
      (∀ cr ∈ crs, c1.devices.imageMap.get? cr.Image = some (registeredImage cr)) ∧
      (∀ name, name ∉ crs.map (fun cr => cr.Image) →
        c1.devices.imageMap.get? name = ctx.devices.imageMap.get? name) := by
  induction crs generalizing ctx vm with
  | nil => exact ⟨ctx, vm, rfl, hlock, hvm, fun _ => rfl, by simp, fun _ _ => rfl⟩
  | cons cr crs ih =>
    simp only [List.map_cons, List.nodup_cons] at hnames
    obtain ⟨hd, hidx⟩ := hev cr (List.mem_cons_self _ _)
    obtain ⟨cA, vmA, hstep, hlA, hvmA, hsomeA, himgA, -⟩ :=
      containerCreated_image ord ctx cr vm hlock hvm hidx hd
    obtain ⟨c1, vm1, hrun, hl1, hvm1, hsome1, himg1, hframe1⟩ :=
      ih cA vmA hlA hvmA
        (fun x hx => ⟨(hev x (List.mem_cons_of_mem _ hx)).1, by
          rw [hsomeA]; exact (hev x (List.mem_cons_of_mem _ hx)).2⟩)
        hnames.2
    refine ⟨c1, vm1, ?_, hl1, hvm1, fun i => (hsome1 i).trans (hsomeA i), ?_, ?_⟩
    · simp only [containersCreated, forEach, hstep, Except.map]
      exact hrun
    · intro x hx
      rcases List.mem_cons.mp hx with rfl | hx
      · rw [hframe1 _ hnames.1, himgA, GoMap.get?_set_self]
      · exact himg1 x hx
    · intro name hname
      simp only [List.map_cons, List.mem_cons, not_or] at hname
      rw [hframe1 name hname.2, himgA, GoMap.get?_set_of_ne _ _ _ _ hname.1]

/-- A sequence of `BlockdevInserted` events of source type "image", one for each of a
set of registered images with pairwise distinct names and containers: every call
returns, every container holds the device name reported for its image, the image entry
records device name and SCSI id, and no image name is left in `adding.blockdevs`. -/
theorem blockdevsInserted_images (ord : RangeOrder Int String)
    (ps : List (ContainerCreatedEvent × BlockdevInsertedEvent)) (ctx : QemuContext)
    (vm : VmPod) (hlock : ctx.lock = false) (hvm : ctx.vmSpec = some vm)
    (hnames : (ps.map (fun p => p.1.Image)).Nodup)
    (hidxs : (ps.map (fun p => p.1.Index)).Nodup)
    (hev : ∀ p ∈ ps, p.2.SourceType = "image" ∧ p.2.Name = p.1.Image ∧
      ctx.devices.imageMap.get? p.1.Image = some (registeredImage p.1) ∧
      (getIdx vm.Containers p.1.Index).isSome) :
    ∃ c2 vm2, blockdevsInserted ord (ps.map Prod.snd) ctx = .ok c2 ∧ c2.lock = false ∧
      c2.vmSpec = some vm2 ∧
      (∀ p ∈ ps,
        (∃ c, getIdx vm2.Containers p.1.Index = some c ∧ c.Image = p.2.DeviceName) ∧
        c2.devices.imageMap.get? p.1.Image = some
          (imageInfo.mk (blockDescriptor.mk p.1.Image p.1.Image "raw" p.1.Fstype
            p.2.DeviceName p.2.ScsiId) p.1.Index) ∧
        p.1.Image ∉ c2.progress.adding.blockdevs.keys) ∧
      (∀ name, name ∉ ps.map (fun p => p.1.Image) →
        c2.devices.imageMap.get? name = ctx.devices.imageMap.get? name) ∧
      (∀ i, i ∉ ps.map (fun p => p.1.Index) →
        getIdx vm2.Containers i = getIdx vm.Containers i) ∧
      (∀ k, k ∈ c2.progress.adding.blockdevs.keys → k ∈ ctx.progress.adding.blockdevs.keys) := by
  induction ps generalizing ctx vm with
  | nil =>
    exact ⟨ctx, vm, rfl, hlock, hvm, by simp, fun _ _ => rfl, fun _ _ => rfl, fun _ h => h⟩
  | cons p ps ih =>
    simp only [List.map_cons, List.nodup_cons] at hnames hidxs
    obtain ⟨htype, hname, himg, hsome⟩ := hev p (List.mem_cons_self _ _)
    obtain ⟨c, hc⟩ := Option.isSome_iff_exists.mp hsome
    rw [← hname] at himg
    obtain ⟨cA, vmA, hstep, hlA, hvmA, hcontA, himgA, haddA⟩ :=
      blockdevInserted_image ord ctx p.2 (registeredImage p.1) vm c hlock htype himg hvm hc
    have hevA : ∀ q ∈ ps, q.2.SourceType = "image" ∧ q.2.Name = q.1.Image ∧
        cA.devices.imageMap.get? q.1.Image = some (registeredImage q.1) ∧
        (getIdx vmA.Containers q.1.Index).isSome := by
      intro q hq
      obtain ⟨h1, h2, h3, h4⟩ := hev q (List.mem_cons_of_mem _ hq)
      refine ⟨h1, h2, ?_, ?_⟩
      · rw [himgA]
        have hne : q.1.Image ≠ p.2.Name := by
          intro h
          apply hnames.1
          rw [← hname, ← h]
          exact List.mem_map.mpr ⟨q, hq, rfl⟩
        rw [if_neg hne]
        exact h3
      · rw [hcontA]
        split
        · rfl
        · exact h4
    obtain ⟨c2, vm2, hrun, hl2, hvm2, hdone, hfimg, hfcont, hfadd⟩ :=
      ih cA vmA hlA hvmA hnames.2 hidxs.2 hevA
    refine ⟨c2, vm2, ?_, hl2, hvm2, ?_, ?_, ?_, ?_⟩
    · simp only [blockdevsInserted, forEach, hstep]
      exact hrun
    · intro q hq
      rcases List.mem_cons.mp hq with rfl | hq
      · refine ⟨⟨{ c with Image := q.2.DeviceName }, ?_, rfl⟩, ?_, ?_⟩
        · rw [hfcont _ hidxs.1, hcontA]
          simp [registeredImage]
        · rw [hfimg _ hnames.1, himgA, hname]
          simp [registeredImage]
        · intro hk
          have := hfadd _ hk
          rw [haddA, GoMap.mem_keys_delete] at this
          exact this.2 hname.symm
      · exact hdone q hq
    · intro name hn
      simp only [List.map_cons, List.mem_cons, not_or] at hn
      rw [hfimg name hn.2, himgA, hname, if_neg hn.1]
    · intro i hi
      simp only [List.map_cons, List.mem_cons, not_or] at hi
      rw [hfcont i hi.2, hcontA]
      have : ¬ i = (registeredImage p.1).pos := hi.1
      rw [if_neg this]
    · intro k hk
      have := hfadd k hk
      rw [haddA, GoMap.mem_keys_delete] at this
      exact this.1

/-- C15 (counterexample): both containers of scenario S2 report the image
`/dev/mapper/img0`. After `containerCreated` has run for both, the registry holds one
image, and after `blockdevInserted` has run for it the first container's `Image` is still
empty: only the second container received the device name `sda`. -/
theorem images_shared_name :
    ∃ c1 c2 vm, containersCreated id [sampleCreated, sharedCreated] s2Ctx = .ok c1 ∧
      c1.devices.imageMap.keys = ["/dev/mapper/img0"] ∧
      blockdevsInserted id [imageInserted] c1 = .ok c2 ∧ c2.vmSpec = some vm ∧
      vm.Containers.map (fun c => c.Image) = ["", "sda"] :=
  ⟨_, _, _, rfl, rfl, rfl, rfl, rfl⟩

/-- C15 (amended): take containers with root file systems other than "dir" whose
`ContainerCreated` events report pairwise distinct image names, and one
`BlockdevInserted` event of source type "image" for each of these images. When
`containerCreated` has run for each container (in any order) and then `blockdevInserted`
for each image, both runs return; the images registered are those of the events (besides
the ones registered before); every such container's `Image` is the device name reported
for its image; the image entry records that device name, the SCSI id and the container;
and no image name is left in `adding.blockdevs`. -/
theorem images_inserted (ordE : RangeOrder String String) (ordI : RangeOrder Int String)
    (ps : List (ContainerCreatedEvent × BlockdevInsertedEvent))
    (crs : List ContainerCreatedEvent) (ctx : QemuContext) (vm : VmPod)
    (hlock : ctx.lock = false) (hvm : ctx.vmSpec = some vm)
    (hperm : crs.Perm (ps.map Prod.fst))
    (hnames : (ps.map (fun p => p.1.Image)).Nodup)
    (hidxs : (ps.map (fun p => p.1.Index)).Nodup)
    (hev : ∀ p ∈ ps, p.1.Fstype ≠ "dir" ∧ (getIdx vm.Containers p.1.Index).isSome ∧
      p.2.SourceType = "image" ∧ p.2.Name = p.1.Image) :
    ∃ c1 c2 vm2, containersCreated ordE crs ctx = .ok c1 ∧
      (∀ name, name ∈ c1.devices.imageMap.keys ↔
        name ∈ ctx.devices.imageMap.keys ∨ ∃ p ∈ ps, name = p.1.Image) ∧
      blockdevsInserted ordI (ps.map Prod.snd) c1 = .ok c2 ∧ c2.vmSpec = some vm2 ∧
      ∀ p ∈ ps,
        (∃ c, getIdx vm2.Containers p.1.Index = some c ∧ c.Image = p.2.DeviceName) ∧
        c2.devices.imageMap.get? p.1.Image = some
          (imageInfo.mk (blockDescriptor.mk p.1.Image p.1.Image "raw" p.1.Fstype
            p.2.DeviceName p.2.ScsiId) p.1.Index) ∧
        p.1.Image ∉ c2.progress.adding.blockdevs.keys := by
  have hmem : ∀ cr, cr ∈ crs ↔ ∃ p ∈ ps, p.1 = cr := by
    intro cr
    rw [hperm.mem_iff, List.mem_map]
  have hnames1 : (crs.map (fun cr => cr.Image)).Nodup := by
    have hp : (crs.map (fun cr => cr.Image)).Perm (ps.map (fun p => p.1.Image)) := by
      have := hperm.map (fun cr => cr.Image)
      rwa [List.map_map] at this
    exact hp.nodup_iff.mpr hnames
  obtain ⟨c1, vm1, hrun1, hl1, hvm1, hsome1, himg1, hframe1⟩ :=
    containersCreated_images ordE crs ctx vm hlock hvm
      (fun cr hcr => by
        obtain ⟨p, hp, rfl⟩ := (hmem cr).mp hcr
        exact ⟨(hev p hp).1, (hev p hp).2.1⟩)
      hnames1
  obtain ⟨c2, vm2, hrun2, -, hvm2, hdone, -, -, -⟩ :=
    blockdevsInserted_images ordI ps c1 vm1 hl1 hvm1 hnames hidxs
      (fun p hp => ⟨(hev p hp).2.2.1, (hev p hp).2.2.2,
        himg1 p.1 ((hmem p.1).mpr ⟨p, hp, rfl⟩), by
          rw [hsome1]; exact (hev p hp).2.1⟩)
  refine ⟨c1, c2, vm2, hrun1, ?_, hrun2, hvm2, hdone⟩
  intro name
  by_cases hn : ∃ p ∈ ps, name = p.1.Image
  · obtain ⟨p, hp, rfl⟩ := hn
    rw [GoMap.mem_keys_iff_get?, himg1 p.1 ((hmem p.1).mpr ⟨p, hp, rfl⟩)]
    simp only [ne_eq, reduceCtorEq, not_false_eq_true, true_iff]
    exact Or.inr ⟨p, hp, rfl⟩
  · have hnot : name ∉ crs.map (fun cr => cr.Image) := by
      intro h
      obtain ⟨cr, hcr, rfl⟩ := List.mem_map.mp h
      obtain ⟨p, hp, rfl⟩ := (hmem cr).mp hcr
      exact hn ⟨p, hp, rfl⟩
    rw [GoMap.mem_keys_iff_get?, hframe1 name hnot, ← GoMap.mem_keys_iff_get?]
    simp only [hn, or_false]

/-- C15 (amended), on scenario S2 with the images `/dev/mapper/img0` and
`/dev/mapper/img1`, the second container created first. -/
theorem images_inserted_witness :
    ∃ c1 c2 vm2, containersCreated id [ownCreated, sampleCreated] s2Ctx = .ok c1 ∧
      (∀ name, name ∈ c1.devices.imageMap.keys ↔
        name ∈ s2Ctx.devices.imageMap.keys ∨
          ∃ p ∈ [(sampleCreated, imageInserted), (ownCreated, ownInserted)],
            name = p.1.Image) ∧
      blockdevsInserted id
        ([(sampleCreated, imageInserted), (ownCreated, ownInserted)].map Prod.snd) c1 =
          .ok c2 ∧ c2.vmSpec = some vm2 ∧
      ∀ p ∈ [(sampleCreated, imageInserted), (ownCreated, ownInserted)],
        (∃ c, getIdx vm2.Containers p.1.Index = some c ∧ c.Image = p.2.DeviceName) ∧
        c2.devices.imageMap.get? p.1.Image = some
          (imageInfo.mk (blockDescriptor.mk p.1.Image p.1.Image "raw" p.1.Fstype
            p.2.DeviceName p.2.ScsiId) p.1.Index) ∧
        p.1.Image ∉ c2.progress.adding.blockdevs.keys :=
  images_inserted id id [(sampleCreated, imageInserted), (ownCreated, ownInserted)]
    [ownCreated, sampleCreated] s2Ctx s2Pod rfl rfl (List.Perm.swap _ _ _) (by decide)
    (by decide) (by
      intro p hp
      simp only [List.mem_cons, List.mem_singleton, List.not_mem_nil, or_false] at hp
      rcases hp with rfl | rfl
      · exact ⟨by decide, rfl, rfl, rfl⟩
      · exact ⟨by decide, rfl, rfl, rfl⟩)

/-! ### Events delivered twice -/

theorem GoMap.set_set_self {K V : Type} [DecidableEq K] (m : GoMap K V) (k : K) (v : V) :
    (m.set k v).set k v = m.set k v := by
  induction m with
  | nil => simp [GoMap.set]
  | cons e rest ih =>
    obtain ⟨k', v'⟩ := e
    by_cases h : k' = k
    · simp [GoMap.set, h]
    · simp [GoMap.set, h, ih]

theorem GoMap.contains_delete_self {K V : Type} [DecidableEq K] (m : GoMap K V) (k : K) :
    (m.delete k).contains k = false := by
  have h : ¬ ((m.delete k).contains k = true) := by
    rw [GoMap.contains_iff, GoMap.mem_keys_delete]
    exact fun h => h.2 rfl
  simpa using h

theorem setIdx_setIdx_self {α : Type} (s : List α) (i : Int) (x : α) :
    setIdx (setIdx s i x) i x = setIdx s i x := by
  unfold setIdx
  split
  · rfl
  · exact List.set_set _ _ _ _

/-- Moving a network to `finished` a second time changes nothing. -/
theorem finishNetwork_idem (ctx : QemuContext) (i : Int) :
    (ctx.finishNetwork i).finishNetwork i = ctx.finishNetwork i := by
  cases ctx
  simp only [QemuContext.finishNetwork, QemuContext.modFinished, QemuContext.modAdding]
  split
  · simp [GoMap.set_set_self, GoMap.contains_delete_self]
  · simp_all [GoMap.set_set_self]

/-- Moving a block device to `finished` a second time changes nothing. -/
theorem finishBlockdev_idem (ctx : QemuContext) (name : String) :
    (ctx.finishBlockdev name).finishBlockdev name = ctx.finishBlockdev name := by
  cases ctx
  simp only [QemuContext.finishBlockdev, QemuContext.modFinished, QemuContext.modAdding]
  split
  · simp [GoMap.set_set_self, GoMap.contains_delete_self]
  · simp_all [GoMap.set_set_self]

theorem Lock_Unlock (c : QemuContext) (h : c.lock = true) : c.Unlock.Lock = .ok c := by
  cases c
  simp only [QemuContext.Lock, QemuContext.Unlock] at *
  subst h
  rfl

theorem finishNetwork_vmSpec (ctx : QemuContext) (v : Option VmPod) (i : Int) :
    ({ ctx with vmSpec := v } : QemuContext).finishNetwork i =
      { ctx.finishNetwork i with vmSpec := v } := by
  simp only [QemuContext.finishNetwork, QemuContext.modFinished, QemuContext.modAdding]
  split <;> rfl

theorem finishNetwork_lock (ctx : QemuContext) (i : Int) :
    (ctx.finishNetwork i).lock = ctx.lock := by
  simp only [QemuContext.finishNetwork, QemuContext.modFinished, QemuContext.modAdding]
  split <;> rfl

/-- A `NetDevInserted` event delivered again right after its first delivery returns the
context unchanged. -/
theorem netdevInserted_again (ctx c1 : QemuContext) (info : NetDevInsertedEvent)
    (h : ctx.netdevInserted info = .ok c1) : c1.netdevInserted info = .ok c1 := by
  have hl : ctx.lock = false := by
    cases hl : ctx.lock
    · rfl
    · simp [QemuContext.netdevInserted, QemuContext.Lock, hl] at h
  obtain ⟨cF, hcF⟩ : ∃ cF, cF = ({ ctx with lock := true } : QemuContext).finishNetwork info.Index :=
    ⟨_, rfl⟩
  have hidem : cF.finishNetwork info.Index = cF := by rw [hcF, finishNetwork_idem]
  have hlF : cF.lock = true := by rw [hcF, finishNetwork_lock]
  simp only [QemuContext.netdevInserted, QemuContext.Lock, hl, Bool.false_eq_true, if_false,
    ← hcF] at h
  clear hcF hl
  by_cases hlen : (cF.progress.adding.networks.len == 0) = true
  · rw [if_pos hlen] at h
    cases hb : QemuContext.buildNetwork cF.devices.networkMap with
    | error e => rw [hb] at h; cases h
    | ok res =>
      obtain ⟨infs, routes⟩ := res
      rw [hb] at h
      cases hv : cF.vmSpec with
      | none => rw [hv] at h; cases h
      | some vm =>
        rw [hv] at h
        simp only [Except.ok.injEq] at h
        subst h
        obtain ⟨vm1, hvm1⟩ : ∃ vm1, vm1 = VmPod.mk vm.Hostname vm.Containers (some infs)
          (some routes) vm.Socket vm.ShareDir := ⟨_, rfl⟩
        obtain ⟨cV, hcV⟩ : ∃ cV, cV = ({ cF with vmSpec := some vm1 } : QemuContext) :=
          ⟨_, rfl⟩
        have hidemV : cV.finishNetwork info.Index = cV := by
          rw [hcV, finishNetwork_vmSpec, hidem]
        have hlV : cV.lock = true := by rw [hcV]; exact hlF
        have hpV : cV.progress = cF.progress := by rw [hcV]
        have hdV : cV.devices = cF.devices := by rw [hcV]
        have hvV : cV.vmSpec = some vm1 := by rw [hcV]
        have hgoal : cV.Unlock.netdevInserted info = .ok cV.Unlock := by
          unfold QemuContext.netdevInserted
          rw [Lock_Unlock cV hlV]
          simp only [hidemV, hpV, hdV, hlen, if_true, hb, hvV]
          congr 2
          rw [hcV, hvm1]
        rw [hcV, hvm1] at hgoal
        exact hgoal
  · rw [if_neg hlen] at h
    simp only [Except.ok.injEq] at h
    subst h
    unfold QemuContext.netdevInserted
    rw [Lock_Unlock cF hlF]
    simp only [hidem, hlen]
    rfl

theorem GoMap.set_of_get? {K V : Type} [DecidableEq K] (m : GoMap K V) (k : K) (v : V)
    (h : m.get? k = some v) : m.set k v = m := by
  induction m with
  | nil => simp [GoMap.get?] at h
  | cons e rest ih =>
    obtain ⟨k', v'⟩ := e
    by_cases hk : k' = k
    · subst hk
      simp only [GoMap.get?, if_true, Option.some.injEq] at h
      simp [GoMap.set, h]
    · simp only [GoMap.get?, hk, if_false] at h
      simp [GoMap.set, hk, ih h]

theorem setIdx_of_getIdx {α : Type} (s : List α) (i : Int) (x : α)
    (h : getIdx s i = some x) : setIdx s i x = s := by
  unfold getIdx at h
  unfold setIdx
  by_cases hi : i < 0
  · simp [hi]
  · simp only [hi, if_false] at h ⊢
    rw [List.get?_eq_getElem?] at h
    apply List.ext_getElem? fun n => ?_
    rw [List.getElem?_set]
    split
    · rename_i hn
      subst hn
      rw [h]
      have hlt : i.toNat < s.length := by
        rcases Nat.lt_or_ge i.toNat s.length with hlt | hge
        · exact hlt
        · rw [List.getElem?_eq_none hge] at h
          cases h
      simp [hlt]
    · rfl

theorem finishBlockdev_fields (ctx : QemuContext) (name : String) :
    (ctx.finishBlockdev name).lock = ctx.lock ∧
      (ctx.finishBlockdev name).devices = ctx.devices ∧
      (ctx.finishBlockdev name).vmSpec = ctx.vmSpec := by
  simp only [QemuContext.finishBlockdev, QemuContext.modFinished, QemuContext.modAdding]
  split <;> exact ⟨rfl, rfl, rfl⟩

/-- A context whose image entry and owning container already hold the reported device is
left as it is by lines 374-392 of `blockdevInserted`. -/
theorem recordBlockdev_image_fix (ord : RangeOrder Int String) (x : QemuContext)
    (info : BlockdevInsertedEvent) (img : imageInfo) (vm : VmPod) (c : VmContainer)
    (ht : info.SourceType = "image")
    (himg : x.devices.imageMap.get? info.Name = some img)
    (hdev : img.info.deviceName = info.DeviceName) (hscsi : img.info.scsiId = info.ScsiId)
    (hvm : x.vmSpec = some vm) (hc : getIdx vm.Containers img.pos = some c)
    (hci : c.Image = info.DeviceName) : x.recordBlockdev ord info = .ok x := by
  obtain ⟨xid, xcpu, xmem, xpci, xscsi, xatt, xk, xi, xt, xts, xq, xd, xty, xco, xsh, xh, xu,
    xvm, ⟨imap, vmap, nmap⟩, xp, xl⟩ := x
  obtain ⟨⟨n, f, fm, fs, d, sid⟩, pos⟩ := img
  obtain ⟨h1, cs, h3, h4, h5, h6⟩ := vm
  simp only at himg hdev hscsi hvm hc
  subst hdev hscsi hvm
  have hcc : ({ c with Image := info.DeviceName } : VmContainer) = c := by
    cases c
    simp only at hci
    subst hci
    rfl
  simp only [QemuContext.recordBlockdev, ht, beq_self_eq_true, if_true, himg,
    QemuContext.modDevices, hc, QemuContext.putContainer, hcc, setIdx_of_getIdx _ _ _ hc,
    GoMap.set_of_get? _ _ _ himg]

/-- A `BlockdevInserted` event of an image delivered again right after its first
delivery returns the context unchanged. -/
theorem blockdevInserted_image_again (ord : RangeOrder Int String) (ctx c1 : QemuContext)
    (info : BlockdevInsertedEvent) (ht : info.SourceType = "image")
    (h : ctx.blockdevInserted ord info = .ok c1) : c1.blockdevInserted ord info = .ok c1 := by
  have hl : ctx.lock = false := by
    cases hl : ctx.lock
    · rfl
    · simp [QemuContext.blockdevInserted, QemuContext.Lock, hl] at h
  simp only [QemuContext.blockdevInserted, QemuContext.Lock, hl, Bool.false_eq_true,
    if_false] at h
  cases hr : ({ ctx with lock := true } : QemuContext).recordBlockdev ord info with
  | error e => rw [hr] at h; cases h
  | ok cR =>
    rw [hr] at h
    simp only [Except.ok.injEq] at h
    subst h
    have facts : cR.lock = true ∧ ∃ img vm c,
        cR.devices.imageMap.get? info.Name = some img ∧
        img.info.deviceName = info.DeviceName ∧ img.info.scsiId = info.ScsiId ∧
        cR.vmSpec = some vm ∧ getIdx vm.Containers img.pos = some c ∧
        c.Image = info.DeviceName := by
      simp only [QemuContext.recordBlockdev, ht, beq_self_eq_true, if_true,
        QemuContext.modDevices] at hr
      cases hi : ctx.devices.imageMap.get? info.Name with
      | none => rw [hi] at hr; cases hr
      | some img0 =>
        rw [hi] at hr
        simp only at hr
        cases hv : ctx.vmSpec with
        | none => rw [hv] at hr; cases hr
        | some vm0 =>
          rw [hv] at hr
          simp only at hr
          cases hc0 : getIdx vm0.Containers img0.pos with
          | none => rw [hc0] at hr; cases hr
          | some c0 =>
            rw [hc0] at hr
            simp only [Except.ok.injEq, QemuContext.putContainer] at hr
            subst hr
            refine ⟨rfl, _, _, { c0 with Image := info.DeviceName },
              GoMap.get?_set_self _ _ _, rfl, rfl, rfl, ?_, rfl⟩
            exact getIdx_setIdx_self _ _ _ _ hc0
    obtain ⟨hlR, img, vm, c, himg, hdev, hscsi, hvm, hc, hci⟩ := facts
    obtain ⟨hxl, hxd, hxv⟩ := finishBlockdev_fields cR info.Name
    unfold QemuContext.blockdevInserted
    rw [Lock_Unlock _ (hxl.trans hlR)]
    simp only
    rw [recordBlockdev_image_fix ord _ info img vm c ht (by rw [hxd]; exact himg) hdev hscsi
      (by rw [hxv]; exact hvm) hc hci]
    simp only [finishBlockdev_idem]

theorem netdevInserted_recorded (ctx c1 : QemuContext) (info : NetDevInsertedEvent)
    (h : ctx.netdevInserted info = .ok c1) :
    c1.progress.finished.networks.contains info.Index = true := by
  have hl : ctx.lock = false := by
    cases hl : ctx.lock
    · rfl
    · simp [QemuContext.netdevInserted, QemuContext.Lock, hl] at h
  obtain ⟨cF, hcF⟩ : ∃ cF, cF = ({ ctx with lock := true } : QemuContext).finishNetwork info.Index :=
    ⟨_, rfl⟩
  have hfin : cF.progress.finished.networks.contains info.Index = true := by
    rw [hcF, GoMap.contains_iff]
    simp only [QemuContext.finishNetwork, QemuContext.modFinished, QemuContext.modAdding]
    split <;> exact (GoMap.mem_keys_set _ _ _ _).mpr (Or.inl rfl)
  simp only [QemuContext.netdevInserted, QemuContext.Lock, hl, Bool.false_eq_true, if_false,
    ← hcF] at h
  split at h
  · split at h
    · cases h
    · split at h
      · cases h
      · simp only [Except.ok.injEq] at h
        subst h
        exact hfin
  · simp only [Except.ok.injEq] at h
    subst h
    exact hfin

theorem blockdevInserted_image_recorded (ord : RangeOrder Int String) (ctx c1 : QemuContext)
    (info : BlockdevInsertedEvent) (h : ctx.blockdevInserted ord info = .ok c1) :
    c1.progress.finished.blockdevs.contains info.Name = true := by
  simp only [QemuContext.blockdevInserted] at h
  split at h
  · cases h
  · split at h
    · cases h
    · simp only [Except.ok.injEq] at h
      subst h
      rw [GoMap.contains_iff]
      simp only [QemuContext.finishBlockdev, QemuContext.modFinished, QemuContext.modAdding,
        QemuContext.Unlock]
      split <;> exact (GoMap.mem_keys_set _ _ _ _).mpr (Or.inl rfl)

/-- C16 (counterexample): four states in which a completion event is recorded in
`progress.finished` and its second delivery changes the pod. In S2 the repeated
`BlockdevInserted` of `v1` gives the first container a second volume entry; in the
directory variant the repeated `VolumeReady` gives it a second directory mount; the
repeated `ContainerCreated` puts the entry point in front of the command line once more;
and after interface 0 was announced again, the repeated `NetDevInserted` replaces the
interface list and the route table. -/
theorem duplicate_events_change_pod :
    (recorded s2Done (.blockdevInserted s2Inserted) = true ∧
      containerView s2Done 0 =
        some ([{ Device := "sda", Mount := "/data", Fstype := "xfs", ReadOnly := false }],
          [], []) ∧
      (deliver id id s2Done (.blockdevInserted s2Inserted)).map (fun c => containerView c 0) =
        .ok (some ([{ Device := "sda", Mount := "/data", Fstype := "xfs", ReadOnly := false },
                    { Device := "sda", Mount := "/data", Fstype := "xfs", ReadOnly := false }],
          [], []))) ∧
    (recorded s2DirDone (.volumeReady s2DirReady) = true ∧
      containerView s2DirDone 0 =
        some ([], [{ Source := "/var/run/dvm/vm-abcdefghij/share_dir/v1", Path := "/data",
                     ReadOnly := false }], []) ∧
      (deliver id id s2DirDone (.volumeReady s2DirReady)).map (fun c => containerView c 0) =
        .ok (some ([], [{ Source := "/var/run/dvm/vm-abcdefghij/share_dir/v1", Path := "/data",
                          ReadOnly := false },
                        { Source := "/var/run/dvm/vm-abcdefghij/share_dir/v1", Path := "/data",
                          ReadOnly := false }], []))) ∧
    (recorded s2Created (.containerCreated sharedCreated) = true ∧
      containerView s2Created 1 = some ([], [], ["/bin/sh", "-c", "true"]) ∧
      (deliver id id s2Created (.containerCreated sharedCreated)).map
          (fun c => containerView c 1) =
        .ok (some ([], [], ["/bin/sh", "/bin/sh", "-c", "true"]))) ∧
    (recorded oneNetChanged (.netdevInserted { Index := 0 }) = true ∧
      networkTables oneNetChanged =
        some (some [{ Device := "eth0", IpAddress := "192.168.123.2",
                      NetMask := "255.255.255.0" }],
              some [{ Dest := "0.0.0.0/0", Gateway := "192.168.123.1", Device := "eth0" }]) ∧
      (deliver id id oneNetChanged (.netdevInserted { Index := 0 })).map networkTables =
        .ok (some (some [{ Device := "eth9", IpAddress := "192.168.9.2",
                           NetMask := "255.255.255.0" }], some []))) :=
  ⟨⟨rfl, rfl, rfl⟩, ⟨rfl, rfl, rfl⟩, ⟨rfl, rfl, rfl⟩, ⟨rfl, rfl, rfl⟩⟩

/-- C16 (amended): a `NetDevInserted` event, or the `BlockdevInserted` event of an
image, that is delivered again right after its first delivery is tolerated. The first
delivery records the event in `progress.finished`; the second one returns and leaves the
context as it is, so the pod `vmSpec` and the value of `deviceReady()` are unchanged. -/
theorem duplicate_delivery_tolerated (ordE : RangeOrder String String)
    (ordI : RangeOrder Int String) (ctx c1 : QemuContext) (ev : CompletionEvent)
    (hkind : ev.netdevOrImage = true) (h : deliver ordE ordI ctx ev = .ok c1) :
    recorded c1 ev = true ∧
      ∃ c2, deliver ordE ordI c1 ev = .ok c2 ∧ c2 = c1 ∧ c2.vmSpec = c1.vmSpec ∧
        c2.deviceReady = c1.deviceReady := by
  cases ev with
  | containerCreated e => cases hkind
  | volumeReady e => cases hkind
  | blockdevInserted e =>
    have ht : e.SourceType = "image" := by simpa [CompletionEvent.netdevOrImage] using hkind
    exact ⟨blockdevInserted_image_recorded ordI ctx c1 e h, c1,
      blockdevInserted_image_again ordI ctx c1 e ht h, rfl, rfl, rfl⟩
  | netdevInserted e =>
    exact ⟨netdevInserted_recorded ctx c1 e h, c1, netdevInserted_again ctx c1 e h, rfl, rfl,
      rfl⟩

/-- C16 (amended), on scenario S3: the event that completes the batch of two networks is
delivered a second time. -/
theorem duplicate_delivery_tolerated_witness :
    recorded (orElse (s3Pending.netdevInserted { Index := 0 }) freshCtx)
        (.netdevInserted { Index := 0 }) = true ∧
      ∃ c2, deliver id id (orElse (s3Pending.netdevInserted { Index := 0 }) freshCtx)
          (.netdevInserted { Index := 0 }) = .ok c2 ∧
        c2 = orElse (s3Pending.netdevInserted { Index := 0 }) freshCtx ∧
        c2.vmSpec = (orElse (s3Pending.netdevInserted { Index := 0 }) freshCtx).vmSpec ∧
        c2.deviceReady =
          (orElse (s3Pending.netdevInserted { Index := 0 }) freshCtx).deviceReady :=
  duplicate_delivery_tolerated id id s3Pending _ (.netdevInserted { Index := 0 }) rfl rfl

/-! ### Close -/

theorem mem_unlink (p : String) (paths : List (String × PathKind)) (e : String × PathKind) :
    e ∈ unlink p paths ↔ e ∈ paths ∧ ¬ (e.1 = p ∧ e.2 = PathKind.file) := by
  simp only [unlink, List.mem_filter, Bool.not_eq_true', Bool.and_eq_false_iff, beq_iff_eq,
    beq_eq_false_iff_ne, ne_eq, not_and_or]

theorem mem_osRemove (p : String) (paths : List (String × PathKind))
    (e : String × PathKind) (h : e ∈ osRemove p paths) :
    e ∈ paths ∧ ¬ (e.1 = p ∧ e.2 = PathKind.file) := by
  simp only [osRemove, List.mem_filter, Bool.not_eq_true', Bool.and_eq_false_imp,
    beq_iff_eq, Bool.or_eq_false_iff, beq_eq_false_iff_ne] at h
  refine ⟨h.1, fun hh => ?_⟩
  exact (h.2 hh.1).1 hh.2

theorem mem_osRemoveAll (p : String) (paths : List (String × PathKind))
    (e : String × PathKind) :
    e ∈ osRemoveAll p paths ↔ e ∈ paths ∧ e.1 ≠ p ∧ beneath p e.1 = false := by
  simp [osRemoveAll]

/-- The host after lines 515-526 of `Close` on a live context. -/
theorem closeSteps_run (ctx : QemuContext) (h : Host) (hlive : Live ctx h) :
    ∃ h', run (closeSteps ctx) (ctx, h) = .ok ({ ctx with lock := true }, h') ∧
      (∀ c, h'.chanOpen c = false) ∧ (∀ s, (h'.sock s).listening = false) ∧
      h'.paths = osRemoveAll ctx.shareDir (osRemove ctx.consoleSockName
        (osRemove ctx.qmpSockName (osRemove ctx.dvmSockName (unlink ctx.ttySockName
          (unlink ctx.dvmSockName (unlink ctx.qmpSockName h.paths)))))) := by
  have hq := hlive.chans .qmp
  have hv := hlive.chans .vm
  have hw := hlive.chans .wdt
  refine ⟨Host.mk
    (fun x => if x = Chan.wdt then false else if x = Chan.vm then false
      else if x = Chan.qmp then false else h.chanOpen x)
    (fun x => if x = Sock.ttySock then Listener.mk ctx.ttySockName false
      else if x = Sock.dvmSock then Listener.mk ctx.dvmSockName false
      else if x = Sock.qmpSock then Listener.mk ctx.qmpSockName false else h.sock x)
    (osRemoveAll ctx.shareDir (osRemove ctx.consoleSockName
      (osRemove ctx.qmpSockName (osRemove ctx.dvmSockName (unlink ctx.ttySockName
        (unlink ctx.dvmSockName (unlink ctx.qmpSockName h.paths))))))), ?steps, ?chans, ?socks,
    ?paths⟩
  case steps =>
    simp only [run, closeSteps, forEach, perform, QemuContext.Lock, hlive.lock,
      Bool.false_eq_true, if_false, Except.map, hq, hv, hw, if_true, reduceCtorEq,
      hlive.qmpSock, hlive.dvmSock, hlive.ttySock]
  case chans =>
    intro c
    cases c <;> simp
  case socks =>
    intro s
    cases s <;> simp
  case paths => rfl

/-- C17: `Close()` on a live context returns. Afterwards the three listeners (QMP,
guest agent, tty) no longer listen, no file exists at any of the four socket paths, no
path at or beneath the share directory exists, and the handler is nil. The handler is
cleared last: when lines 515-526 have run, the host is already in its final state and the
handler is still set; what remains is `ctx.handler = nil` and the deferred `Unlock`. The
context is otherwise unchanged. The file at `ttySockName` is removed by the `Close` of
the tty listener, the one at `consoleSockName` by `os.Remove`. -/
theorem Close_effect (ctx : QemuContext) (h : Host) (hlive : Live ctx h) :
    ∃ mid ctx' h', run (closeSteps ctx) (ctx, h) = .ok (mid, h') ∧ mid.handlerSet = true ∧
      run [.clearHandler, .unlock] (mid, h') = .ok (ctx', h') ∧
      ctx.Close h = .ok (ctx', h') ∧
      (∀ s, (h'.sock s).listening = false) ∧
      (∀ name ∈ [ctx.qmpSockName, ctx.dvmSockName, ctx.ttySockName, ctx.consoleSockName],
        (name, PathKind.file) ∉ h'.paths) ∧
      (∀ e ∈ h'.paths, e.1 ≠ ctx.shareDir ∧ beneath ctx.shareDir e.1 = false) ∧
      ctx'.handlerSet = false ∧ ctx' = { ctx with handlerSet := false } := by
  obtain ⟨h', hsteps, -, hsocks, hpaths⟩ := closeSteps_run ctx h hlive
  have hlock := hlive.lock
  have hfile : ∀ name ∈ [ctx.qmpSockName, ctx.dvmSockName, ctx.ttySockName,
      ctx.consoleSockName], (name, PathKind.file) ∉ h'.paths := by
    intro name hname hmem
    rw [hpaths] at hmem
    have h1 := ((mem_osRemoveAll _ _ _).mp hmem).1
    obtain ⟨h2, n2⟩ := mem_osRemove _ _ _ h1
    obtain ⟨h3, n3⟩ := mem_osRemove _ _ _ h2
    obtain ⟨h4, n4⟩ := mem_osRemove _ _ _ h3
    obtain ⟨h5, n5⟩ := (mem_unlink _ _ _).mp h4
    obtain ⟨h6, n6⟩ := (mem_unlink _ _ _).mp h5
    obtain ⟨-, n7⟩ := (mem_unlink _ _ _).mp h6
    simp only [List.mem_cons, List.mem_singleton, List.not_mem_nil, or_false] at hname
    rcases hname with rfl | rfl | rfl | rfl
    · exact n7 ⟨rfl, rfl⟩
    · exact n6 ⟨rfl, rfl⟩
    · exact n5 ⟨rfl, rfl⟩
    · exact n2 ⟨rfl, rfl⟩
  refine ⟨{ ctx with lock := true }, { ctx with handlerSet := false }, h', hsteps, hlive.handler,
    ?_, ?_, hsocks, hfile, ?_, rfl, rfl⟩
  · cases ctx
    simp only at hlock
    subst hlock
    rfl
  · unfold QemuContext.Close run
    rw [forEach_append]
    unfold run at hsteps
    rw [hsteps]
    cases ctx
    simp only at hlock
    subst hlock
    rfl
  · intro e he
    rw [hpaths] at he
    exact ((mem_osRemoveAll _ _ _).mp he).2

/-- C17 on the context `freshCtx` with its sockets bound and a volume in the share
directory. -/
theorem Close_effect_witness :
    Live freshCtx liveHost ∧
    ∃ mid ctx' h', run (closeSteps freshCtx) (freshCtx, liveHost) = .ok (mid, h') ∧
      mid.handlerSet = true ∧
      run [.clearHandler, .unlock] (mid, h') = .ok (ctx', h') ∧
      freshCtx.Close liveHost = .ok (ctx', h') ∧
      (∀ s, (h'.sock s).listening = false) ∧
      (∀ name ∈ [freshCtx.qmpSockName, freshCtx.dvmSockName, freshCtx.ttySockName,
          freshCtx.consoleSockName], (name, PathKind.file) ∉ h'.paths) ∧
      (∀ e ∈ h'.paths, e.1 ≠ freshCtx.shareDir ∧ beneath freshCtx.shareDir e.1 = false) ∧
      ctx'.handlerSet = false ∧ ctx' = { freshCtx with handlerSet := false } :=
  ⟨⟨rfl, rfl, fun _ => rfl, rfl, rfl, rfl⟩,
   Close_effect freshCtx liveHost ⟨rfl, rfl, fun _ => rfl, rfl, rfl, rfl⟩⟩

/-! ### The lock and I/O -/

theorem quietFrom_of_no_io (l : List Action) (d : Nat)
    (h : ∀ a ∈ l, a.sendOrIO = false) : quietFrom d l = true := by
  induction l generalizing d with
  | nil => rfl
  | cons a rest ih =>
    have hrest : ∀ b ∈ rest, b.sendOrIO = false := fun b hb => h b (List.mem_cons_of_mem _ hb)
    have ha := h a (List.mem_cons_self _ _)
    cases a <;> simp_all [quietFrom, Action.sendOrIO]

theorem quietFrom_of_no_lock (l : List Action) (h : ∀ a ∈ l, a ≠ Action.lock) :
    quietFrom 0 l = true := by
  induction l with
  | nil => rfl
  | cons a rest ih =>
    have hrest : ∀ b ∈ rest, b ≠ Action.lock := fun b hb => h b (List.mem_cons_of_mem _ hb)
    have ha := h a (List.mem_cons_self _ _)
    cases a <;> simp_all [quietFrom]

/-- Every operation other than `Close` either has no send or I/O step, or never takes
the lock. -/
theorem trace_shape (ctx : QemuContext) (op : Op) (hop : op ≠ Op.Close) :
    (∀ a ∈ op.trace ctx, a.sendOrIO = false) ∨ (∀ a ∈ op.trace ctx, a ≠ Action.lock) := by
  cases op with
  | Close => exact absurd rfl hop
  | clientDereg tag =>
    left
    intro a ha
    simp only [Op.trace] at ha
    split at ha
    · simp at ha
    · simp only [List.mem_cons, List.mem_singleton, List.not_mem_nil, or_false] at ha
      rcases ha with rfl | rfl <;> rfl
  | releaseVolumeDir =>
    left
    intro a ha
    simp only [Op.trace, List.mem_map] at ha
    obtain ⟨_, _, rfl⟩ := ha
    rfl
  | removeDMDevice =>
    left
    intro a ha
    simp only [Op.trace, List.mem_append, List.mem_map] at ha
    rcases ha with ⟨_, _, rfl⟩ | ⟨_, _, rfl⟩ <;> rfl
  | releaseAufsDir =>
    left
    intro a ha
    simp only [Op.trace] at ha
    split at ha
    · simp at ha
    · simp only [List.mem_map] at ha
      obtain ⟨_, _, rfl⟩ := ha
      rfl
  | removeVolumeDrive =>
    right
    intro a ha
    simp only [Op.trace, List.mem_map] at ha
    obtain ⟨_, _, rfl⟩ := ha
    simp
  | removeImageDrive =>
    right
    intro a ha
    simp only [Op.trace, List.mem_map] at ha
    obtain ⟨_, _, rfl⟩ := ha
    simp
  | QemuArguments =>
    right
    intro a ha
    simp only [Op.trace, List.mem_singleton] at ha
    subst ha
    simp
  | InitDeviceContext spec =>
    left
    intro a ha
    simp only [Op.trace, List.mem_append, List.mem_singleton] at ha
    rcases ha with (rfl | ha) | rfl
    · rfl
    · split at ha
      · simp only [List.mem_flatMap, List.mem_cons, List.mem_singleton, List.not_mem_nil,
          or_false] at ha
        obtain ⟨_, _, rfl | rfl⟩ := ha <;> rfl
      · simp at ha
    · rfl
  | deviceReady =>
    left
    intro a ha
    simp [Op.trace] at ha
  | Lookup =>
    left
    intro a ha
    simp [Op.trace] at ha
  | _ =>
    left
    intro a ha
    simp only [Op.trace, List.mem_cons, List.mem_singleton, List.not_mem_nil, or_false] at ha
    rcases ha with rfl | rfl <;> rfl

/-- C18 (counterexample): `Close` takes the lock first and releases it last; the three
channel closes, the three socket closes and the four file-system operations all occur
while it is held. -/
theorem Close_holds_lock_during_io :
    Op.trace freshCtx .Close =
      [.lock, .closeChan .qmp, .closeChan .vm, .closeChan .wdt, .closeSock .qmpSock,
       .closeSock .dvmSock, .closeSock .ttySock,
       .remove "/var/run/dvm/vm-abcdefghij/dvm.sock",
       .remove "/var/run/dvm/vm-abcdefghij/qmp.sock",
       .remove "/var/run/dvm/vm-abcdefghij/console.sock",
       .removeAll "/var/run/dvm/vm-abcdefghij/share_dir", .clearHandler, .unlock] ∧
      freshCtx.Close liveHost = run (Op.trace freshCtx .Close) (freshCtx, liveHost) ∧
      quiet (Op.trace freshCtx .Close) = false ∧
      quiet [.lock, .closeChan .qmp] = false :=
  ⟨rfl, rfl, rfl, rfl⟩

/-- C18 (amended): in every operation of `QemuContext` other than `Close`, the lock is
never held at a point where the operation performs a channel send, a channel close, a
socket close or a file-system operation: in the sequence of its steps, and in every
initial part of it (the operation may stop early), no send or I/O step occurs between a
`Lock` and its matching `Unlock`. -/
theorem lock_not_held_during_io (ctx : QemuContext) (op : Op) (hop : op ≠ Op.Close)
    (pre : List Action) (hpre : pre <+: op.trace ctx) : quiet pre = true := by
  rcases trace_shape ctx op hop with h | h
  · exact quietFrom_of_no_io pre 0 fun a ha => h a (hpre.subset ha)
  · exact quietFrom_of_no_lock pre fun a ha => h a (hpre.subset ha)

/-- C18 (amended), for `removeVolumeDrive` on scenario S2: one send on the QMP channel
for the raw volume `v1`, without the lock. -/
theorem lock_not_held_during_io_witness :
    Op.removeVolumeDrive ≠ Op.Close ∧
      [Action.send Chan.qmp] <+: Op.trace s2Ctx .removeVolumeDrive ∧
      quiet [Action.send Chan.qmp] = true :=
  ⟨nofun, ⟨[], rfl⟩,
    lock_not_held_during_io s2Ctx .removeVolumeDrive nofun [Action.send Chan.qmp] ⟨[], rfl⟩⟩

/-! ### The command line -/

theorem digitValue_digitChar (k : Nat) (hk : k < 10) : digitValue (Nat.digitChar k) = some k := by
  interval_cases k <;> rfl

theorem readDigits_append (xs ys : List Char) (acc : Nat) :
    readDigits acc (xs ++ ys) = (readDigits acc xs).bind fun a => readDigits a ys := by
  induction xs generalizing acc with
  | nil => rfl
  | cons c rest ih =>
    simp only [List.cons_append, readDigits]
    cases digitValue c with
    | none => rfl
    | some d => exact ih _

theorem toDigitsCore_append (f n : Nat) (ds : List Char) :
    Nat.toDigitsCore 10 f n ds = Nat.toDigitsCore 10 f n [] ++ ds := by
  induction f generalizing n ds with
  | zero => simp [Nat.toDigitsCore]
  | succ f ih =>
    simp only [Nat.toDigitsCore]
    split
    · simp
    · rw [ih (n / 10) (Nat.digitChar (n % 10) :: ds), ih (n / 10) [Nat.digitChar (n % 10)]]
      simp

theorem readDigits_toDigitsCore (f n : Nat) (h : n < f) :
    readDigits 0 (Nat.toDigitsCore 10 f n []) = some n := by
  induction f generalizing n with
  | zero => omega
  | succ f ih =>
    have hd := digitValue_digitChar (n % 10) (Nat.mod_lt n (by norm_num))
    simp only [Nat.toDigitsCore]
    split
    · rename_i h0
      have hn : n % 10 = n := Nat.mod_eq_of_lt (by omega)
      rw [hn] at hd ⊢
      simp only [readDigits, hd, Nat.mul_zero, Nat.zero_add]
    · rename_i h0
      rw [toDigitsCore_append, readDigits_append, ih (n / 10) (by omega)]
      simp only [Option.some_bind, readDigits, hd]
      congr 1
      omega

theorem toDigitsCore_ne_nil (f n : Nat) : Nat.toDigitsCore 10 (f + 1) n [] ≠ [] := by
  simp only [Nat.toDigitsCore]
  split
  · simp
  · rw [toDigitsCore_append]
    simp

theorem readDigits_head (c : Char) (rest : List Char) (n : Nat)
    (h : readDigits 0 (c :: rest) = some n) : c ≠ '-' := by
  intro hc
  subst hc
  have : digitValue '-' = none := by decide
  simp [readDigits, this] at h

theorem readDecimal_Itoa (n : Int) : readDecimal (Itoa n) = some n := by
  cases n with
  | ofNat m =>
    have hs : (Itoa (Int.ofNat m)).toList = Nat.toDigitsCore 10 (m + 1) m [] := rfl
    have hr := readDigits_toDigitsCore (m + 1) m (Nat.lt_succ_self m)
    unfold readDecimal
    rw [hs]
    cases hl : Nat.toDigitsCore 10 (m + 1) m [] with
    | nil => exact absurd hl (toDigitsCore_ne_nil m m)
    | cons c rest =>
      rw [hl] at hr
      simp only [readDigits_head c rest m hr, if_false, hr, Option.map_some']
      rfl
  | negSucc m =>
    have hs : (Itoa (Int.negSucc m)).toList =
        '-' :: Nat.toDigitsCore 10 (m + 1 + 1) (m + 1) [] := rfl
    unfold readDecimal
    rw [hs]
    simp only [if_true, toDigitsCore_ne_nil, if_false,
      readDigits_toDigitsCore (m + 1 + 1) (m + 1) (Nat.lt_succ_self _), Option.map_some']
    rfl

/-- C19 (counterexample): the pair of `-append` and `console=ttyS0 panic=1` is not in
the argument list, whether `/dev/kvm` exists or not; the one value that follows `-append`
is `console=ttyS0 panic=1` with a double-quote character in front and one behind. -/
theorem QemuArguments_append_quoted :
    ("-append", "console=ttyS0 panic=1") ∉ pairs (freshCtx.QemuArguments false) ∧
    ("-append", "console=ttyS0 panic=1") ∉ pairs (freshCtx.QemuArguments true) ∧
    ((pairs (freshCtx.QemuArguments false)).filter fun p => p.1 == "-append").map Prod.snd =
      ["\x22console=ttyS0 panic=1\x22"] ∧
    ((pairs (freshCtx.QemuArguments true)).filter fun p => p.1 == "-append").map Prod.snd =
      ["\x22console=ttyS0 panic=1\x22"] ∧
    "\x22console=ttyS0 panic=1\x22".toList =
      '\x22' :: "console=ttyS0 panic=1".toList ++ ['\x22'] := by
  refine ⟨?_, ?_, rfl, rfl, rfl⟩ <;> decide

/-- C19 (amended): for every context, `QemuArguments()` has as neighbours `-m` and a
decimal numeral of the memory size, `-smp` and a decimal numeral of the CPU count,
`-kernel` and `-initrd` and the paths of the context, and `-append` and
`console=ttyS0 panic=1` enclosed in double-quote characters. Among the values after a
`-device` flag there is exactly one `virtio-serial-pci` (at `addr=0x2`), exactly one
`virtio-scsi-pci` (id `scsi0`, at `addr=0x3`), exactly two `virtserialport` (named
`org.getdvm.channel.0` and `org.getdvm.channel.1`) and exactly one `virtio-9p-pci`, on
the fsdev `virtio9p` whose path is the share directory. When `/dev/kvm` exists the list
starts with `-machine pc-i440fx-2.0,accel=kvm,usb=off` and has `-cpu host`; when it does
not, the list has `-machine pc-i440fx-2.0,usb=off` and `-cpu core2duo`. -/
theorem QemuArguments_pairs (ctx : QemuContext) (kvmNotExist : Bool) :
    (∃ m, ("-m", m) ∈ pairs (ctx.QemuArguments kvmNotExist) ∧
      readDecimal m = some ctx.memory) ∧
    (∃ n, ("-smp", n) ∈ pairs (ctx.QemuArguments kvmNotExist) ∧
      readDecimal n = some ctx.cpu) ∧
    ("-kernel", ctx.kernel) ∈ pairs (ctx.QemuArguments kvmNotExist) ∧
    ("-initrd", ctx.initrd) ∈ pairs (ctx.QemuArguments kvmNotExist) ∧
    ("-append", "\x22console=ttyS0 panic=1\x22") ∈ pairs (ctx.QemuArguments kvmNotExist) ∧
    devices "virtio-serial-pci" (ctx.QemuArguments kvmNotExist) =
      ["virtio-serial-pci,id=virtio-serial0,bus=pci.0,addr=0x2"] ∧
    devices "virtio-scsi-pci" (ctx.QemuArguments kvmNotExist) =
      ["virtio-scsi-pci,id=scsi0,bus=pci.0,addr=0x3"] ∧
    devices "virtserialport" (ctx.QemuArguments kvmNotExist) =
      ["virtserialport,bus=virtio-serial0.0,nr=1,chardev=charch0,id=channel0,name=org.getdvm.channel.0",
       "virtserialport,bus=virtio-serial0.0,nr=2,chardev=charch1,id=channel1,name=org.getdvm.channel.1"] ∧
    devices "virtio-9p-pci" (ctx.QemuArguments kvmNotExist) =
      ["virtio-9p-pci,fsdev=virtio9p,mount_tag=share_dir"] ∧
    ("-fsdev", "local,id=virtio9p,path=" ++ ctx.shareDir ++ ",security_model=none") ∈
      pairs (ctx.QemuArguments kvmNotExist) ∧
    (if kvmNotExist then
      ("-machine", "pc-i440fx-2.0,usb=off") ∈ pairs (ctx.QemuArguments kvmNotExist) ∧
        ("-cpu", "core2duo") ∈ pairs (ctx.QemuArguments kvmNotExist)
     else
      (ctx.QemuArguments kvmNotExist).take 2 = ["-machine", "pc-i440fx-2.0,accel=kvm,usb=off"] ∧
        ("-cpu", "host") ∈ pairs (ctx.QemuArguments kvmNotExist)) := by
  refine ⟨⟨Itoa ctx.memory, ?_, readDecimal_Itoa _⟩, ⟨Itoa ctx.cpu, ?_, readDecimal_Itoa _⟩,
    ?_⟩ <;>
  cases kvmNotExist <;>
    simp +decide [QemuContext.QemuArguments, pairs, devices, ShareDir, List.filter_cons]

/-! ### `resetAddr` and the attach ids -/

/-- On an unlocked context `resetAddr` returns, and only `pciAddr` and `scsiId` differ
afterwards. -/
theorem resetAddr_eq (PciAddrFrom : Int) (ctx : QemuContext) (hlock : ctx.lock = false) :
    ctx.resetAddr PciAddrFrom = .ok { ctx with pciAddr := PciAddrFrom, scsiId := 0 } := by
  cases ctx
  simp only at hlock
  subst hlock
  rfl

theorem nextAttachId_eq (ctx : QemuContext) (hlock : ctx.lock = false) :
    ctx.nextAttachId =
      .ok ({ ctx with attachId := (ctx.attachId + 1) % 2 ^ 64 }, ctx.attachId) := by
  cases ctx
  simp only at hlock
  subst hlock
  rfl

/-- The attach ids a sequence of `nextAttachId` and `resetAddr` calls returns: the
counter, the counter plus one, and so on, modulo 2^64. -/
theorem attachRun_ids (PciAddrFrom : Int) (calls : List AddrCall) (ctx : QemuContext)
    (hlock : ctx.lock = false) (hrange : ctx.attachId < 2 ^ 64) :
    ∃ ctx' ids, ctx.attachRun PciAddrFrom calls = .ok (ctx', ids) ∧
      ids = (List.range (calls.count .nextAttachId)).map
        (fun (k : Nat) => (ctx.attachId + k) % 2 ^ 64) := by
  induction calls generalizing ctx with
  | nil => exact ⟨ctx, [], rfl, rfl⟩
  | cons c rest ih =>
    cases c with
    | nextAttachId =>
      obtain ⟨ctx', ids, hrun, hids⟩ :=
        ih { ctx with attachId := (ctx.attachId + 1) % 2 ^ 64 } hlock (Nat.mod_lt _ (by norm_num))
      refine ⟨ctx', ctx.attachId :: ids, ?_, ?_⟩
      · simp only [QemuContext.attachRun, nextAttachId_eq ctx hlock, hrun]
      · rw [hids, List.count_cons_self, List.range_succ_eq_map, List.map_cons, List.map_map]
        congr 1
        · simp only [Nat.add_zero]
          exact (Nat.mod_eq_of_lt hrange).symm
        · apply List.map_congr_left
          intro k _
          simp only [Function.comp, Nat.add_mod_mod, Nat.mod_add_mod]
          congr 1
          omega
    | resetAddr =>
      obtain ⟨ctx', ids, hrun, hids⟩ :=
        ih { ctx with pciAddr := PciAddrFrom, scsiId := 0 } hlock hrange
      refine ⟨ctx', ids, ?_, ?_⟩
      · simp only [QemuContext.attachRun, resetAddr_eq PciAddrFrom ctx hlock, hrun]
      · rw [hids, List.count_cons_of_ne (by decide)]

/-- C20: on an unlocked context `resetAddr` returns; it sets `pciAddr` to `PciAddrFrom`
and `scsiId` to 0 and leaves `attachId` and every other field as they were. So in every
sequence of `nextAttachId` and `resetAddr` calls with at most 2^64 allocations every call
returns and no attach id is returned twice. -/
theorem resetAddr_keeps_attach_ids (PciAddrFrom : Int) (calls : List AddrCall)
    (ctx : QemuContext) (hlock : ctx.lock = false) (hrange : ctx.attachId < 2 ^ 64)
    (hcount : calls.count .nextAttachId ≤ 2 ^ 64) :
    (∃ c1, ctx.resetAddr PciAddrFrom = .ok c1 ∧
      c1 = { ctx with pciAddr := PciAddrFrom, scsiId := 0 } ∧ c1.attachId = ctx.attachId) ∧
    ∃ ctx' ids, ctx.attachRun PciAddrFrom calls = .ok (ctx', ids) ∧
      ids.length = calls.count .nextAttachId ∧ ids.Nodup := by
  refine ⟨⟨_, resetAddr_eq PciAddrFrom ctx hlock, rfl, rfl⟩, ?_⟩
  obtain ⟨ctx', ids, hrun, hids⟩ := attachRun_ids PciAddrFrom calls ctx hlock hrange
  refine ⟨ctx', ids, hrun, by simp [hids], ?_⟩
  rw [hids]
  refine List.Nodup.map_on ?_ (List.nodup_range _)
  intro x hx y hy hxy
  have hx' := List.mem_range.mp hx
  have hy' := List.mem_range.mp hy
  have hM : (2 : Nat) ^ 64 = 18446744073709551616 := by norm_num
  simp only [hM] at hxy hcount hrange
  omega

/-- C20 on a context whose attach-id counter holds the largest `uint64`: three
allocations with two resets in between return 2^64 - 1, 0 and 1. -/
theorem resetAddr_keeps_attach_ids_witness :
    (∃ c1, lastAttachIdCtx.resetAddr 5 = .ok c1 ∧
      c1 = { lastAttachIdCtx with pciAddr := 5, scsiId := 0 } ∧
      c1.attachId = lastAttachIdCtx.attachId) ∧
    ∃ ctx' ids, lastAttachIdCtx.attachRun 5
        [.nextAttachId, .resetAddr, .nextAttachId, .resetAddr, .nextAttachId] =
          .ok (ctx', ids) ∧
      ids.length =
        [AddrCall.nextAttachId, .resetAddr, .nextAttachId, .resetAddr, .nextAttachId].count
          .nextAttachId ∧ ids.Nodup :=
  resetAddr_keeps_attach_ids 5
    [.nextAttachId, .resetAddr, .nextAttachId, .resetAddr, .nextAttachId] lastAttachIdCtx rfl
    (by decide) (by decide)

/-! ### Teardown of the containers -/

/-- What a returning `containerCreated` leaves: the file-system type of the container,
the image it registers, and the entry in `finished.containers`. -/
theorem containerCreated_step (ord : RangeOrder String String) (ctx ctx' : QemuContext)
    (info : ContainerCreatedEvent) (b : Bool)
    (h : ctx.containerCreated ord info = .ok (ctx', b)) :
    ctx'.lock = false ∧ ctx'.vmSpec.isSome = true ∧
      (ctx.devices.imageMap.WF → ctx'.devices.imageMap.WF) ∧
      (∀ i, fstypeAt ctx' i = if i = info.Index then some info.Fstype else fstypeAt ctx i) ∧
      (∀ name, imageKey ctx' name =
        if info.Fstype ≠ "dir" ∧ name = info.Image then some (info.Index, info.Fstype)
        else imageKey ctx name) ∧
      ctx'.progress.finished.containers =
        ctx.progress.finished.containers.set info.Index true ∧
      ctx'.progress.deleting = ctx.progress.deleting := by
  unfold QemuContext.containerCreated QemuContext.Lock at h
  cases hl : ctx.lock with
  | true => simp [hl] at h
  | false =>
    simp only [hl, Bool.false_eq_true, if_false] at h
    cases hvm : ctx.vmSpec with
    | none => simp [hvm] at h
    | some vm =>
      simp only [hvm] at h
      cases hc : getIdx vm.Containers info.Index with
      | none => simp [hc] at h
      | some c =>
        simp only [hc] at h
        have hfs : ∀ (c' : VmContainer), c'.Fstype = info.Fstype → ∀ i,
            (getIdx (setIdx vm.Containers info.Index c') i).map (fun c => c.Fstype) =
              if i = info.Index then some info.Fstype
              else (getIdx vm.Containers i).map (fun c => c.Fstype) := by
          intro c' hc' i
          rw [getIdx_setIdx]
          by_cases hi : i = info.Index
          · subst hi
            simp [hc, hc']
          · simp [hi]
        by_cases hd : info.Fstype = "dir"
        · simp only [hd, beq_self_eq_true, if_true, Except.ok.injEq, Prod.mk.injEq] at h
          obtain ⟨h, -⟩ := h
          subst h
          refine ⟨rfl, rfl, fun hw => hw, ?_, ?_, rfl, rfl⟩
          · intro i
            have := hfs { QemuContext.mergeCreated ord c info with Image := info.Image }
              rfl i
            simpa [fstypeAt, QemuContext.container?, QemuContext.Unlock,
              QemuContext.modAdding, QemuContext.modFinished, QemuContext.putContainer, hvm,
              hd] using this
          · intro name
            simp [imageKey, QemuContext.Unlock, QemuContext.modAdding,
              QemuContext.modFinished, QemuContext.putContainer, hd]
        · have hd' : (info.Fstype == "dir") = false := by simpa using hd
          simp only [hd', Bool.false_eq_true, if_false, Except.ok.injEq, Prod.mk.injEq] at h
          obtain ⟨h, -⟩ := h
          subst h
          refine ⟨rfl, rfl, fun hw => GoMap.WF_set _ _ _ hw, ?_, ?_, rfl, rfl⟩
          · intro i
            have := hfs (QemuContext.mergeCreated ord c info) rfl i
            simpa [fstypeAt, QemuContext.container?, QemuContext.Unlock,
              QemuContext.modAdding, QemuContext.modFinished, QemuContext.modDevices,
              QemuContext.putContainer, hvm] using this
          · intro name
            simp only [imageKey, QemuContext.Unlock, QemuContext.modAdding,
              QemuContext.modFinished, QemuContext.modDevices, QemuContext.putContainer]
            by_cases hn : name = info.Image
            · subst hn
              simp [GoMap.get?_set_self, hd]
            · simp [GoMap.get?_set_of_ne _ _ _ _ hn, hn]

theorem appendVolume_step (s s' : QemuContext) (i : Int) (d : VmVolumeDescriptor)
    (h : s.appendVolume i d = .ok s') :
    s'.lock = s.lock ∧ s'.progress = s.progress ∧ s'.devices = s.devices ∧
      s'.vmSpec.isSome = s.vmSpec.isSome ∧ ∀ j, fstypeAt s' j = fstypeAt s j := by
  unfold QemuContext.appendVolume at h
  cases hvm : s.vmSpec with
  | none => simp [hvm] at h
  | some vm =>
    simp only [hvm] at h
    cases hc : getIdx vm.Containers i with
    | none => simp [hc] at h
    | some c =>
      simp only [hc, Except.ok.injEq] at h
      subst h
      refine ⟨rfl, rfl, rfl, rfl, fun j => ?_⟩
      simp only [fstypeAt, QemuContext.container?, QemuContext.putContainer, hvm,
        getIdx_setIdx]
      by_cases hj : j = i
      · subst hj
        simp [hc]
      · simp [hj]

/-- Lines 374-392 of `blockdevInserted` leave the file-system types of the containers and
the owner and type of every image as they are. -/
theorem recordBlockdev_step (ord : RangeOrder Int String) (x y : QemuContext)
    (info : BlockdevInsertedEvent) (h : x.recordBlockdev ord info = .ok y) :
    y.lock = x.lock ∧ y.progress = x.progress ∧ y.vmSpec.isSome = x.vmSpec.isSome ∧
      (x.devices.imageMap.WF → y.devices.imageMap.WF) ∧
      (∀ i, fstypeAt y i = fstypeAt x i) ∧ (∀ name, imageKey y name = imageKey x name) := by
  unfold QemuContext.recordBlockdev at h
  by_cases ht : info.SourceType = "image"
  · simp only [ht, beq_self_eq_true, if_true] at h
    cases himg : x.devices.imageMap.get? info.Name with
    | none => simp [himg] at h
    | some img =>
      simp only [himg, QemuContext.modDevices] at h
      cases hvm : x.vmSpec with
      | none => simp [hvm] at h
      | some vm =>
        simp only [hvm] at h
        cases hc : getIdx vm.Containers img.pos with
        | none => simp [hc] at h
        | some c =>
          simp only [hc, Except.ok.injEq] at h
          subst h
          refine ⟨rfl, rfl, by simp [QemuContext.putContainer, hvm],
            fun hw => GoMap.WF_set _ _ _ hw, fun i => ?_, fun name => ?_⟩
          · simp only [fstypeAt, QemuContext.container?, QemuContext.putContainer, hvm,
              getIdx_setIdx]
            by_cases hi : i = img.pos
            · subst hi
              simp [hc]
            · simp [hi]
          · simp only [imageKey, QemuContext.putContainer]
            by_cases hn : name = info.Name
            · subst hn
              simp [GoMap.get?_set_self, himg]
            · simp [GoMap.get?_set_of_ne _ _ _ _ hn]
  · have ht' : (info.SourceType == "image") = false := by simpa using ht
    simp only [ht', Bool.false_eq_true, if_false] at h
    by_cases hv : info.SourceType = "volume"
    · simp only [hv, beq_self_eq_true, if_true] at h
      cases hvol : x.devices.volumeMap.get? info.Name with
      | none => simp [hvol] at h
      | some vol =>
        simp only [hvol] at h
        generalize hx1 : QemuContext.modDevices x _ = x1 at h
        have e1 : x1.lock = x.lock := by rw [← hx1]; rfl
        have e2 : x1.progress = x.progress := by rw [← hx1]; rfl
        have e3 : x1.vmSpec = x.vmSpec := by rw [← hx1]; rfl
        have e4 : x1.devices.imageMap = x.devices.imageMap := by rw [← hx1]; rfl
        have hP := forEach_invariant _
          (fun s => s.lock = x1.lock ∧ s.progress = x1.progress ∧ s.devices = x1.devices ∧
            s.vmSpec.isSome = x1.vmSpec.isSome ∧ ∀ j, fstypeAt s j = fstypeAt x1 j)
          _ (fun s a s' _ hs hb => by
            obtain ⟨a1, a2, a3, a4, a5⟩ := appendVolume_step s s' _ _ hb
            exact ⟨a1.trans hs.1, a2.trans hs.2.1, a3.trans hs.2.2.1, a4.trans hs.2.2.2.1,
              fun j => (a5 j).trans (hs.2.2.2.2 j)⟩)
          x1 y ⟨rfl, rfl, rfl, rfl, fun _ => rfl⟩ h
        obtain ⟨p1, p2, p3, p4, p5⟩ := hP
        refine ⟨p1.trans e1, p2.trans e2, ?_, fun hw => ?_, fun i => ?_, fun name => ?_⟩
        · rw [p4, e3]
        · rw [p3, e4]
          exact hw
        · rw [p5 i]
          simp only [fstypeAt, QemuContext.container?, e3]
        · simp only [imageKey, p3, e4]
    · have hv' : (info.SourceType == "volume") = false := by simpa using hv
      simp only [hv', Bool.false_eq_true, if_false, Except.ok.injEq] at h
      subst h
      exact ⟨rfl, rfl, rfl, fun hw => hw, fun _ => rfl, fun _ => rfl⟩

/-- A returning `blockdevInserted` leaves the file-system types of the containers, the
owner and type of every image, `finished.containers` and `deleting` as they are. -/
theorem blockdevInserted_step (ord : RangeOrder Int String) (ctx ctx' : QemuContext)
    (info : BlockdevInsertedEvent) (h : ctx.blockdevInserted ord info = .ok ctx') :
    ctx'.lock = false ∧ ctx'.vmSpec.isSome = ctx.vmSpec.isSome ∧
      (ctx.devices.imageMap.WF → ctx'.devices.imageMap.WF) ∧
      (∀ i, fstypeAt ctx' i = fstypeAt ctx i) ∧
      (∀ name, imageKey ctx' name = imageKey ctx name) ∧
      ctx'.progress.finished.containers = ctx.progress.finished.containers ∧
      ctx'.progress.deleting = ctx.progress.deleting := by
  unfold QemuContext.blockdevInserted QemuContext.Lock at h
  cases hl : ctx.lock with
  | true => simp [hl] at h
  | false =>
    simp only [hl, Bool.false_eq_true, if_false] at h
    cases hr : ({ ctx with lock := true } : QemuContext).recordBlockdev ord info with
    | error e => simp [hr] at h
    | ok cR =>
      simp only [hr, Except.ok.injEq] at h
      subst h
      obtain ⟨-, r2, r3, r4, r5, r6⟩ := recordBlockdev_step ord _ cR info hr
      obtain ⟨-, f1, f2⟩ := finishBlockdev_fields cR info.Name
      have fp : (cR.finishBlockdev info.Name).progress.finished.containers =
            cR.progress.finished.containers ∧
          (cR.finishBlockdev info.Name).progress.deleting = cR.progress.deleting := by
        simp only [QemuContext.finishBlockdev, QemuContext.modFinished, QemuContext.modAdding]
        split <;> exact ⟨rfl, rfl⟩
      refine ⟨rfl, ?_, ?_, ?_, ?_, ?_, ?_⟩
      · show (cR.finishBlockdev info.Name).vmSpec.isSome = _
        rw [f2, r3]
      · intro hw
        show (cR.finishBlockdev info.Name).devices.imageMap.WF
        rw [f1]
        exact r4 hw
      · intro i
        have : fstypeAt (cR.finishBlockdev info.Name).Unlock i = fstypeAt cR i := by
          simp only [fstypeAt, QemuContext.container?, QemuContext.Unlock, f2]
        rw [this, r5 i]
        rfl
      · intro name
        have : imageKey (cR.finishBlockdev info.Name).Unlock name = imageKey cR name := by
          simp only [imageKey, QemuContext.Unlock, f1]
        rw [this, r6 name]
        rfl
      · show (cR.finishBlockdev info.Name).progress.finished.containers = _
        rw [fp.1, r2]
      · show (cR.finishBlockdev info.Name).progress.deleting = _
        rw [fp.2, r2]

theorem Prepared_created (evs : List CompletionEvent) (ord : RangeOrder String String)
    (ctx ctx' : QemuContext) (e : ContainerCreatedEvent) (b : Bool)
    (hp : Prepared evs ctx) (hmem : CompletionEvent.containerCreated e ∈ evs)
    (hapart : ImagesApart evs) (h : ctx.containerCreated ord e = .ok (ctx', b)) :
    Prepared evs ctx' := by
  obtain ⟨s1, s2, s3, s4, s5, s6, s7⟩ := containerCreated_step ord ctx ctx' e b h
  have hkeys : ∀ k, k ∈ ctx'.progress.finished.containers.keys ↔
      k = e.Index ∨ k ∈ ctx.progress.finished.containers.keys := by
    intro k
    rw [s6, GoMap.mem_keys_set]
  refine ⟨s1, s2, s3 hp.imageWF, by rw [s7]; exact hp.deleting, ?_, ?_, ?_⟩
  · intro i hi
    rw [hkeys]
    by_cases hie : i = e.Index
    · exact Or.inl hie
    · rw [s4, if_neg hie] at hi
      exact Or.inr (hp.dirDone i hi)
  · intro name pos fs hk
    rw [s5] at hk
    by_cases hc : e.Fstype ≠ "dir" ∧ name = e.Image
    · rw [if_pos hc] at hk
      simp only [Option.some.injEq, Prod.mk.injEq] at hk
      obtain ⟨rfl, rfl⟩ := hk
      exact ⟨hc.1, (hkeys _).mpr (Or.inl rfl), e, hmem, hc.1, hc.2.symm, rfl⟩
    · rw [if_neg hc] at hk
      obtain ⟨h1, h2, h3⟩ := hp.imgDone name pos fs hk
      exact ⟨h1, (hkeys _).mpr (Or.inr h2), h3⟩
  · intro i hi
    by_cases hie : i = e.Index
    · subst hie
      by_cases hd : e.Fstype = "dir"
      · left
        rw [s4, if_pos rfl, hd]
      · right
        refine ⟨e.Image, e.Fstype, ?_⟩
        rw [s5, if_pos ⟨hd, rfl⟩]
    · have hi' := ((hkeys i).mp hi).resolve_left hie
      rcases hp.marked i hi' with hdir | ⟨name, fs, hk⟩
      · left
        rw [s4, if_neg hie]
        exact hdir
      · right
        refine ⟨name, fs, ?_⟩
        rw [s5]
        by_cases hc : e.Fstype ≠ "dir" ∧ name = e.Image
        · exfalso
          obtain ⟨-, -, e0, he0, hd0, hn0, hi0⟩ := hp.imgDone name i fs hk
          have := hapart e0 e he0 hmem hd0 hc.1 (hn0.trans hc.2)
          exact hie (hi0.symm.trans this)
        · rw [if_neg hc]
          exact hk

theorem Prepared_inserted (evs : List CompletionEvent) (ord : RangeOrder Int String)
    (ctx ctx' : QemuContext) (e : BlockdevInsertedEvent)
    (hp : Prepared evs ctx) (h : ctx.blockdevInserted ord e = .ok ctx') :
    Prepared evs ctx' := by
  obtain ⟨s1, s2, s3, s4, s5, s6, s7⟩ := blockdevInserted_step ord ctx ctx' e h
  refine ⟨s1, by rw [s2]; exact hp.pod, s3 hp.imageWF, by rw [s7]; exact hp.deleting, ?_, ?_,
    ?_⟩
  · intro i hi
    rw [s6]
    rw [s4] at hi
    exact hp.dirDone i hi
  · intro name pos fs hk
    rw [s6]
    rw [s5] at hk
    exact hp.imgDone name pos fs hk
  · intro i hi
    rw [s6] at hi
    simp only [s4, s5]
    exact hp.marked i hi

/-- The entry `deliver` returns for a `ContainerCreated` event comes from
`containerCreated`. -/
theorem deliver_created (ordE : RangeOrder String String) (ordI : RangeOrder Int String)
    (ctx ctx' : QemuContext) (e : ContainerCreatedEvent)
    (h : deliver ordE ordI ctx (.containerCreated e) = .ok ctx') :
    ∃ b, ctx.containerCreated ordE e = .ok (ctx', b) := by
  simp only [deliver] at h
  cases hr : ctx.containerCreated ordE e with
  | error err => simp [hr, Except.map] at h
  | ok r =>
    obtain ⟨c, b⟩ := r
    simp only [hr, Except.map, Except.ok.injEq] at h
    subst h
    exact ⟨b, rfl⟩

/-- After a run of `ContainerCreated` and `BlockdevInserted` events, the keys of
`finished.containers` are the earlier ones and the indices of the created containers. -/
theorem deliver_finished (ordE : RangeOrder String String) (ordI : RangeOrder Int String)
    (evs : List CompletionEvent) (ctx ctx' : QemuContext)
    (hkinds : ∀ ev ∈ evs, ev.createdOrInserted = true)
    (hrun : forEach (deliver ordE ordI) evs ctx = .ok ctx') :
    ∀ i, i ∈ ctx'.progress.finished.containers.keys ↔
      i ∈ ctx.progress.finished.containers.keys ∨
        ∃ e, CompletionEvent.containerCreated e ∈ evs ∧ e.Index = i := by
  induction evs generalizing ctx with
  | nil =>
    simp only [forEach, Except.ok.injEq] at hrun
    subst hrun
    simp
  | cons ev rest ih =>
    simp only [forEach] at hrun
    cases hstep : deliver ordE ordI ctx ev with
    | error err => simp [hstep] at hrun
    | ok c1 =>
      simp only [hstep] at hrun
      have hrest := ih c1 (fun x hx => hkinds x (List.mem_cons_of_mem _ hx)) hrun
      intro i
      rw [hrest i]
      cases ev with
      | containerCreated e =>
        obtain ⟨b, hb⟩ := deliver_created ordE ordI ctx c1 e hstep
        obtain ⟨-, -, -, -, -, s6, -⟩ := containerCreated_step ordE ctx c1 e b hb
        rw [s6, GoMap.mem_keys_set]
        simp only [List.mem_cons, CompletionEvent.containerCreated.injEq]
        constructor
        · rintro ((rfl | h) | ⟨x, hx, rfl⟩)
          · exact Or.inr ⟨e, Or.inl rfl, rfl⟩
          · exact Or.inl h
          · exact Or.inr ⟨x, Or.inr hx, rfl⟩
        · rintro (h | ⟨x, rfl | hx, rfl⟩)
          · exact Or.inl (Or.inr h)
          · exact Or.inl (Or.inl rfl)
          · exact Or.inr ⟨x, hx, rfl⟩
      | blockdevInserted e =>
        obtain ⟨-, -, -, -, -, s6, -⟩ := blockdevInserted_step ordI ctx c1 e hstep
        rw [s6]
        simp only [List.mem_cons, reduceCtorEq, false_or]
      | volumeReady e =>
        exact absurd (hkinds _ (List.mem_cons_self _ _))
          (by simp [CompletionEvent.createdOrInserted])
      | netdevInserted e =>
        exact absurd (hkinds _ (List.mem_cons_self _ _))
          (by simp [CompletionEvent.createdOrInserted])

/-- A run of `ContainerCreated` and `BlockdevInserted` events that report distinct images
for distinct containers keeps the registry of created containers intact. -/
theorem deliver_prepared (ordE : RangeOrder String String) (ordI : RangeOrder Int String)
    (evs : List CompletionEvent) (ctx ctx' : QemuContext)
    (hkinds : ∀ ev ∈ evs, ev.createdOrInserted = true) (hapart : ImagesApart evs)
    (hp : Prepared evs ctx) (hrun : forEach (deliver ordE ordI) evs ctx = .ok ctx') :
    Prepared evs ctx' := by
  refine forEach_invariant (deliver ordE ordI) (Prepared evs) evs ?_ ctx ctx' hp hrun
  intro s ev s' hev hs hstep
  cases ev with
  | containerCreated e =>
    obtain ⟨b, hb⟩ := deliver_created ordE ordI s s' e hstep
    exact Prepared_created evs ordE s s' e b hs hev hapart hb
  | blockdevInserted e => exact Prepared_inserted evs ordI s s' e hs hstep
  | volumeReady e => exact absurd (hkinds _ hev) (by simp [CompletionEvent.createdOrInserted])
  | netdevInserted e => exact absurd (hkinds _ hev) (by simp [CompletionEvent.createdOrInserted])

/-- The loop of `releaseAufsDir` adds to `deleting.containers` the indices of the
enumerated containers whose root file system is a directory, and nothing else. -/
theorem foldl_markDirs (l : List (Nat × VmContainer)) (ctx : QemuContext) :
    ∃ r, l.foldl
        (fun ctx (e : Nat × VmContainer) =>
          if e.2.Fstype == "dir" then
            ctx.modDeleting fun pm =>
              { pm with containers := pm.containers.set (e.1 : Int) true }
          else ctx) ctx = r ∧
      r.devices = ctx.devices ∧ r.vmSpec = ctx.vmSpec ∧
      ∀ i, i ∈ r.progress.deleting.containers.keys ↔
        i ∈ ctx.progress.deleting.containers.keys ∨
          ∃ e ∈ l, e.2.Fstype = "dir" ∧ (e.1 : Int) = i := by
  induction l generalizing ctx with
  | nil => exact ⟨ctx, rfl, rfl, rfl, by simp⟩
  | cons e rest ih =>
    by_cases hd : e.2.Fstype = "dir"
    · obtain ⟨r, hr, h1, h2, h3⟩ := ih (ctx.modDeleting fun pm =>
        { pm with containers := pm.containers.set (e.1 : Int) true })
      refine ⟨r, by simp only [List.foldl_cons, hd, beq_self_eq_true, if_true]; exact hr, h1,
        h2, fun i => ?_⟩
      rw [h3 i]
      simp only [QemuContext.modDeleting, GoMap.mem_keys_set, List.mem_cons]
      constructor
      · rintro ((rfl | h) | ⟨x, hx, hxd, rfl⟩)
        · exact Or.inr ⟨e, Or.inl rfl, hd, rfl⟩
        · exact Or.inl h
        · exact Or.inr ⟨x, Or.inr hx, hxd, rfl⟩
      · rintro (h | ⟨x, rfl | hx, hxd, rfl⟩)
        · exact Or.inl (Or.inr h)
        · exact Or.inl (Or.inl rfl)
        · exact Or.inr ⟨x, hx, hxd, rfl⟩
    · have hd' : (e.2.Fstype == "dir") = false := by simpa using hd
      obtain ⟨r, hr, h1, h2, h3⟩ := ih ctx
      refine ⟨r, by simp only [List.foldl_cons, hd', Bool.false_eq_true, if_false]; exact hr,
        h1, h2, fun i => ?_⟩
      rw [h3 i]
      simp only [List.mem_cons]
      constructor
      · rintro (h | ⟨x, hx, hxd, rfl⟩)
        · exact Or.inl h
        · exact Or.inr ⟨x, Or.inr hx, hxd, rfl⟩
      · rintro (h | ⟨x, rfl | hx, hxd, rfl⟩)
        · exact Or.inl h
        · exact absurd hxd hd
        · exact Or.inr ⟨x, hx, hxd, rfl⟩

/-- `releaseAufsDir` on a context with a pod returns and adds to `deleting.containers`
the indices of the containers whose root file system is a directory. -/
theorem releaseAufsDir_keys (ctx : QemuContext) (hpod : ctx.vmSpec.isSome = true) :
    ∃ c3, ctx.releaseAufsDir = .ok c3 ∧ c3.devices = ctx.devices ∧
      ∀ i, i ∈ c3.progress.deleting.containers.keys ↔
        i ∈ ctx.progress.deleting.containers.keys ∨ fstypeAt ctx i = some "dir" := by
  obtain ⟨vm, hvm⟩ := Option.isSome_iff_exists.mp hpod
  obtain ⟨r, hr, h1, -, h3⟩ := foldl_markDirs vm.Containers.enum ctx
  refine ⟨r, by simp only [QemuContext.releaseAufsDir, hvm, hr], h1, fun i => ?_⟩
  rw [h3 i]
  have : (∃ e ∈ vm.Containers.enum, e.2.Fstype = "dir" ∧ (e.1 : Int) = i) ↔
      fstypeAt ctx i = some "dir" := by
    simp only [fstypeAt, QemuContext.container?, hvm, Option.map_eq_some']
    constructor
    · rintro ⟨⟨n, c⟩, he, hd, rfl⟩
      refine ⟨c, ?_, hd⟩
      rw [getIdx_eq_some_iff]
      exact ⟨Int.ofNat_nonneg n, by simpa using List.mk_mem_enum_iff_getElem?.mp he⟩
    · rintro ⟨c, hc, hd⟩
      obtain ⟨h0, hget⟩ := (getIdx_eq_some_iff _ _ _).mp hc
      exact ⟨(i.toNat, c), List.mk_mem_enum_iff_getElem?.mpr hget, hd, Int.toNat_of_nonneg h0⟩
  rw [this]

/-- The loop of `removeImageDrive` over an open channel returns and adds to
`deleting.containers` the owners of the enumerated images that are not directories. -/
theorem forEach_markImages (l : List (String × imageInfo)) (ctx : QemuContext) :
    ∃ r, forEach (QemuContext.markImage true) l ctx = .ok r ∧
      ∀ i, i ∈ r.progress.deleting.containers.keys ↔
        i ∈ ctx.progress.deleting.containers.keys ∨
          ∃ e ∈ l, e.2.info.fstype ≠ "dir" ∧ e.2.pos = i := by
  induction l generalizing ctx with
  | nil => exact ⟨ctx, rfl, by simp⟩
  | cons e rest ih =>
    by_cases hd : e.2.info.fstype = "dir"
    · obtain ⟨r, hr, h3⟩ := ih ctx
      have hstep : QemuContext.markImage true ctx e = .ok ctx := by
        simp [QemuContext.markImage, hd]
      refine ⟨r, ?_, fun i => ?_⟩
      · simp only [forEach, hstep]
        exact hr
      rw [h3 i]
      simp only [List.mem_cons]
      constructor
      · rintro (h | ⟨x, hx, hxd, rfl⟩)
        · exact Or.inl h
        · exact Or.inr ⟨x, Or.inr hx, hxd, rfl⟩
      · rintro (h | ⟨x, rfl | hx, hxd, rfl⟩)
        · exact Or.inl h
        · exact absurd hd hxd
        · exact Or.inr ⟨x, hx, hxd, rfl⟩
    · obtain ⟨r, hr, h3⟩ := ih (ctx.modDeleting fun pm =>
        { pm with containers := pm.containers.set e.2.pos true })
      have hstep : QemuContext.markImage true ctx e = .ok (ctx.modDeleting fun pm =>
          { pm with containers := pm.containers.set e.2.pos true }) := by
        simp [QemuContext.markImage, hd]
      refine ⟨r, ?_, fun i => ?_⟩
      · simp only [forEach, hstep]
        exact hr
      rw [h3 i]
      simp only [QemuContext.modDeleting, GoMap.mem_keys_set, List.mem_cons]
      constructor
      · rintro ((rfl | h) | ⟨x, hx, hxd, rfl⟩)
        · exact Or.inr ⟨e, Or.inl rfl, hd, rfl⟩
        · exact Or.inl h
        · exact Or.inr ⟨x, Or.inr hx, hxd, rfl⟩
      · rintro (h | ⟨x, rfl | hx, hxd, rfl⟩)
        · exact Or.inl (Or.inr h)
        · exact Or.inl (Or.inl rfl)
        · exact Or.inr ⟨x, hx, hxd, rfl⟩

/-- `removeImageDrive` over an open channel returns and adds to `deleting.containers`
the owners of the images that are not directories. -/
theorem removeImageDrive_keys (ord : RangeOrder String imageInfo) (hord : ord.Valid)
    (ctx : QemuContext) (hwf : ctx.devices.imageMap.WF) :
    ∃ c4, ctx.removeImageDrive ord true = .ok c4 ∧
      ∀ i, i ∈ c4.progress.deleting.containers.keys ↔
        i ∈ ctx.progress.deleting.containers.keys ∨
          ∃ name fs, imageKey ctx name = some (i, fs) ∧ fs ≠ "dir" := by
  obtain ⟨r, hr, h3⟩ := forEach_markImages (ord ctx.devices.imageMap) ctx
  refine ⟨r, hr, fun i => ?_⟩
  rw [h3 i]
  have : (∃ e ∈ ord ctx.devices.imageMap, e.2.info.fstype ≠ "dir" ∧ e.2.pos = i) ↔
      ∃ name fs, imageKey ctx name = some (i, fs) ∧ fs ≠ "dir" := by
    simp only [imageKey, Option.map_eq_some', Prod.mk.injEq]
    constructor
    · rintro ⟨⟨name, img⟩, he, hd, rfl⟩
      have hm : (name, img) ∈ ctx.devices.imageMap := (hord _).mem_iff.mp he
      exact ⟨name, img.info.fstype,
        ⟨img, (GoMap.get?_eq_some_iff_mem _ hwf _ _).mpr hm, rfl, rfl⟩, hd⟩
    · rintro ⟨name, fs, ⟨img, hget, rfl, rfl⟩, hd⟩
      exact ⟨(name, img), (hord _).mem_iff.mpr ((GoMap.get?_eq_some_iff_mem _ hwf _ _).mp hget),
        hd, rfl⟩
  rw [this]

/-- Right after `InitDeviceContext` on a context fresh from `initContext` no container
is created, no image is registered and nothing is marked for deletion. -/
theorem InitDeviceContext_prepared (evs : List CompletionEvent) (PciAddrFrom : Int)
    (BaseDir id : String) (cpu memory : Int) (kernel initrd : String) (spec : UserPod)
    (networks : Int) (c1 : QemuContext)
    (hinit : (initContext PciAddrFrom BaseDir id cpu memory kernel initrd).InitDeviceContext
      spec networks = .ok c1) :
    Prepared evs c1 ∧ c1.progress.finished.containers = [] := by
  have post := InitDeviceContext_post _ c1 spec networks hinit
  have hun : VolumesUnmounted (initContext PciAddrFrom BaseDir id cpu memory kernel initrd) := by
    refine ⟨List.nodup_nil, fun name vol h => ?_⟩
    simp [initContext, newDeviceMap, GoMap.get?] at h
  obtain ⟨-, -, vm, hvm, hcs⟩ := InitDeviceContext_detail _ c1 spec networks hun hinit
  have himg : c1.devices.imageMap = [] := post.imageMap
  have hfin : c1.progress.finished.containers = [] := by rw [post.finished]; rfl
  have hdel : c1.progress.deleting.containers = [] := by rw [post.deleting]; rfl
  refine ⟨⟨post.lock, by rw [hvm]; rfl, by rw [himg]; exact List.nodup_nil, hdel, ?_, ?_, ?_⟩,
    hfin⟩
  · intro i hi
    simp only [fstypeAt, QemuContext.container?, hvm, hcs, Option.map_eq_some'] at hi
    obtain ⟨c, hc, hd⟩ := hi
    obtain ⟨-, hget⟩ := (getIdx_eq_some_iff _ _ _).mp hc
    rw [List.getElem?_map, Option.map_eq_some'] at hget
    obtain ⟨u, -, rfl⟩ := hget
    simp [initialContainer] at hd
  · intro name pos fs hk
    simp [imageKey, himg, GoMap.get?] at hk
  · intro i hi
    rw [hfin] at hi
    simp [GoMap.keys] at hi

/-- C21 (counterexample): in scenario S2 both containers are created and report the
image `/dev/mapper/img0`. After `releaseAufsDir` and `removeImageDrive` only container 1
is in `deleting.containers`; container 0, which was created as well, is not. -/
theorem teardown_misses_shared_image :
    freshCtx.InitDeviceContext s2Spec 0 = .ok s2Ctx ∧
    ∃ c2 c3 c4,
      forEach (deliver id id) [.containerCreated sampleCreated, .containerCreated sharedCreated]
        s2Ctx = .ok c2 ∧
      c2.progress.finished.containers.keys = [0, 1] ∧
      c2.releaseAufsDir = .ok c3 ∧ c3.removeImageDrive id true = .ok c4 ∧
      c4.progress.deleting.containers.keys = [1] :=
  ⟨rfl, _, _, _, rfl, rfl, rfl, rfl, rfl⟩

/-- C21 (amended): take a context reached from `InitDeviceContext` (on a context fresh
from `initContext`) by a sequence of `ContainerCreated` and `BlockdevInserted` events in
which no two different containers report the same image name for a root file system that
is not a directory. Then `releaseAufsDir` and `removeImageDrive` return; after
`releaseAufsDir` the set `deleting.containers` holds the containers whose root file
system is a directory, and after `removeImageDrive` it holds the index of every container
for which `containerCreated` has completed and no other index. -/
theorem teardown_marks_created (ordE : RangeOrder String String)
    (ordI : RangeOrder Int String) (ordM : RangeOrder String imageInfo) (hordM : ordM.Valid)
    (PciAddrFrom : Int) (BaseDir id : String) (cpu memory : Int) (kernel initrd : String)
    (spec : UserPod) (networks : Int) (c1 c2 : QemuContext) (evs : List CompletionEvent)
    (hinit : (initContext PciAddrFrom BaseDir id cpu memory kernel initrd).InitDeviceContext
      spec networks = .ok c1)
    (hkinds : ∀ ev ∈ evs, ev.createdOrInserted = true) (hapart : ImagesApart evs)
    (hrun : forEach (deliver ordE ordI) evs c1 = .ok c2) :
    ∃ c3 c4, c2.releaseAufsDir = .ok c3 ∧ c3.removeImageDrive ordM true = .ok c4 ∧
      (∀ i, i ∈ c3.progress.deleting.containers.keys ↔ fstypeAt c2 i = some "dir") ∧
      ∀ i, i ∈ c4.progress.deleting.containers.keys ↔
        ∃ e, CompletionEvent.containerCreated e ∈ evs ∧ e.Index = i := by
  obtain ⟨hp1, hfin1⟩ := InitDeviceContext_prepared evs PciAddrFrom BaseDir id cpu memory
    kernel initrd spec networks c1 hinit
  have hp2 := deliver_prepared ordE ordI evs c1 c2 hkinds hapart hp1 hrun
  have hfin := deliver_finished ordE ordI evs c1 c2 hkinds hrun
  obtain ⟨c3, hr3, hdev3, hk3⟩ := releaseAufsDir_keys c2 hp2.pod
  obtain ⟨c4, hr4, hk4⟩ := removeImageDrive_keys ordM hordM c3 (by rw [hdev3]; exact hp2.imageWF)
  have hk3' : ∀ i, i ∈ c3.progress.deleting.containers.keys ↔ fstypeAt c2 i = some "dir" := by
    intro i
    rw [hk3 i, hp2.deleting]
    simp [GoMap.keys]
  have hkey3 : ∀ name, imageKey c3 name = imageKey c2 name := by
    intro name
    simp only [imageKey, hdev3]
  refine ⟨c3, c4, hr3, hr4, hk3', fun i => ?_⟩
  rw [hk4 i, hk3' i]
  have hfin' : (∃ e, CompletionEvent.containerCreated e ∈ evs ∧ e.Index = i) ↔
      i ∈ c2.progress.finished.containers.keys := by
    rw [hfin i, hfin1]
    simp [GoMap.keys]
  rw [hfin']
  constructor
  · rintro (hd | ⟨name, fs, hk, -⟩)
    · exact hp2.dirDone i hd
    · rw [hkey3] at hk
      exact (hp2.imgDone name i fs hk).2.1
  · intro hi
    rcases hp2.marked i hi with hd | ⟨name, fs, hk⟩
    · exact Or.inl hd
    · exact Or.inr ⟨name, fs, by rw [hkey3]; exact hk, (hp2.imgDone name i fs hk).1⟩

/-- C21 (amended), on scenario S2: the first container is created on a directory, the
second on the image `/dev/mapper/img1`, which is then inserted. -/
theorem teardown_marks_created_witness :
    ∃ c3 c4, (orElse (forEach (deliver id id)
        [.containerCreated sampleCreatedDir, .containerCreated ownCreated,
         .blockdevInserted ownInserted] s2Ctx) freshCtx).releaseAufsDir = .ok c3 ∧
      c3.removeImageDrive List.reverse true = .ok c4 ∧
      (∀ i, i ∈ c3.progress.deleting.containers.keys ↔
        fstypeAt (orElse (forEach (deliver id id)
          [.containerCreated sampleCreatedDir, .containerCreated ownCreated,
           .blockdevInserted ownInserted] s2Ctx) freshCtx) i = some "dir") ∧
      ∀ i, i ∈ c4.progress.deleting.containers.keys ↔
        ∃ e, CompletionEvent.containerCreated e ∈
          [CompletionEvent.containerCreated sampleCreatedDir, .containerCreated ownCreated,
           .blockdevInserted ownInserted] ∧ e.Index = i :=
  teardown_marks_created id id List.reverse (fun m => List.reverse_perm m) 5 "/var/run/dvm"
    "vm-abcdefghij" 1 512 "kernel" "initrd.img" s2Spec 0 s2Ctx _
    [.containerCreated sampleCreatedDir, .containerCreated ownCreated,
     .blockdevInserted ownInserted] rfl
    (by
      intro ev hev
      simp only [List.mem_cons, List.mem_singleton, List.not_mem_nil, or_false] at hev
      rcases hev with rfl | rfl | rfl <;> rfl)
    (by
      intro e1 e2 h1 h2 d1 d2 _
      simp only [List.mem_cons, CompletionEvent.containerCreated.injEq, reduceCtorEq,
        List.not_mem_nil, or_false] at h1 h2
      rcases h1 with rfl | rfl
      · exact absurd rfl d1
      · rcases h2 with rfl | rfl
        · exact absurd rfl d2
        · rfl)
    rfl

/-! ### The aufs driver -/

/-- The first pass packs a prefix of the layers, in order, and keeps the buffer within
its capacity. -/
theorem packLayers_spec (cap : Nat) (ro : List Bytes) (buf : Bytes) (hbuf : buf.length ≤ cap) :
    ∃ n, n ≤ ro.length ∧
      packLayers cap buf ro = (buf ++ ((ro.take n).map layerOption).flatten, ro.drop n) ∧
      (buf ++ ((ro.take n).map layerOption).flatten).length ≤ cap := by
  induction ro generalizing buf with
  | nil => exact ⟨0, le_refl _, by simp [packLayers], by simpa using hbuf⟩
  | cons l rest ih =>
    by_cases hfit : buf.length + (layerOption l).length > cap
    · exact ⟨0, Nat.zero_le _, by simp [packLayers, hfit], by simpa using hbuf⟩
    · obtain ⟨n, hn, hrun, hlen⟩ := ih (buf ++ layerOption l) (by
        rw [List.length_append]
        omega)
      refine ⟨n + 1, by simpa using hn, ?_, ?_⟩
      · simp only [packLayers, hfit, if_false, hrun, List.take_succ_cons, List.map_cons,
          List.flatten_cons, List.drop_succ_cons, List.append_assoc]
      · simpa only [List.take_succ_cons, List.map_cons, List.flatten_cons,
          List.append_assoc] using hlen

/-- When no mount call fails, the later pass remounts every remaining layer, in order. -/
theorem remountLayers_ok (mountOk : MountCall → Bool) (hok : ∀ c, mountOk c = true)
    (rest : List Bytes) (calls : List MountCall) :
    remountLayers mountOk calls rest =
      .ok (calls ++ rest.map fun l =>
        { remount := true, options := ascii "append:" ++ l ++ ascii "=ro+wh" }) := by
  induction rest generalizing calls with
  | nil => simp [remountLayers]
  | cons l rest ih =>
    simp only [remountLayers, hok, if_true, ih, List.map_cons, List.append_assoc,
      List.singleton_append]
    rfl

/-- The outer loop with fuel for two turns, when no mount call fails: one initial mount
with the packed prefix, then one remount per remaining layer. -/
theorem aufsLoop_ok (mountOk : MountCall → Bool) (hok : ∀ c, mountOk c = true)
    (dirperm : Bool) (cap fuel : Nat) (buf : Bytes) (ro : List Bytes) (n : Nat)
    (hpack : packLayers cap buf ro =
      (buf ++ ((ro.take n).map layerOption).flatten, ro.drop n)) :
    aufsLoop mountOk dirperm cap (fuel + 2) true buf ro [] =
      some (.mounted
        ({ remount := false,
           options := buf ++ ((ro.take n).map layerOption).flatten ++ ascii "," ++
             (if dirperm then ascii "dio,xino=/dev/shm/aufs.xino" ++ ascii ",dirperm1"
              else ascii "dio,xino=/dev/shm/aufs.xino") } ::
          (ro.drop n).map fun l =>
            { remount := true, options := ascii "append:" ++ l ++ ascii "=ro+wh" })) := by
  simp only [aufsLoop, hpack, hok, if_true, List.nil_append]
  cases hrest : ro.drop n with
  | nil => simp
  | cons l rest =>
    simp only [List.isEmpty_cons, Bool.false_eq_true, if_false, aufsLoop,
      remountLayers_ok mountOk hok, List.singleton_append]

/-- C22: for every list `ro` of read-only layers, when no mount call fails and the page
holds the mount label and the reserved bytes, `aufsMount` terminates (two turns of the
outer loop are enough) with `err == nil` and handles each layer once and in list order.
There is exactly one mount that is not a remount, the first call; its option string is
`br:<rw>=rw` (cut at the end of the buffer), the options `:<layer>=ro+wh` of the first
`n` layers, a comma and the fixed options. Each of the remaining layers is added, in
order, by a remount with the option `append:<layer>=ro+wh`. The option string of the
first mount is not longer than the page size minus the length of the mount label. -/
theorem aufsMount_layers (pagesize : Nat) (dirperm : Bool) (mountOk : MountCall → Bool)
    (fuel : Nat) (ro : List Bytes) (rw mountLabel : Bytes)
    (hok : ∀ c, mountOk c = true)
    (hroom : mountLabel.length + 54 + (if dirperm then 8 else 0) ≤ pagesize)
    (hfuel : 2 ≤ fuel) :
    ∃ n opts, n ≤ ro.length ∧
      aufsMount pagesize dirperm mountOk fuel ro rw mountLabel =
        some (.mounted ({ remount := false, options := opts } ::
          (ro.drop n).map fun l =>
            { remount := true, options := ascii "append:" ++ l ++ ascii "=ro+wh" })) ∧
      opts = (ascii "br:" ++ rw ++ ascii "=rw").take
            (pagesize - mountLabel.length - (54 + if dirperm then 8 else 0)) ++
          ((ro.take n).map fun l => ascii ":" ++ l ++ ascii "=ro+wh").flatten ++ ascii "," ++
          (if dirperm then ascii "dio,xino=/dev/shm/aufs.xino,dirperm1"
           else ascii "dio,xino=/dev/shm/aufs.xino") ∧
      opts.length ≤ pagesize - mountLabel.length := by
  obtain ⟨f, rfl⟩ : ∃ f, fuel = f + 2 := ⟨fuel - 2, by omega⟩
  have h8 : (ascii "dirperm1").length = 8 := rfl
  have ho : (ascii "dio,xino=/dev/shm/aufs.xino").length = 27 := rfl
  have ho2 : (ascii "dio,xino=/dev/shm/aufs.xino,dirperm1").length = 36 := rfl
  have hsum : ascii "dio,xino=/dev/shm/aufs.xino" ++ ascii ",dirperm1" =
      ascii "dio,xino=/dev/shm/aufs.xino,dirperm1" := rfl
  have hcomma : (ascii ",").length = 1 := rfl
  obtain ⟨cap, hcap⟩ : ∃ cap, cap = pagesize - mountLabel.length -
      (54 + if dirperm then 8 else 0) := ⟨_, rfl⟩
  obtain ⟨n, hn, hpack, hlen⟩ := packLayers_spec cap ro
    ((ascii "br:" ++ rw ++ ascii "=rw").take cap) (List.length_take_le _ _)
  have hloop := aufsLoop_ok mountOk hok dirperm cap f _ ro n hpack
  have hnopanic : ¬ pagesize < mountLabel.length + (54 + if dirperm then 8 else 0) := by
    omega
  refine ⟨n, _, hn, ?_, rfl, ?_⟩
  · have hm : aufsMount pagesize dirperm mountOk (f + 2) ro rw mountLabel =
        aufsLoop mountOk dirperm cap (f + 2) true
          ((ascii "br:" ++ rw ++ ascii "=rw").take cap) ro [] := by
      cases dirperm
      · simp only [aufsMount, Bool.false_eq_true, if_false] at hnopanic hcap ⊢
        rw [if_neg hnopanic, hcap]
      · simp only [aufsMount, if_true, h8] at hnopanic hcap ⊢
        rw [if_neg hnopanic, hcap]
    rw [hm, hloop, ← hcap]
    cases dirperm <;> rfl
  · rw [← hcap]
    have hlayer : ((ro.take n).map fun l => ascii ":" ++ l ++ ascii "=ro+wh") =
        (ro.take n).map layerOption := rfl
    rw [hlayer]
    simp only [List.length_append] at hlen ⊢
    cases dirperm
    · simp only [Bool.false_eq_true, if_false, ho, hcomma] at hcap hroom ⊢
      omega
    · simp only [if_true, ho2, hcomma] at hcap hroom ⊢
      omega

/-- C22 with a page of 100 bytes, no mount label and five layers of which three fit the
buffer. -/
theorem aufsMount_layers_witness :
    ∃ n opts, n ≤ [ascii "/d/l1", ascii "/d/l2", ascii "/d/l3", ascii "/d/l4",
        ascii "/d/l5"].length ∧
      aufsMount 100 false (fun _ => true) 2
          [ascii "/d/l1", ascii "/d/l2", ascii "/d/l3", ascii "/d/l4", ascii "/d/l5"]
          (ascii "/d/c") [] =
        some (.mounted ({ remount := false, options := opts } ::
          ([ascii "/d/l1", ascii "/d/l2", ascii "/d/l3", ascii "/d/l4",
            ascii "/d/l5"].drop n).map fun l =>
            { remount := true, options := ascii "append:" ++ l ++ ascii "=ro+wh" })) ∧
      opts = (ascii "br:" ++ ascii "/d/c" ++ ascii "=rw").take
            (100 - ([] : Bytes).length - (54 + if false then 8 else 0)) ++
          (([ascii "/d/l1", ascii "/d/l2", ascii "/d/l3", ascii "/d/l4",
            ascii "/d/l5"].take n).map fun l => ascii ":" ++ l ++ ascii "=ro+wh").flatten ++
          ascii "," ++
          (if false then ascii "dio,xino=/dev/shm/aufs.xino,dirperm1"
           else ascii "dio,xino=/dev/shm/aufs.xino") ∧
      opts.length ≤ 100 - ([] : Bytes).length :=
  aufsMount_layers 100 false (fun _ => true) 2
    [ascii "/d/l1", ascii "/d/l2", ascii "/d/l3", ascii "/d/l4", ascii "/d/l5"]
    (ascii "/d/c") [] (fun _ => rfl) (by decide) (by decide)

/-! ### Lookup -/

/-- The loop of `Lookup` over the containers numbered from `k`: -1 when no container has
the id, otherwise the number of the first container that has it. -/
theorem lookupIn_enumFrom (name : String) (l : List VmContainer) (k : Nat) :
    (lookupIn name (l.enumFrom k) = -1 ∧ ∀ c ∈ l, c.Id ≠ name) ∨
      ∃ j c, lookupIn name (l.enumFrom k) = ((k + j : Nat) : Int) ∧ l[j]? = some c ∧
        c.Id = name ∧ ∀ j' c', j' < j → l[j']? = some c' → c'.Id ≠ name := by
  induction l generalizing k with
  | nil => exact Or.inl ⟨rfl, by simp⟩
  | cons x rest ih =>
    by_cases hx : x.Id = name
    · refine Or.inr ⟨0, x, ?_, by simp, hx, fun j' c' hj => absurd hj (Nat.not_lt_zero _)⟩
      simp [List.enumFrom, lookupIn, hx]
    · have hstep : lookupIn name ((x :: rest).enumFrom k) =
          lookupIn name (rest.enumFrom (k + 1)) := by
        simp [List.enumFrom, lookupIn, hx]
      rw [hstep]
      rcases ih (k + 1) with ⟨hr, hall⟩ | ⟨j, c, hr, hget, hid, hmin⟩
      · refine Or.inl ⟨hr, fun c hc => ?_⟩
        rcases List.mem_cons.mp hc with rfl | hc
        · exact hx
        · exact hall c hc
      · refine Or.inr ⟨j + 1, c, ?_, by simpa using hget, hid, fun j' c' hj hg => ?_⟩
        · rw [hr]
          congr 1
          omega
        · cases j' with
          | zero =>
            simp only [List.getElem?_cons_zero, Option.some.injEq] at hg
            subst hg
            exact hx
          | succ m =>
            simp only [List.getElem?_cons_succ] at hg
            exact hmin m c' (by omega) hg

/-- C23: `Lookup("")` returns -1. On a context with a pod, `Lookup(name)` returns; the
result is -1 when `name` is empty or no container has `Id` equal to `name`; otherwise it
is the smallest index of a container whose `Id` is `name`. So the result is -1 or a valid
index into `vmSpec.Containers`, and the container at the result never has an empty
`Id`. -/
theorem Lookup_spec (ctx : QemuContext) (vm : VmPod) (name : String)
    (hvm : ctx.vmSpec = some vm) :
    ctx.Lookup "" = .ok (-1) ∧
    ∃ r, ctx.Lookup name = .ok r ∧
      ((name = "" ∨ ∀ c ∈ vm.Containers, c.Id ≠ name) → r = -1) ∧
      ((name ≠ "" ∧ ∃ c ∈ vm.Containers, c.Id = name) →
        ∃ c, getIdx vm.Containers r = some c ∧ c.Id = name ∧
          ∀ j c', 0 ≤ j → j < r → getIdx vm.Containers j = some c' → c'.Id ≠ name) ∧
      (r = -1 ∨ (0 ≤ r ∧ r < (vm.Containers.length : Int))) ∧
      ∀ c, getIdx vm.Containers r = some c → c.Id ≠ "" := by
  refine ⟨by simp [QemuContext.Lookup], ?_⟩
  have hneg : getIdx vm.Containers (-1) = none := by simp [getIdx]
  by_cases hn : name = ""
  · subst hn
    refine ⟨-1, by simp [QemuContext.Lookup], fun _ => rfl, fun h => absurd rfl h.1,
      Or.inl rfl, fun c hc => ?_⟩
    rw [hneg] at hc
    cases hc
  · have hrun : ctx.Lookup name = .ok (lookupIn name vm.Containers.enum) := by
      simp [QemuContext.Lookup, hn, hvm]
    refine ⟨_, hrun, ?_⟩
    rcases lookupIn_enumFrom name vm.Containers 0 with ⟨hr, hall⟩ | ⟨j, c, hr, hget, hid, hmin⟩
    · rw [List.enum, hr]
      refine ⟨fun _ => rfl, fun h => ?_, Or.inl rfl, fun c hc => ?_⟩
      · obtain ⟨-, c, hc, hid⟩ := h
        exact absurd hid (hall c hc)
      · rw [hneg] at hc
        cases hc
    · have hjlt : j < vm.Containers.length := by
        rcases Nat.lt_or_ge j vm.Containers.length with h | h
        · exact h
        · rw [List.getElem?_eq_none h] at hget
          cases hget
      have hgr : getIdx vm.Containers ((0 + j : Nat) : Int) = some c := by
        rw [getIdx_eq_some_iff]
        exact ⟨Int.ofNat_nonneg _, by simpa using hget⟩
      rw [List.enum, hr]
      refine ⟨fun h => ?_, fun _ => ⟨c, hgr, hid, fun j' c' h0 hlt hg => ?_⟩,
        Or.inr ⟨Int.ofNat_nonneg _, by simp only [Nat.zero_add]; exact_mod_cast hjlt⟩,
        fun c' hc' => ?_⟩
      · rcases h with h | h
        · exact absurd h hn
        · exact absurd hid (h c (List.getElem?_mem hget))
      · obtain ⟨-, hg'⟩ := (getIdx_eq_some_iff _ _ _).mp hg
        refine hmin j'.toNat c' ?_ hg'
        have : (j'.toNat : Int) = j' := Int.toNat_of_nonneg h0
        simp only [Nat.zero_add] at hlt
        omega
      · rw [hgr] at hc'
        cases hc'
        rw [hid]
        exact hn

/-- C23 on scenario S2 after both containers are created: the id `c1` is found at
index 1. -/
theorem Lookup_spec_witness :
    s2BothCreated.Lookup "" = .ok (-1) ∧
    ∃ r, s2BothCreated.Lookup "c1" = .ok r ∧
      (("c1" = "" ∨ ∀ c ∈ s2BothPod.Containers, c.Id ≠ "c1") → r = -1) ∧
      (("c1" ≠ "" ∧ ∃ c ∈ s2BothPod.Containers, c.Id = "c1") →
        ∃ c, getIdx s2BothPod.Containers r = some c ∧ c.Id = "c1" ∧
          ∀ j c', 0 ≤ j → j < r → getIdx s2BothPod.Containers j = some c' → c'.Id ≠ "c1") ∧
      (r = -1 ∨ (0 ≤ r ∧ r < (s2BothPod.Containers.length : Int))) ∧
      ∀ c, getIdx s2BothPod.Containers r = some c → c.Id ≠ "" :=
  Lookup_spec s2BothCreated s2BothPod "c1" rfl

/-! ### The lock in `InitDeviceContext` -/

/-- C24: the code at a failing input. On a fresh context, `InitDeviceContext` for a tty
pod with two containers and one network does not return: it takes the lock, and for the
first container it calls `nextAttachId`, whose `Lock` finds the lock held. The steps of
the operation show the second `Lock` before any `Unlock`, and running them blocks at that
step. The same pod without the tty flag is initialised. -/
theorem InitDeviceContext_relocks :
    freshCtx.InitDeviceContext ttyPairSpec 1 = .error .deadlock ∧
    Op.trace freshCtx (.InitDeviceContext ttyPairSpec) =
      [.lock, .lock, .unlock, .lock, .unlock, .unlock] ∧
    run [.lock, .lock] (freshCtx, liveHost) = .error .deadlock ∧
    ∃ c1, freshCtx.InitDeviceContext { ttyPairSpec with Tty := false } 1 = .ok c1 :=
  ⟨rfl, rfl, rfl, _, rfl⟩

/-! ### The directory listing of the aufs driver -/

theorem foldl_loadIds (dirs : List FileInfo) (acc : List String) :
    dirs.foldl (fun out d => if !d.IsDir then out ++ [d.Name] else out) acc =
      acc ++ (dirs.filter fun d => !d.IsDir).map fun d => d.Name := by
  induction dirs generalizing acc with
  | nil => simp
  | cons d rest ih =>
    rw [List.foldl_cons, ih]
    cases hd : d.IsDir <;> simp [hd, List.filter_cons]

/-- C25: the code at a failing input. For a listing with the directories `1` and `2`
and the file `layers.lock`, `loadIds` returns the name of the file and of no directory.
In general it returns, in listing order, the names of the entries that are not
directories, and it returns the error of the listing when the directory cannot be
read. -/
theorem loadIds_returns_files :
    loadIds (.ok [{ Name := "1", IsDir := true }, { Name := "2", IsDir := true },
        { Name := "layers.lock", IsDir := false }]) = .ok ["layers.lock"] ∧
    (∀ dirs, loadIds (.ok dirs) =
      .ok ((dirs.filter fun d => !d.IsDir).map fun d => d.Name)) ∧
    ∀ err, loadIds (.error err) = .error err := by
  refine ⟨rfl, fun dirs => ?_, fun _ => rfl⟩
  simp only [loadIds, foldl_loadIds, List.nil_append]

/-! ### Pods for which `InitDeviceContext` has no state to leave -/

/-- C10 (counterexample): on a fresh context `InitDeviceContext` does not return for a
pod without tty whose container mounts a volume that is not declared, nor for one whose
container mounts a declared volume with the driver `nfs`: in both the volume has no
registry entry and recording the mount dereferences nil, so there is no `progress.adding`
to speak of afterwards. -/
theorem InitDeviceContext_adding_panics :
    undeclaredMountSpec.Tty = false ∧ nfsMountSpec.Tty = false ∧
      freshCtx.InitDeviceContext undeclaredMountSpec 0 = .error .nilDereference ∧
      freshCtx.InitDeviceContext nfsMountSpec 0 = .error .nilDereference :=
  ⟨rfl, rfl, rfl, rfl⟩

/-- C12 (counterexample): the pod declares the volume `v` with the source `/data` and
the empty driver, and its container mounts `v` once, at `/mnt`. Every mount names a
declared volume, at most once per container, and yet `InitDeviceContext` does not
return on a fresh context: `v` has no registry entry and recording the mount
dereferences nil. -/
theorem InitDeviceContext_mount_panics :
    sourceOnlyMountSpec.Tty = false ∧
      (∀ c ∈ sourceOnlyMountSpec.Containers, ∀ v ∈ c.Volumes,
        ∃ vol ∈ sourceOnlyMountSpec.Volumes, v.Volume = vol.Name) ∧
      (∀ c ∈ sourceOnlyMountSpec.Containers, (c.Volumes.map fun v => v.Volume).Nodup) ∧
      freshCtx.InitDeviceContext sourceOnlyMountSpec 0 = .error .nilDereference :=
  ⟨rfl, by decide, by decide, rfl⟩

end Hyper
